import Mathlib

/-!
# STK500v2 bootloader (`src/stk500boot.c`): shallow embedding

The bootloader is one C function, `main`.  Its pieces are embedded here as
Lean functions over an explicit machine state:

* `msgParse`          the `switch (msgParseState)` of the receive state machine
                      (lines 984-1057), one call per received byte;
* `collectMessage`    the loop `while (msgParseState != ST_PROCESS)` around it;
* `processCommand`    the `switch (msgBuffer[0])` of the command interpreter
                      (lines 1121-1453);
* `sendAnswer`        the reply transmission (lines 1458-1484);
* `selfUpdate`        the watchdog-reset block at the top of `main`
                      (lines 777-829).

Machine integers are natural numbers, reduced modulo `2 ^ w` where the C code
can overflow (`unsigned char` 8 bit, `unsigned int` 16 bit, `unsigned long`
and `address_t` 32 bit: the build defines `RAMPZ`).

The constants of `command.h` are not part of the sources at hand; they are the
fields of `CommandH` and every statement holds for all their values.

The self-programming hardware (`avr/boot.h`, `avr/pgmspace.h`, `avr/eeprom.h`)
is modelled on the data sheet of the ATmega2560, the controller of the board
the file selects (`EINSYBOARD`; `APP_END` is `0x3e000`, see line 1353):
a page erase sets the addressed page to `0xFF`; a page fill loads one word
into the temporary page buffer (a latch that is loaded twice keeps the bitwise
AND); a page write programs the addressed page with the buffer (programming
only clears bits) and erases the buffer, as does re-enabling the RWW section.
Every such operation is also appended to `spmLog`.  Address bits above the
flash size are ignored by the hardware.

`msgBuffer` is a function from the index to the byte: indices from 285 on
stand for the memory behind the array, so an out-of-bounds access of the C
code is an access at such an index (it is not aliased to other variables).

Received bytes are a list, in the order the code reads them; sent bytes are
appended to `tx`.  Time is modelled by the end of the list only: every byte
of the list arrives before `recchar_timeout` runs out, and once the list is
used up the line stays silent, so `recchar_timeout` reaches its timeout and
jumps to the application if there is one (`jump`) or waits for ever (`hang`).
The LCD output, the LED and the delays have no influence on the variables
embedded here and are left out.
-/

namespace Stk500

/-! ## Constants -/

/-- The constants `stk500boot.c` takes from `command.h`. -/
structure CommandH where
  MESSAGE_START : Nat
  TOKEN : Nat
  STATUS_CMD_OK : Nat
  STATUS_CMD_FAILED : Nat
  CMD_SIGN_ON : Nat
  CMD_SET_PARAMETER : Nat
  CMD_GET_PARAMETER : Nat
  CMD_LOAD_ADDRESS : Nat
  CMD_ENTER_PROGMODE_ISP : Nat
  CMD_LEAVE_PROGMODE_ISP : Nat
  CMD_CHIP_ERASE_ISP : Nat
  CMD_PROGRAM_FLASH_ISP : Nat
  CMD_READ_FLASH_ISP : Nat
  CMD_PROGRAM_EEPROM_ISP : Nat
  CMD_READ_EEPROM_ISP : Nat
  CMD_READ_FUSE_ISP : Nat
  CMD_PROGRAM_LOCK_ISP : Nat
  CMD_READ_LOCK_ISP : Nat
  CMD_READ_SIGNATURE_ISP : Nat
  CMD_SPI_MULTI : Nat
  CMD_SET_UPLOAD_SIZE_PRUSA3D : Nat
  PARAM_BUILD_NUMBER_LOW : Nat
  PARAM_BUILD_NUMBER_HIGH : Nat
  PARAM_HW_VER : Nat
  PARAM_SW_MAJOR : Nat
  PARAM_SW_MINOR : Nat

/-- The case labels of `switch (msgBuffer[0])`, in source order. -/
def CommandH.caseLabels (K : CommandH) : List Nat :=
  [K.CMD_SPI_MULTI, K.CMD_SIGN_ON, K.CMD_GET_PARAMETER, K.CMD_LEAVE_PROGMODE_ISP,
   K.CMD_SET_PARAMETER, K.CMD_ENTER_PROGMODE_ISP, K.CMD_READ_SIGNATURE_ISP,
   K.CMD_READ_LOCK_ISP, K.CMD_READ_FUSE_ISP, K.CMD_PROGRAM_LOCK_ISP,
   K.CMD_CHIP_ERASE_ISP, K.CMD_LOAD_ADDRESS, K.CMD_SET_UPLOAD_SIZE_PRUSA3D,
   K.CMD_PROGRAM_FLASH_ISP, K.CMD_PROGRAM_EEPROM_ISP, K.CMD_READ_FLASH_ISP,
   K.CMD_READ_EEPROM_ISP]

/-- What the C compiler demands of the constants: the protocol bytes fit an
`unsigned char` and the case labels of the command switch are distinct. -/
def CommandH.valid (K : CommandH) : Prop :=
  K.MESSAGE_START < 256 ∧ K.TOKEN < 256 ∧ K.STATUS_CMD_OK < 256 ∧
  K.STATUS_CMD_FAILED < 256 ∧ K.caseLabels.Nodup

instance (K : CommandH) : Decidable K.valid := by
  unfold CommandH.valid; infer_instance

/-- The values of the STK500v2 protocol (Atmel AVR068), used for the concrete
instances below. -/
def avr068 : CommandH where
  MESSAGE_START := 0x1B
  TOKEN := 0x0E
  STATUS_CMD_OK := 0x00
  STATUS_CMD_FAILED := 0xC0
  CMD_SIGN_ON := 0x01
  CMD_SET_PARAMETER := 0x02
  CMD_GET_PARAMETER := 0x03
  CMD_LOAD_ADDRESS := 0x06
  CMD_ENTER_PROGMODE_ISP := 0x10
  CMD_LEAVE_PROGMODE_ISP := 0x11
  CMD_CHIP_ERASE_ISP := 0x12
  CMD_PROGRAM_FLASH_ISP := 0x13
  CMD_READ_FLASH_ISP := 0x14
  CMD_PROGRAM_EEPROM_ISP := 0x15
  CMD_READ_EEPROM_ISP := 0x16
  CMD_READ_FUSE_ISP := 0x18
  CMD_PROGRAM_LOCK_ISP := 0x19
  CMD_READ_LOCK_ISP := 0x1A
  CMD_READ_SIGNATURE_ISP := 0x1B
  CMD_SPI_MULTI := 0x1D
  CMD_SET_UPLOAD_SIZE_PRUSA3D := 0x50
  PARAM_BUILD_NUMBER_LOW := 0x80
  PARAM_BUILD_NUMBER_HIGH := 0x81
  PARAM_HW_VER := 0x90
  PARAM_SW_MAJOR := 0x91
  PARAM_SW_MINOR := 0x92

/-- Last byte address of the flash (`avr/io.h`, ATmega2560). -/
def FLASHEND : Nat := 0x3FFFF
/-- Bytes of one flash page (`avr/io.h`, ATmega2560). -/
def SPM_PAGESIZE : Nat := 256
/-- Last byte address of the EEPROM (`avr/io.h`, ATmega2560). -/
def E2END : Nat := 0xFFF
/-- Bit number of the watchdog reset flag in `MCUSR` (`avr/io.h`). -/
def WDRF : Nat := 3
/-- Signature of the ATmega2560 (line 300). -/
def SIGNATURE_BYTES : Nat := 0x1E9801

/-- Lines 271-275. -/
def BOOTSIZE : Nat := if FLASHEND > 0x0F000 then 8192 else 2048
/-- Line 278. -/
def APP_END : Nat := FLASHEND - BOOTSIZE + 1

def CONFIG_PARAM_BUILD_NUMBER_LOW : Nat := 0
def CONFIG_PARAM_BUILD_NUMBER_HIGH : Nat := 0
def CONFIG_PARAM_HW_VER : Nat := 0x0F
def CONFIG_PARAM_SW_MAJOR : Nat := 2
def CONFIG_PARAM_SW_MINOR : Nat := 0x0A

def ST_START : Nat := 0
def ST_GET_SEQ_NUM : Nat := 1
def ST_MSG_SIZE_1 : Nat := 2
def ST_MSG_SIZE_2 : Nat := 3
def ST_GET_TOKEN : Nat := 4
def ST_GET_DATA : Nat := 5
def ST_GET_CHECK : Nat := 6
def ST_PROCESS : Nat := 7

def BOOT_APP_FLG_ERASE : Nat := 0x01
def BOOT_APP_FLG_COPY : Nat := 0x02
def BOOT_APP_FLG_FLASH : Nat := 0x04
def BOOT_APP_FLG_RUN : Nat := 0x08

/-- Arguments of `boot_lock_fuse_bits_get` (`avr/boot.h`). -/
def GET_LOW_FUSE_BITS : Nat := 0
def GET_LOCK_BITS : Nat := 1
def GET_EXTENDED_FUSE_BITS : Nat := 2
def GET_HIGH_FUSE_BITS : Nat := 3

/-! ## Machine state -/

/-- One operation of the self-programming hardware, as issued by the code. -/
inductive SpmOp where
  | erase (addr : Nat)
  | fill (addr : Nat) (word : Nat)
  | write (addr : Nat)
  | rww
  | lockBits (value : Nat)
  deriving DecidableEq

/-- The variables of `main`, the globals, the self-update descriptor in RAM
and the hardware the code acts on. -/
structure State where
  -- locals of `main`
  address : Nat
  eraseAddress : Nat
  msgParseState : Nat
  ii : Nat
  checksum : Nat
  seqNum : Nat
  msgLength : Nat
  msgBuffer : Nat → Nat
  isLeave : Nat
  boot_timer : Nat
  boot_state : Nat
  -- globals
  flashSize : Nat
  flashCounter : Nat
  flashAddressLast : Nat
  flashOperation : Nat
  selectedSerial : Nat
  -- the descriptor at `RAMSIZE - 16 .. RAMSIZE - 1`
  boot_src_addr : Nat
  boot_dst_addr : Nat
  boot_copy_size : Nat
  boot_reserved : Nat
  boot_app_flags : Nat
  boot_app_magic : Nat
  -- hardware
  flash : Nat → Nat
  pageBuffer : Nat → Nat
  eeprom : Nat → Nat
  ram : Nat → Nat
  fuseBits : Nat → Nat
  spmLog : List SpmOp
  tx : List Nat

/-- Result of a piece of code that contains a loop, run with a bound on the
number of loop iterations: `ok` when it finished, `hang` with the state
reached when the loop was still running after that many iterations (or was
waiting for a value the input does not give), `jump` with the state in which
the code left for the application from inside the loop, by the `ijmp` of
`recchar_timeout` (lines 612-616). -/
inductive Res (α : Type) where
  | ok (a : α)
  | hang (st : State)
  | jump (st : State)

/-- Where the watchdog block leaves `main`: at label `start` (normal boot
with the serial wait loop) or at label `exit` (jump to the application). -/
inductive Next where
  | start
  | exit
  deriving DecidableEq

/-! ## Hardware primitives -/

/-- First byte of the flash page the hardware selects for address `a`. -/
def pageBase (a : Nat) : Nat := a % (FLASHEND + 1) / SPM_PAGESIZE * SPM_PAGESIZE

def boot_page_erase (st : State) (a : Nat) : State :=
  { st with
    flash := fun x =>
      if pageBase a ≤ x ∧ x < pageBase a + SPM_PAGESIZE then 0xFF else st.flash x
    spmLog := st.spmLog ++ [SpmOp.erase a] }

/-- Offset in the page buffer of the word addressed by `a` (bit 0 ignored). -/
def wordOffset (a : Nat) : Nat := a % SPM_PAGESIZE / 2 * 2

def boot_page_fill (st : State) (a : Nat) (data : Nat) : State :=
  { st with
    pageBuffer := fun o =>
      if o = wordOffset a then st.pageBuffer o &&& (data % 256)
      else if o = wordOffset a + 1 then st.pageBuffer o &&& (data / 256 % 256)
      else st.pageBuffer o
    spmLog := st.spmLog ++ [SpmOp.fill a data] }

def boot_page_write (st : State) (a : Nat) : State :=
  { st with
    flash := fun x =>
      if pageBase a ≤ x ∧ x < pageBase a + SPM_PAGESIZE then
        st.flash x &&& st.pageBuffer (x - pageBase a)
      else st.flash x
    pageBuffer := fun _ => 0xFF
    spmLog := st.spmLog ++ [SpmOp.write a] }

def boot_rww_enable (st : State) : State :=
  { st with pageBuffer := fun _ => 0xFF, spmLog := st.spmLog ++ [SpmOp.rww] }

def boot_lock_bits_set (st : State) (lockBits : Nat) : State :=
  { st with spmLog := st.spmLog ++ [SpmOp.lockBits lockBits] }

def boot_lock_fuse_bits_get (st : State) (which : Nat) : Nat := st.fuseBits which

/-- Little-endian word at byte address `a` of the flash. -/
def pgm_read_word_far (st : State) (a : Nat) : Nat :=
  st.flash (a % (FLASHEND + 1)) + 256 * st.flash ((a + 1) % (FLASHEND + 1))

/-- The read `*((uint16_t*)boot_src_addr)`: pointers have 16 bits. -/
def ram_read_word (st : State) (a : Nat) : Nat :=
  st.ram (a % 65536) + 256 * st.ram ((a + 1) % 65536)

def eeprom_write_byte (st : State) (a : Nat) (v : Nat) : State :=
  { st with eeprom := Function.update st.eeprom (a % (E2END + 1)) v }

/-- The assignment `msgBuffer[i] = v`. -/
def setBuf (st : State) (i v : Nat) : State :=
  { st with msgBuffer := Function.update st.msgBuffer i v }

/-- Lines 529-549, `DUALSERIAL` defined. -/
def sendchar (st : State) (c : Nat) : State :=
  if st.selectedSerial = 0 ∨ st.selectedSerial = 2 then { st with tx := st.tx ++ [c] }
  else st

/-! ## Frame decoder (lines 968-1058) -/

/-- The `switch (msgParseState)` for one received byte `c`. -/
def msgParse (K : CommandH) (st : State) (c : Nat) : State :=
  if st.msgParseState = ST_START then
    if c = K.MESSAGE_START then
      { st with msgParseState := ST_GET_SEQ_NUM, checksum := K.MESSAGE_START ^^^ 0 }
    else st
  else if st.msgParseState = ST_GET_SEQ_NUM then
    { st with seqNum := c, msgParseState := ST_MSG_SIZE_1, checksum := st.checksum ^^^ c }
  else if st.msgParseState = ST_MSG_SIZE_1 then
    { st with msgLength := (c <<< 8) % 65536, msgParseState := ST_MSG_SIZE_2,
              checksum := st.checksum ^^^ c }
  else if st.msgParseState = ST_MSG_SIZE_2 then
    { st with msgLength := st.msgLength ||| c, msgParseState := ST_GET_TOKEN,
              checksum := st.checksum ^^^ c }
  else if st.msgParseState = ST_GET_TOKEN then
    if c = K.TOKEN then
      { st with msgParseState := ST_GET_DATA, checksum := st.checksum ^^^ c, ii := 0 }
    else { st with msgParseState := ST_START }
  else if st.msgParseState = ST_GET_DATA then
    let st1 : State :=
      { st with msgBuffer := Function.update st.msgBuffer st.ii c,
                ii := (st.ii + 1) % 65536, checksum := st.checksum ^^^ c }
    if st1.ii = st1.msgLength then { st1 with msgParseState := ST_GET_CHECK } else st1
  else if st.msgParseState = ST_GET_CHECK then
    if c = st.checksum then { st with msgParseState := ST_PROCESS }
    else { st with msgParseState := ST_START }
  else st

/-- The decoder fed with the bytes `cs`, one `msgParse` per byte. -/
def feed (K : CommandH) (st : State) (cs : List Nat) : State :=
  cs.foldl (msgParse K) st

/-- Lines 971-981: what fetching the next byte does to the state.  The first
byte after the wait loop is taken straight from the data register and
`boot_state` goes back to 0; every later byte comes from `recchar_timeout`. -/
def fetchByte (st : State) : State :=
  if st.boot_state = 1 then { st with boot_state := 0 } else st

/-- `recchar_timeout` (lines 596-622) on a line that stays silent: no byte
arrives, `count` passes `MAX_TIME_COUNT`, and the function jumps to the
application if the first word of the flash is not `0xffff`; if it is, the
count starts again, for ever.  The call that finds a byte returns it: that is
the second case of `collectMessage`. -/
def recchar_timeout {α : Type} (st : State) : Res α :=
  if pgm_read_word_far st 0 % 65536 ≠ 0xffff then Res.jump st else Res.hang st

/-- The loop `while (msgParseState != ST_PROCESS)` (lines 969-1058).  `input`
holds the values `c` takes, in order; once it is used up the line stays
silent.  The result is the state in `ST_PROCESS` and the input not yet read;
when the input ends first the code is in `recchar_timeout`, which jumps to the
application or waits for ever.  With `boot_state = 1` the byte is taken from
the data register without waiting (line 974), and an empty input has no value
for it: `hang`. -/
def collectMessage (K : CommandH) : State → List Nat → Res (State × List Nat)
  | st, [] =>
    if st.msgParseState = ST_PROCESS then Res.ok (st, [])
    else if st.boot_state = 1 then Res.hang st
    else recchar_timeout st
  | st, c :: cs =>
    if st.msgParseState = ST_PROCESS then Res.ok (st, c :: cs)
    else collectMessage K (msgParse K (fetchByte st) c) cs

/-- The state with which the receive loop handles its first byte: line 968
has reset the decoder and the byte has been fetched. -/
def receiving (st : State) : State := fetchByte { st with msgParseState := ST_START }

/-- XOR of a list of bytes. -/
def xorAll (cs : List Nat) : Nat := cs.foldl (· ^^^ ·) 0

/-- The bytes of a frame before the checksum: start marker, sequence number,
length (high byte first), token, payload. -/
def frameBody (K : CommandH) (s : Nat) (P : List Nat) : List Nat :=
  [K.MESSAGE_START, s, P.length / 256, P.length % 256, K.TOKEN] ++ P

/-- A well-formed frame: the body followed by the XOR of its bytes. -/
def frame (K : CommandH) (s : Nat) (P : List Nat) : List Nat :=
  frameBody K s P ++ [xorAll (frameBody K s P)]

/-- The buffer after storing the bytes `cs` at the indices `i, i+1, ...`. -/
def storeAt (buf : Nat → Nat) (i : Nat) : List Nat → (Nat → Nat)
  | [] => buf
  | c :: cs => storeAt (Function.update buf i c) (i + 1) cs

/-- The decoder state once the frame with sequence number `s` and payload `P`
has been accepted, `ck` being the checksum byte. -/
def accepted (st : State) (s : Nat) (P : List Nat) (ck : Nat) : State :=
  { st with msgParseState := ST_PROCESS, seqNum := s, msgLength := P.length,
            ii := P.length, checksum := ck, msgBuffer := storeAt st.msgBuffer 0 P }

/-! ## Deferred self-update (lines 777-829) -/

/-- The body of the inner copy loop (lines 797-808): one word from flash or
RAM goes into the page buffer. -/
def selfUpdateCopyStep (st : State) : State :=
  let word :=
    if st.boot_app_flags &&& BOOT_APP_FLG_FLASH ≠ 0 then
      pgm_read_word_far st st.boot_src_addr
    else ram_read_word st st.boot_src_addr
  let st := boot_page_fill st st.address word
  let st := { st with address := (st.address + 2) % 2 ^ 32 }
  let st := { st with boot_src_addr := (st.boot_src_addr + 2) % 2 ^ 32 }
  if st.boot_copy_size > 2 then { st with boot_copy_size := st.boot_copy_size - 2 }
  else { st with boot_copy_size := 0 }

/-- The inner loop `while (boot_copy_size && (address < pageAddress))`
(lines 795-809). -/
def selfUpdateCopy : Nat → State → Nat → Res State
  | 0, st, _ => Res.hang st
  | fuel + 1, st, pageAddress =>
    if st.boot_copy_size ≠ 0 ∧ st.address < pageAddress then
      selfUpdateCopy fuel (selfUpdateCopyStep st) pageAddress
    else Res.ok st

/-- Lines 787-791: the optional erase of the page at `pageAddress`. -/
def selfUpdateErase (st : State) (pageAddress : Nat) : State :=
  if st.boot_app_flags &&& BOOT_APP_FLG_ERASE ≠ 0 then boot_page_erase st pageAddress
  else st

/-- Lines 810-812: commit the page that was filled. -/
def selfUpdateWrite (st : State) (pageAddress : Nat) : State :=
  let st := boot_page_write st ((pageAddress + 2 ^ 32 - SPM_PAGESIZE) % 2 ^ 32)
  boot_rww_enable st

/-- Lines 816-820: without `BOOT_APP_FLG_COPY` the page is only counted. -/
def selfUpdateSkip (st : State) : State :=
  let st := { st with address := (st.address + SPM_PAGESIZE) % 2 ^ 32 }
  if st.boot_copy_size > SPM_PAGESIZE then
    { st with boot_copy_size := st.boot_copy_size - SPM_PAGESIZE }
  else { st with boot_copy_size := 0 }

/-- The loop `while (boot_copy_size)` (lines 785-822), `pageAddress` being the
local of that name. -/
def selfUpdateLoop : Nat → State → Nat → Res State
  | 0, st, _ => Res.hang st
  | fuel + 1, st, pageAddress =>
    if st.boot_copy_size ≠ 0 then
      let st := selfUpdateErase st pageAddress
      let pageAddress := (pageAddress + SPM_PAGESIZE) % 2 ^ 32
      if st.boot_app_flags &&& BOOT_APP_FLG_COPY ≠ 0 then
        match selfUpdateCopy fuel st pageAddress with
        | Res.ok st => selfUpdateLoop fuel (selfUpdateWrite st pageAddress) pageAddress
        | Res.hang st => Res.hang st
        | Res.jump st => Res.jump st
      else selfUpdateLoop fuel (selfUpdateSkip st) pageAddress
    else Res.ok st

/-- The watchdog block at the top of `main` (lines 777-829), `mcuStatusReg`
being the value read from `MCUSR`; the result says at which label `main`
goes on. -/
def selfUpdate (fuel : Nat) (mcuStatusReg : Nat) (st : State) : Res (State × Next) :=
  if mcuStatusReg &&& (1 <<< WDRF) ≠ 0 then
    if st.boot_app_magic = 0x55aa55aa then
      if st.boot_app_flags &&& BOOT_APP_FLG_RUN ≠ 0 then Res.ok (st, Next.start)
      else
        let st := { st with address := st.boot_dst_addr }
        let pageAddress := st.address
        match selfUpdateLoop fuel st pageAddress with
        | Res.ok st => Res.ok (st, Next.exit)
        | Res.hang st => Res.hang st
        | Res.jump st => Res.jump st
    else Res.ok (st, Next.exit)
  else Res.ok (st, Next.start)

/-! ## Command interpreter (lines 1121-1453) -/

/-- `case CMD_SPI_MULTI` (lines 1124-1181); `flag` is always 0. -/
def cmdSpiMulti (K : CommandH) (st : State) : State :=
  let answerByte :=
    if st.msgBuffer 4 = 0x30 then
      let signatureIndex := st.msgBuffer 6
      if signatureIndex = 0 then (SIGNATURE_BYTES >>> 16) &&& 0x000000FF
      else if signatureIndex = 1 then (SIGNATURE_BYTES >>> 8) &&& 0x000000FF
      else SIGNATURE_BYTES &&& 0x000000FF
    else if st.msgBuffer 4 &&& 0x50 ≠ 0 then
      if st.msgBuffer 4 = 0x50 then boot_lock_fuse_bits_get st GET_LOW_FUSE_BITS
      else if st.msgBuffer 4 = 0x58 then boot_lock_fuse_bits_get st GET_HIGH_FUSE_BITS
      else 0
    else 0
  let st := { st with msgLength := 7 }
  let st := setBuf st 1 K.STATUS_CMD_OK
  let st := setBuf st 2 0
  let st := setBuf st 3 (st.msgBuffer 4)
  let st := setBuf st 4 0
  let st := setBuf st 5 answerByte
  setBuf st 6 K.STATUS_CMD_OK

/-- `case CMD_SIGN_ON` (lines 1183-1195). -/
def cmdSignOn (K : CommandH) (st : State) : State :=
  let st := { st with msgLength := 11 }
  let st := setBuf st 1 K.STATUS_CMD_OK
  let st := setBuf st 2 8
  let st := setBuf st 3 'A'.toNat
  let st := setBuf st 4 'V'.toNat
  let st := setBuf st 5 'R'.toNat
  let st := setBuf st 6 'I'.toNat
  let st := setBuf st 7 'S'.toNat
  let st := setBuf st 8 'P'.toNat
  let st := setBuf st 9 '_'.toNat
  setBuf st 10 '2'.toNat

/-- `case CMD_GET_PARAMETER` (lines 1197-1226). -/
def cmdGetParameter (K : CommandH) (st : State) : State :=
  let value :=
    if st.msgBuffer 1 = K.PARAM_BUILD_NUMBER_LOW then CONFIG_PARAM_BUILD_NUMBER_LOW
    else if st.msgBuffer 1 = K.PARAM_BUILD_NUMBER_HIGH then CONFIG_PARAM_BUILD_NUMBER_HIGH
    else if st.msgBuffer 1 = K.PARAM_HW_VER then CONFIG_PARAM_HW_VER
    else if st.msgBuffer 1 = K.PARAM_SW_MAJOR then CONFIG_PARAM_SW_MAJOR
    else if st.msgBuffer 1 = K.PARAM_SW_MINOR then CONFIG_PARAM_SW_MINOR
    else 0
  let st := { st with msgLength := 3 }
  let st := setBuf st 1 K.STATUS_CMD_OK
  setBuf st 2 value

/-- The shared tail of `CMD_LEAVE_PROGMODE_ISP`, `CMD_SET_PARAMETER` and
`CMD_ENTER_PROGMODE_ISP` (lines 1232-1236). -/
def cmdAcknowledge (K : CommandH) (st : State) : State :=
  let st := { st with msgLength := 2 }
  setBuf st 1 K.STATUS_CMD_OK

/-- `case CMD_LEAVE_PROGMODE_ISP` (lines 1228-1236): sets `isLeave` and falls
through. -/
def cmdLeaveProgmode (K : CommandH) (st : State) : State :=
  cmdAcknowledge K { st with isLeave := 1 }

/-- `case CMD_READ_SIGNATURE_ISP` (lines 1238-1255). -/
def cmdReadSignature (K : CommandH) (st : State) : State :=
  let signatureIndex := st.msgBuffer 4
  let signature :=
    if signatureIndex = 0 then (SIGNATURE_BYTES >>> 16) &&& 0x000000FF
    else if signatureIndex = 1 then (SIGNATURE_BYTES >>> 8) &&& 0x000000FF
    else SIGNATURE_BYTES &&& 0x000000FF
  let st := { st with msgLength := 4 }
  let st := setBuf st 1 K.STATUS_CMD_OK
  let st := setBuf st 2 signature
  setBuf st 3 K.STATUS_CMD_OK

/-- `case CMD_READ_LOCK_ISP` (lines 1257-1262). -/
def cmdReadLock (K : CommandH) (st : State) : State :=
  let st := { st with msgLength := 4 }
  let st := setBuf st 1 K.STATUS_CMD_OK
  let st := setBuf st 2 (boot_lock_fuse_bits_get st GET_LOCK_BITS)
  setBuf st 3 K.STATUS_CMD_OK

/-- `case CMD_READ_FUSE_ISP` (lines 1264-1284). -/
def cmdReadFuse (K : CommandH) (st : State) : State :=
  let fuseBits :=
    if st.msgBuffer 2 = 0x50 then
      if st.msgBuffer 3 = 0x08 then boot_lock_fuse_bits_get st GET_EXTENDED_FUSE_BITS
      else boot_lock_fuse_bits_get st GET_LOW_FUSE_BITS
    else boot_lock_fuse_bits_get st GET_HIGH_FUSE_BITS
  let st := { st with msgLength := 4 }
  let st := setBuf st 1 K.STATUS_CMD_OK
  let st := setBuf st 2 fuseBits
  setBuf st 3 K.STATUS_CMD_OK

/-- `case CMD_PROGRAM_LOCK_ISP` (lines 1287-1299); `~lockBits` on a byte is
the XOR with `0xFF`. -/
def cmdProgramLock (K : CommandH) (st : State) : State :=
  let lockBits := st.msgBuffer 4
  let lockBits := (lockBits ^^^ 0xFF) &&& 0x3C
  let st := boot_lock_bits_set st lockBits
  let st := { st with msgLength := 3 }
  let st := setBuf st 1 K.STATUS_CMD_OK
  setBuf st 2 K.STATUS_CMD_OK

/-- `case CMD_CHIP_ERASE_ISP` (lines 1301-1306). -/
def cmdChipErase (K : CommandH) (st : State) : State :=
  let st := { st with eraseAddress := 0, msgLength := 2 }
  setBuf st 1 K.STATUS_CMD_FAILED

/-- `case CMD_LOAD_ADDRESS` (lines 1308-1316), the `RAMPZ` variant. -/
def cmdLoadAddress (K : CommandH) (st : State) : State :=
  let st := { st with
    address := ((((st.msgBuffer 1) <<< 24) ||| ((st.msgBuffer 2) <<< 16) |||
                 ((st.msgBuffer 3) <<< 8) ||| (st.msgBuffer 4)) <<< 1) % 2 ^ 32 }
  let st := { st with msgLength := 2 }
  setBuf st 1 K.STATUS_CMD_OK

/-- `case CMD_SET_UPLOAD_SIZE_PRUSA3D` (lines 1318-1325): the four bytes of
`flashSize`, least significant first. -/
def cmdSetUploadSize (K : CommandH) (st : State) : State :=
  let st := { st with
    flashSize := st.msgBuffer 1 + 256 * st.msgBuffer 2 + 65536 * st.msgBuffer 3
                 + 16777216 * 0 }
  let st := { st with msgLength := 2 }
  setBuf st 1 K.STATUS_CMD_OK

/-- The progress bookkeeping of Program-Flash (lines 1339-1350). -/
def programFlashProgress (st : State) (size : Nat) : State :=
  if st.flashSize ≠ 0 then
    let st :=
      if st.address = 0 then
        { st with flashCounter := size, flashAddressLast := 0, flashOperation := 1 }
      else if st.address ≠ st.flashAddressLast then
        { st with flashCounter := (st.flashCounter + size) % 2 ^ 32 }
      else st
    { st with flashAddressLast := st.address }
  else st

/-- Lines 1355-1357: erase the page at `eraseAddress` and move `eraseAddress`
to the next page. -/
def eraseAhead (st : State) : State :=
  let st := boot_page_erase st st.eraseAddress
  { st with eraseAddress := (st.eraseAddress + SPM_PAGESIZE) % 2 ^ 32 }

/-- The erase-ahead of Program-Flash (lines 1353-1358). -/
def programFlashErase (st : State) : State :=
  if st.eraseAddress < APP_END then eraseAhead st else st

/-- The body of the Program-Flash loop (lines 1363-1369): one word of the
message, low byte first, goes into the page buffer; `p` is the index in
`msgBuffer` the pointer `p` points to. -/
def programFlashStep (st : State) (p : Nat) : State :=
  let lowByte := st.msgBuffer p
  let highByte := st.msgBuffer (p + 1)
  let data := (highByte <<< 8) ||| lowByte
  let st := boot_page_fill st st.address data
  { st with address := (st.address + 2) % 2 ^ 32 }

/-- The loop `do { ... } while (size)` of Program-Flash (lines 1362-1371). -/
def programFlashLoop : Nat → State → Nat → Nat → Res State
  | 0, st, _, _ => Res.hang st
  | fuel + 1, st, p, size =>
    let st := programFlashStep st p
    let size := (size + 65536 - 2) % 65536
    if size ≠ 0 then programFlashLoop fuel st (p + 2) size else Res.ok st

/-- The body of the Program-EEPROM loop (lines 1384-1385); `ii` is the local
`uint16_t ii`. -/
def programEepromStep (st : State) (p ii : Nat) : State :=
  let st := eeprom_write_byte st ii (st.msgBuffer p)
  { st with address := (st.address + 2) % 2 ^ 32 }

/-- The loop `while (size)` of Program-EEPROM (lines 1383-1388). -/
def programEepromLoop : Nat → State → Nat → Nat → Nat → Res State
  | 0, st, _, _, _ => Res.hang st
  | fuel + 1, st, p, ii, size =>
    if size ≠ 0 then
      programEepromLoop fuel (programEepromStep st p ii) (p + 1) ((ii + 1) % 65536) (size - 1)
    else Res.ok st

/-- Lines 1373-1375: commit the page and re-enable the RWW section. -/
def programFlashWrite (st : State) (tempaddress : Nat) : State :=
  let st := boot_page_write st tempaddress
  boot_rww_enable st

/-- The tail of the program and read cases that sets the two-byte answer
(lines 1390-1391). -/
def answerOk (K : CommandH) (st : State) : State :=
  let st := { st with msgLength := 2 }
  setBuf st 1 K.STATUS_CMD_OK

/-- `case CMD_PROGRAM_FLASH_ISP` and `case CMD_PROGRAM_EEPROM_ISP`
(lines 1327-1394). -/
def cmdProgram (K : CommandH) (fuel : Nat) (st : State) : Res State :=
  let size := (((st.msgBuffer 1) <<< 8) ||| st.msgBuffer 2) % 65536
  let p := 10
  let tempaddress := st.address
  let r :=
    if st.msgBuffer 0 = K.CMD_PROGRAM_FLASH_ISP then
      let st := programFlashProgress st size
      let st := programFlashErase st
      if st.address < APP_END then
        match programFlashLoop fuel st p size with
        | Res.ok st => Res.ok (programFlashWrite st tempaddress)
        | Res.hang st => Res.hang st
        | Res.jump st => Res.jump st
      else Res.ok st
    else
      programEepromLoop fuel st p ((st.address >>> 1) % 65536) size
  match r with
  | Res.ok st => Res.ok (answerOk K st)
  | Res.hang st => Res.hang st
  | Res.jump st => Res.jump st

/-- The progress bookkeeping of Read-Flash (lines 1406-1415). -/
def readFlashProgress (st : State) (size : Nat) : State :=
  if st.flashSize ≠ 0 then
    if st.address = 0x00000 ∧ st.flashOperation = 1 then
      { st with flashOperation := 2, flashCounter := size }
    else
      { st with flashCounter := (st.flashCounter + size) % 2 ^ 32 }
  else st

/-- The body of the Read-Flash loop (lines 1423-1429): one word of flash goes
to `msgBuffer[p]` (low byte) and `msgBuffer[p+1]` (high byte). -/
def readFlashStep (st : State) (p : Nat) : State :=
  let data := pgm_read_word_far st st.address
  let st := setBuf st p (data % 256)
  let st := setBuf st (p + 1) ((data >>> 8) % 256)
  { st with address := (st.address + 2) % 2 ^ 32 }

/-- The loop `do { ... } while (size)` of Read-Flash (lines 1420-1431); the
result carries the final value of the pointer `p`. -/
def readFlashLoop : Nat → State → Nat → Nat → Res (State × Nat)
  | 0, st, _, _ => Res.hang st
  | fuel + 1, st, p, size =>
    let st := readFlashStep st p
    let size := (size + 65536 - 2) % 65536
    if size ≠ 0 then readFlashLoop fuel st (p + 2) size else Res.ok (st, p + 2)

/-- The body of the Read-EEPROM loop (lines 1437-1441): the address registers
take the low bits of `address`. -/
def readEepromStep (st : State) (p : Nat) : State :=
  let eear := st.address % (E2END + 1)
  let st := { st with address := (st.address + 1) % 2 ^ 32 }
  setBuf st p (st.eeprom eear)

/-- The loop `do { ... } while (size)` of Read-EEPROM (lines 1436-1443). -/
def readEepromLoop : Nat → State → Nat → Nat → Res (State × Nat)
  | 0, st, _, _ => Res.hang st
  | fuel + 1, st, p, size =>
    let st := readEepromStep st p
    let size := (size + 65536 - 1) % 65536
    if size ≠ 0 then readEepromLoop fuel st (p + 1) size else Res.ok (st, p + 1)

/-- Lines 1399-1403: the reply length and the first status byte. -/
def readHeader (K : CommandH) (st : State) (size : Nat) : State :=
  let st := { st with msgLength := (size + 3) % 65536 }
  setBuf st 1 K.STATUS_CMD_OK

/-- `case CMD_READ_FLASH_ISP` and `case CMD_READ_EEPROM_ISP`
(lines 1396-1447). -/
def cmdRead (K : CommandH) (fuel : Nat) (st : State) : Res State :=
  let size := (((st.msgBuffer 1) <<< 8) ||| st.msgBuffer 2) % 65536
  let st := readHeader K st size
  let p := 2
  let r :=
    if st.msgBuffer 0 = K.CMD_READ_FLASH_ISP then
      readFlashLoop fuel (readFlashProgress st size) p size
    else readEepromLoop fuel st p size
  match r with
  | Res.ok (st, p) => Res.ok (setBuf st p K.STATUS_CMD_OK)
  | Res.hang st => Res.hang st
  | Res.jump st => Res.jump st

/-- The `default` case (lines 1449-1452). -/
def cmdDefault (K : CommandH) (st : State) : State :=
  let st := { st with msgLength := 2 }
  setBuf st 1 K.STATUS_CMD_FAILED

/-- The `switch (msgBuffer[0])`, run with at most `fuel` iterations of each
loop. -/
def processCommand (K : CommandH) (fuel : Nat) (st : State) : Res State :=
  if st.msgBuffer 0 = K.CMD_SPI_MULTI then Res.ok (cmdSpiMulti K st)
  else if st.msgBuffer 0 = K.CMD_SIGN_ON then Res.ok (cmdSignOn K st)
  else if st.msgBuffer 0 = K.CMD_GET_PARAMETER then Res.ok (cmdGetParameter K st)
  else if st.msgBuffer 0 = K.CMD_LEAVE_PROGMODE_ISP then Res.ok (cmdLeaveProgmode K st)
  else if st.msgBuffer 0 = K.CMD_SET_PARAMETER then Res.ok (cmdAcknowledge K st)
  else if st.msgBuffer 0 = K.CMD_ENTER_PROGMODE_ISP then Res.ok (cmdAcknowledge K st)
  else if st.msgBuffer 0 = K.CMD_READ_SIGNATURE_ISP then Res.ok (cmdReadSignature K st)
  else if st.msgBuffer 0 = K.CMD_READ_LOCK_ISP then Res.ok (cmdReadLock K st)
  else if st.msgBuffer 0 = K.CMD_READ_FUSE_ISP then Res.ok (cmdReadFuse K st)
  else if st.msgBuffer 0 = K.CMD_PROGRAM_LOCK_ISP then Res.ok (cmdProgramLock K st)
  else if st.msgBuffer 0 = K.CMD_CHIP_ERASE_ISP then Res.ok (cmdChipErase K st)
  else if st.msgBuffer 0 = K.CMD_LOAD_ADDRESS then Res.ok (cmdLoadAddress K st)
  else if st.msgBuffer 0 = K.CMD_SET_UPLOAD_SIZE_PRUSA3D then Res.ok (cmdSetUploadSize K st)
  else if st.msgBuffer 0 = K.CMD_PROGRAM_FLASH_ISP then cmdProgram K fuel st
  else if st.msgBuffer 0 = K.CMD_PROGRAM_EEPROM_ISP then cmdProgram K fuel st
  else if st.msgBuffer 0 = K.CMD_READ_FLASH_ISP then cmdRead K fuel st
  else if st.msgBuffer 0 = K.CMD_READ_EEPROM_ISP then cmdRead K fuel st
  else Res.ok (cmdDefault K st)

/-! ## Reply (lines 1458-1484) -/

/-- The loop `while ( msgLength )` of lines 1476-1482, `n` being the value of
`msgLength` and `p` the index the pointer `p` points to. -/
def sendLoop : Nat → State → Nat → State
  | 0, st, _ => st
  | n + 1, st, p =>
    let c := st.msgBuffer p
    let st := sendchar st c
    let st := { st with checksum := st.checksum ^^^ c, msgLength := st.msgLength - 1 }
    sendLoop n st (p + 1)

/-- Lines 1458-1484: send the reply frame and increment `seqNum`. -/
def sendAnswer (K : CommandH) (st : State) : State :=
  let st := sendchar st K.MESSAGE_START
  let st := { st with checksum := K.MESSAGE_START ^^^ 0 }
  let st := sendchar st st.seqNum
  let st := { st with checksum := st.checksum ^^^ st.seqNum }
  let c := (st.msgLength >>> 8) &&& 0xFF
  let st := sendchar st c
  let st := { st with checksum := st.checksum ^^^ c }
  let c := st.msgLength &&& 0x00FF
  let st := sendchar st c
  let st := { st with checksum := st.checksum ^^^ c }
  let st := sendchar st K.TOKEN
  let st := { st with checksum := st.checksum ^^^ K.TOKEN }
  let st := sendLoop st.msgLength st 0
  let st := sendchar st st.checksum
  { st with seqNum := (st.seqNum + 1) % 256 }

/-- One pass of the main loop (lines 963-1491): receive a message from
`input`, process it, send the answer.  The result is the state after the
answer and the input not yet read; `jump` or `hang` when the input ends before
a frame is complete (the code is then in `recchar_timeout`), `hang` when a loop
of the command does not end within `fuel` iterations. -/
def mainLoopBody (K : CommandH) (fuel : Nat) (st : State) (input : List Nat) :
    Res (State × List Nat) :=
  match collectMessage K { st with msgParseState := ST_START } input with
  | Res.hang st => Res.hang st
  | Res.jump st => Res.jump st
  | Res.ok (st, rest) =>
    match processCommand K fuel st with
    | Res.ok st => Res.ok (sendAnswer K st, rest)
    | Res.hang st => Res.hang st
    | Res.jump st => Res.jump st

/-- The loop `while (!isLeave)` (line 963), for at most `n` messages: `ok` when
the loop ends by `isLeave`, `jump` when it is left from `recchar_timeout`. -/
def mainLoop (K : CommandH) (fuel : Nat) : Nat → State → List Nat → Res State
  | 0, st, _ => Res.hang st
  | n + 1, st, input =>
    if st.isLeave ≠ 0 then Res.ok st
    else
      match mainLoopBody K fuel st input with
      | Res.ok (st, rest) => mainLoop K fuel n st rest
      | Res.hang st => Res.hang st
      | Res.jump st => Res.jump st

/-- The machine state a run ended in, finished or not. -/
def Res.reached : Res State → State
  | Res.ok st => st
  | Res.hang st => st
  | Res.jump st => st

/-- The bytes `buf[p], buf[p+1], ..., buf[p+n-1]`. -/
def bufferBytes (buf : Nat → Nat) : Nat → Nat → List Nat
  | _, 0 => []
  | p, n + 1 => buf p :: bufferBytes buf (p + 1) n

/-- The bytes of a reply frame before the checksum, as lines 1458-1482 send
them for the state `st` the command handler left. -/
def replyBody (K : CommandH) (st : State) : List Nat :=
  [K.MESSAGE_START, st.seqNum, st.msgLength >>> 8, st.msgLength &&& 0xFF, K.TOKEN] ++
    bufferBytes st.msgBuffer 0 st.msgLength

/-- The machine state a run that yields a state and a pointer ended in. -/
def Res.reachedFst {β : Type} : Res (State × β) → State
  | Res.ok (st, _) => st
  | Res.hang st => st
  | Res.jump st => st

/-- What the reply framing takes from the state besides the message: the
sequence number, the selected port and the bytes sent so far. -/
def link (st : State) : Nat × Nat × List Nat := (st.seqNum, st.selectedSerial, st.tx)

/-- The two commands whose loop `do { ... size -= 2; } while (size)` is entered
with an odd 16-bit `size`: Program-Flash below `APP_END` and Read-Flash. -/
def oddFlashSize (K : CommandH) (st : State) : Prop :=
  ((st.msgBuffer 1 <<< 8 ||| st.msgBuffer 2) % 65536) % 2 = 1 ∧
  ((st.msgBuffer 0 = K.CMD_PROGRAM_FLASH_ISP ∧ st.address < APP_END) ∨
   st.msgBuffer 0 = K.CMD_READ_FLASH_ISP)

/-- The content of the bootloader section: the flash bytes at the addresses
`APP_END, APP_END + 1, ...`. -/
def bootSection (st : State) : Nat → Nat := fun x => st.flash (APP_END + x)

/-- The variables the page buffer loop leaves alone. -/
def besideFill (st : State) :=
  (st.eraseAddress, st.msgBuffer, st.flash, st.isLeave, st.msgLength, link st)

/-- The variables the Read-Flash loop leaves alone. -/
def besideRead (st : State) :=
  (st.eraseAddress, st.pageBuffer, st.flash, st.isLeave, st.msgLength, link st)

/-- The Program-Flash message for the data block `D`: opcode, size (high byte
first), seven parameter bytes the bootloader does not read, data. -/
def programFlashMsg (K : CommandH) (D : List Nat) : List Nat :=
  [K.CMD_PROGRAM_FLASH_ISP, D.length / 256, D.length % 256, 0, 0, 0, 0, 0, 0, 0] ++ D

/-- The Load-address message for the word address `w`, high byte first. -/
def loadAddressMsg (K : CommandH) (w : Nat) : List Nat :=
  [K.CMD_LOAD_ADDRESS, w / 16777216 % 256, w / 65536 % 256, w / 256 % 256, w % 256]

/-- The Read-Flash message for `n` bytes: opcode, size (high byte first), one
parameter byte the bootloader does not read. -/
def readFlashMsg (K : CommandH) (n : Nat) : List Nat :=
  [K.CMD_READ_FLASH_ISP, n / 256, n % 256, 0]

/-- The bytes on the wire for the messages `msgs`, each framed with sequence
number `s`. -/
def wire (K : CommandH) (s : Nat) : List (List Nat) → List Nat
  | [] => []
  | P :: Ps => frame K s P ++ wire K s Ps

/-- The variables sending the answer leaves alone. -/
def besideSend (st : State) :=
  (st.address, st.eraseAddress, st.pageBuffer, st.flash, st.isLeave, st.selectedSerial)

/-- The state `main` starts from after a reset: the initialisers of lines
719-753, an erased flash, EEPROM and page buffer, nothing logged or sent. -/
def resetState : State where
  address := 0
  eraseAddress := 0
  msgParseState := ST_START
  ii := 0
  checksum := 0
  seqNum := 0
  msgLength := 0
  msgBuffer := fun _ => 0
  isLeave := 0
  boot_timer := 0
  boot_state := 0
  flashSize := 0
  flashCounter := 0
  flashAddressLast := 0
  flashOperation := 0
  selectedSerial := 0
  boot_src_addr := 0
  boot_dst_addr := 0
  boot_copy_size := 0
  boot_reserved := 0
  boot_app_flags := 0
  boot_app_magic := 0
  flash := fun _ => 0xFF
  pageBuffer := fun _ => 0xFF
  eeprom := fun _ => 0xFF
  ram := fun _ => 0
  fuseBits := fun _ => 0xFF
  spmLog := []
  tx := []

/-- A machine after a watchdog reset whose flash holds a bootloader (bytes
`0x0C` from `APP_END` on) and whose descriptor asks to erase one page at
`APP_END`. -/
def eraseBootRequest : State :=
  { resetState with
    flash := fun x => if APP_END ≤ x then 0x0C else 0xFF
    boot_app_magic := 0x55aa55aa
    boot_app_flags := BOOT_APP_FLG_ERASE
    boot_dst_addr := APP_END
    boot_copy_size := 256 }

/-- A descriptor with a wrong magic and otherwise plausible fields. -/
def badMagicRequest : State :=
  { resetState with
    boot_app_magic := 0x55aa55ab
    boot_app_flags := BOOT_APP_FLG_ERASE ||| BOOT_APP_FLG_COPY
    boot_src_addr := 0x1000
    boot_dst_addr := 0x2000
    boot_copy_size := 512 }

/-- A descriptor that asks to erase 600 bytes from address `0x2000` on. -/
def eraseRequest : State :=
  { resetState with
    boot_app_magic := 0x55aa55aa
    boot_app_flags := BOOT_APP_FLG_ERASE
    boot_dst_addr := 0x2000
    boot_copy_size := 600 }

/-- A descriptor with valid magic and `BOOT_APP_FLG_RUN` set next to the erase
and copy flags. -/
def deferRunRequest : State :=
  { resetState with
    boot_app_magic := 0x55aa55aa
    boot_app_flags := BOOT_APP_FLG_RUN ||| BOOT_APP_FLG_ERASE ||| BOOT_APP_FLG_COPY
    boot_src_addr := 0x1000
    boot_dst_addr := 0x2000
    boot_copy_size := 512 }

/-- A machine fresh from reset that has received the Read-Flash message with
size field 1. -/
def oddReadRequest : State :=
  accepted (receiving resetState) 1 (readFlashMsg avr068 1)
    (xorAll (frameBody avr068 1 (readFlashMsg avr068 1)))

/-- The variables that receiving a message and sending the answer leave
alone. -/
def session (st : State) :=
  (st.address, st.eraseAddress, st.flashSize, st.flashCounter, st.flashAddressLast,
   st.flashOperation, st.isLeave, st.flash, st.spmLog)

/-- The state with which a flash-programming command goes on behind the
bookkeeping and the erase-ahead (lines 1337-1358), `size` being the 16-bit size
field of the message. -/
def programFlashHead (st : State) : State :=
  programFlashErase (programFlashProgress st
    ((st.msgBuffer 1 <<< 8 ||| st.msgBuffer 2) % 65536))

/-- A machine whose flash is programmed (`0x0C` everywhere), with `address` at
`APP_END` and the erase frontier at 0, that has received a Program-Flash
message with two data bytes. -/
def beyondRequest : State :=
  accepted (receiving { resetState with address := APP_END, flash := fun _ => 0x0C }) 1
    (programFlashMsg avr068 [0x11, 0x22])
    (xorAll (frameBody avr068 1 (programFlashMsg avr068 [0x11, 0x22])))

/-- The 16-bit `size` the program and read cases take from the message `P`
(lines 1330 and 1398). -/
def sizeField (P : List Nat) : Nat := ((P.getD 1 0 <<< 8) ||| P.getD 2 0) % 65536

/-- The variables of the progress display (lines 719-722). -/
def progress (st : State) :=
  (st.flashSize, st.flashCounter, st.flashAddressLast, st.flashOperation)

/-- A session with an upload in progress (512 of 1024 bytes written) that has
received the Set-upload-size message for 4096 bytes. -/
def uploadSizeRequest : State :=
  accepted (receiving { resetState with flashSize := 1024, flashCounter := 512,
                                        flashOperation := 1 }) 1
    [avr068.CMD_SET_UPLOAD_SIZE_PRUSA3D, 0x00, 0x10, 0x00]
    (xorAll (frameBody avr068 1 [avr068.CMD_SET_UPLOAD_SIZE_PRUSA3D, 0x00, 0x10, 0x00]))

/-- A session that has written 3 declared bytes and is at address 0 again. -/
def oddVerifyRequest : State :=
  { resetState with flashSize := 3, flashCounter := 3, flashOperation := 1 }

/-- The machine `st` once it has received the message `P`, framed with
sequence number 1. -/
def requestOf (st : State) (P : List Nat) : State :=
  accepted (receiving st) 1 P (xorAll (frameBody avr068 1 P))

/-- The signature byte for the index `i` in the words of the specification:
the high byte of `SIGNATURE_BYTES` for 0, the middle byte for 1, the low byte
for every other index. -/
def specSignatureByte (i : Nat) : Nat :=
  if i = 0 then (SIGNATURE_BYTES >>> 16) &&& 0xFF
  else if i = 1 then (SIGNATURE_BYTES >>> 8) &&& 0xFF
  else SIGNATURE_BYTES &&& 0xFF

/-- A session with the erase frontier at `0x2000` and an upload in progress
that has received the Load-address message for the word address
`0x80010203`. -/
def loadAddressRequest : State :=
  requestOf { resetState with eraseAddress := 0x2000, flashSize := 1024, flashCounter := 512,
                              flashOperation := 1 }
    (loadAddressMsg avr068 0x80010203)

/-- A session with the erase frontier at `0x2000` that has received the
Chip-erase message. -/
def chipEraseRequest : State :=
  requestOf { resetState with address := 0x1000, eraseAddress := 0x2000 }
    [avr068.CMD_CHIP_ERASE_ISP, 0, 0, 0, 0, 0, 0]

/-- A session in progress that has received a message with the opcode `0x17`,
for which the switch has no case. -/
def unknownRequest : State :=
  requestOf { resetState with address := 0x1000, eraseAddress := 0x2000, flashSize := 1024,
                              flashCounter := 512, flashOperation := 1 }
    [0x17, 1, 2, 3]

/-- A session in progress that has received the Sign-on message. -/
def signOnRequest : State :=
  requestOf { resetState with address := 0x1000, eraseAddress := 0x2000 } [avr068.CMD_SIGN_ON]

/-- A machine that has received the Program-lock message with the lock byte
`0xA5` at index 4. -/
def programLockRequest : State :=
  requestOf resetState [avr068.CMD_PROGRAM_LOCK_ISP, 0, 0, 0, 0xA5]

/-- A machine that has received the Read-signature message for the index `i`. -/
def readSignatureRequest (i : Nat) : State :=
  requestOf resetState [avr068.CMD_READ_SIGNATURE_ISP, 0, 0, 0, i]

/-- A machine that has received the Spi-multi message that reads the signature
byte with the index `i`. -/
def spiSignatureRequest (i : Nat) : State :=
  requestOf resetState [avr068.CMD_SPI_MULTI, 4, 4, 0, 0x30, 0, i, 0]

/-- A machine with `address` at `0xFFFFFFFE`, the byte address Load-address
gives for the word address `0x7FFFFFFF`, that has received the Read-Flash
message for 2 bytes. -/
def wrapReadRequest : State :=
  requestOf { resetState with address := 0xFFFFFFFE } (readFlashMsg avr068 2)

/-- A machine whose flash holds the low byte of each address, with `address`
at `0x1000`, that has received the Read-Flash message for 4 bytes. -/
def readRequest : State :=
  requestOf { resetState with address := 0x1000, flash := fun x => x % 256 }
    (readFlashMsg avr068 4)

/-! ## Wait for the host (lines 751-753 and 916-963) -/

/-- The local `boot_timeout` (line 751); nothing assigns it after its
initialiser. -/
def boot_timeout : Nat := 20000

/-- The body of the inner wait loop (lines 921-926): `boot_timer++`, then
`boot_state = 1` once `boot_timer > boot_timeout`.  The delay and the LED are
left out. -/
def waitStep (st : State) : State :=
  if (st.boot_timer + 1) % 2 ^ 32 > boot_timeout then
    { st with boot_timer := (st.boot_timer + 1) % 2 ^ 32, boot_state := 1 }
  else { st with boot_timer := (st.boot_timer + 1) % 2 ^ 32 }

/-- The inner loop `while (!Serial_Available(0) && !Serial_Available(2) &&
boot_state == 0)` (line 919).  `rx0 k` and `rx2 k` tell whether the
receive-complete flag of UART0 and of UART2 is set at the poll number `k`,
counted from 0, a poll being one evaluation of the loop condition.  The result
carries the number of the poll that ended the loop. -/
def waitForData : Nat → (Nat → Bool) → (Nat → Bool) → State → Nat → Res (State × Nat)
  | 0, _, _, st, _ => Res.hang st
  | fuel + 1, rx0, rx2, st, k =>
    if rx0 k = false ∧ rx2 k = false ∧ st.boot_state = 0 then
      waitForData fuel rx0 rx2 (waitStep st) (k + 1)
    else Res.ok (st, k)

/-- Lines 935-955 behind the inner loop: `if (Serial_Available(2))
selectedSerial = 2;` and `boot_state++`, `available2` telling whether the flag
of UART2 is set; `boot_state` is an `unsigned int`. -/
def waitSelect (available2 : Bool) (st : State) : State :=
  let st := if available2 = true then { st with selectedSerial := 2 } else st
  { st with boot_state := (st.boot_state + 1) % 65536 }

/-- The loop `while (boot_state==0)` (lines 916-956), `DUALSERIAL` defined,
from the poll number `k` on.  Line 935 sees the flag of UART2 as the poll that
ended the inner loop saw it. -/
def waitLoop : Nat → (Nat → Bool) → (Nat → Bool) → State → Nat → Res State
  | 0, _, _, st, _ => Res.hang st
  | fuel + 1, rx0, rx2, st, k =>
    if st.boot_state = 0 then
      match waitForData fuel rx0 rx2 st k with
      | Res.ok (st, k) => waitLoop fuel rx0 rx2 (waitSelect (rx2 k) st) (k + 1)
      | Res.hang st => Res.hang st
      | Res.jump st => Res.jump st
    else Res.ok st

/-- From the label `start` to the label `exit` (lines 831-1500): the port
selection of line 838, the wait for the host, and the main loop if
`boot_state` is 1 (line 960).  `Res.ok` is the state with which the code at
`exit` jumps to the application.  The set-up of the UARTs, the LED and the
display are left out. -/
def mainFromStart (K : CommandH) (fuel n : Nat) (rx0 rx2 : Nat → Bool) (st : State)
    (input : List Nat) : Res State :=
  let st := { st with selectedSerial := 0 }
  match waitLoop fuel rx0 rx2 st 0 with
  | Res.ok st => if st.boot_state = 1 then mainLoop K fuel n st input else Res.ok st
  | Res.hang st => Res.hang st
  | Res.jump st => Res.jump st

/-- Serial lines on which nothing ever arrives. -/
def silent : Nat → Bool := fun _ => false

/-- A serial line on which a byte is there from the poll number `k0` on. -/
def arrivesAt (k0 : Nat) : Nat → Bool := fun k => decide (k0 ≤ k)

/-- The Program-EEPROM message for the data block `D`: opcode, size (high byte
first), seven parameter bytes the bootloader does not read, data. -/
def programEepromMsg (K : CommandH) (D : List Nat) : List Nat :=
  [K.CMD_PROGRAM_EEPROM_ISP, D.length / 256, D.length % 256, 0, 0, 0, 0, 0, 0, 0] ++ D

/-- The Read-EEPROM message for `n` bytes: opcode, size (high byte first), one
parameter byte the bootloader does not read. -/
def readEepromMsg (K : CommandH) (n : Nat) : List Nat :=
  [K.CMD_READ_EEPROM_ISP, n / 256, n % 256, 0]

/-- The EEPROM once the block `D` has been written from the cell `a` on. -/
def eepromWith (eeprom : Nat → Nat) (a : Nat) (D : List Nat) : Nat → Nat :=
  fun x => if a ≤ x ∧ x < a + D.length then D.getD (x - a) 0 else eeprom x

/-- A descriptor with valid magic that asks to erase and copy 2 bytes from RAM
to the address `0xFFFFFF00`, the last page of the 32-bit address range. -/
def wrapCopyRequest : State :=
  { resetState with
    boot_app_magic := 0x55aa55aa
    boot_app_flags := BOOT_APP_FLG_ERASE ||| BOOT_APP_FLG_COPY
    boot_src_addr := 0x1000
    boot_dst_addr := 0xFFFFFF00
    boot_copy_size := 2 }

/-- What the self-update loop reads of the descriptor besides the source
address, and `address`. -/
def copyControl (st : State) := (st.boot_copy_size, st.boot_app_flags, st.address)

/-- The part of the descriptor that selects what the watchdog block does. -/
def descriptorHead (st : State) := (st.boot_app_magic, st.boot_app_flags)

/-- What the hardware operations of the self-update act on. -/
def flashState (st : State) := (st.flash, st.pageBuffer, st.spmLog)

theorem recchar_timeout_reachedFst {β : Type} (st : State) :
    (recchar_timeout st : Res (State × β)).reachedFst = st := by
  unfold recchar_timeout
  split_ifs <;> rfl

theorem recchar_timeout_reached (st : State) :
    (recchar_timeout st : Res State).reached = st := by
  unfold recchar_timeout
  split_ifs <;> rfl

theorem storeAt_apply (cs : List Nat) : ∀ (buf : Nat → Nat) (i j : Nat),
    storeAt buf i cs j = if i ≤ j ∧ j < i + cs.length then cs.getD (j - i) 0 else buf j := by
  induction cs with
  | nil =>
    intro buf i j
    have h : ¬ (i ≤ j ∧ j < i + ([] : List Nat).length) := by simp
    rw [if_neg h, storeAt]
  | cons c cs ih =>
    intro buf i j
    rw [storeAt, ih]
    simp only [List.length_cons]
    by_cases hj : j = i
    · subst hj; simp [Function.update]
    · by_cases h1 : i + 1 ≤ j ∧ j < i + 1 + cs.length
      · have h5 : i ≤ j ∧ j < i + (cs.length + 1) := by omega
        have h3 : j - i = (j - (i + 1)) + 1 := by omega
        rw [if_pos h1, if_pos h5, h3, List.getD_cons_succ]
      · have h5 : ¬ (i ≤ j ∧ j < i + (cs.length + 1)) := by omega
        rw [if_neg h1, if_neg h5, Function.update_noteq hj]

theorem storeAt_lt (cs : List Nat) (buf : Nat → Nat) (j : Nat) (h : j < cs.length) :
    storeAt buf 0 cs j = cs[j] := by
  rw [storeAt_apply]
  simp [h, List.getD_eq_getElem]

theorem feed_append (K : CommandH) (st : State) (a b : List Nat) :
    feed K st (a ++ b) = feed K (feed K st a) b := by
  simp [feed, List.foldl_append]

/-- Payload bytes that do not complete the announced length stay in
`ST_GET_DATA`. -/
theorem feed_data (K : CommandH) : ∀ (Q : List Nat) (st : State),
    st.msgParseState = ST_GET_DATA → st.ii + Q.length < st.msgLength →
    st.msgLength < 65536 →
    feed K st Q = { st with msgBuffer := storeAt st.msgBuffer st.ii Q,
                            ii := st.ii + Q.length,
                            checksum := Q.foldl (· ^^^ ·) st.checksum }
  | [], st, _, _, _ => by simp [feed, storeAt]
  | c :: Q, st, h, h1, h2 => by
    simp only [List.length_cons] at h1
    have hmod : (st.ii + 1) % 65536 = st.ii + 1 := Nat.mod_eq_of_lt (by omega)
    have hne : st.ii + 1 ≠ st.msgLength := by omega
    have hstep : msgParse K st c =
        { st with msgBuffer := Function.update st.msgBuffer st.ii c,
                  ii := st.ii + 1, checksum := st.checksum ^^^ c } := by
      simp [msgParse, h, ST_START, ST_GET_SEQ_NUM, ST_MSG_SIZE_1, ST_MSG_SIZE_2,
        ST_GET_TOKEN, ST_GET_DATA, hmod, hne]
    have hfeed : feed K st (c :: Q) = feed K (msgParse K st c) Q := rfl
    rw [hfeed, hstep, feed_data K Q
      { st with msgBuffer := Function.update st.msgBuffer st.ii c,
                ii := st.ii + 1, checksum := st.checksum ^^^ c } h (by simp; omega) h2]
    simp [storeAt, Nat.add_assoc, Nat.add_comm 1]

theorem length_bytes (L : Nat) (h : L < 65536) :
    ((L / 256) <<< 8) % 65536 ||| (L % 256) = L := by
  have h1 : (L / 256) <<< 8 = 2 ^ 8 * (L / 256) := by
    rw [Nat.shiftLeft_eq, Nat.mul_comm]
  have h2 : (L / 256) <<< 8 < 65536 := by rw [h1]; omega
  rw [Nat.mod_eq_of_lt h2, h1, ← Nat.mul_add_lt_is_or (by omega : L % 256 < 2 ^ 8)]
  omega

/-- The five header bytes take the decoder from `ST_START` to `ST_GET_DATA`. -/
theorem feed_header (K : CommandH) (st : State) (s hi lo : Nat)
    (hst : st.msgParseState = ST_START) :
    feed K st [K.MESSAGE_START, s, hi, lo, K.TOKEN] =
      { st with msgParseState := ST_GET_DATA, seqNum := s,
                msgLength := (hi <<< 8) % 65536 ||| lo, ii := 0,
                checksum := K.MESSAGE_START ^^^ s ^^^ hi ^^^ lo ^^^ K.TOKEN } := by
  simp [feed, msgParse, hst, ST_START, ST_GET_SEQ_NUM, ST_MSG_SIZE_1, ST_MSG_SIZE_2,
    ST_GET_TOKEN, ST_GET_DATA]

/-- The payload bytes that complete the announced length end in
`ST_GET_CHECK`. -/
theorem feed_payload (K : CommandH) : ∀ (Q : List Nat) (st : State),
    st.msgParseState = ST_GET_DATA → Q ≠ [] → st.ii + Q.length = st.msgLength →
    st.msgLength < 65536 →
    feed K st Q = { st with msgParseState := ST_GET_CHECK,
                            msgBuffer := storeAt st.msgBuffer st.ii Q,
                            ii := st.ii + Q.length,
                            checksum := Q.foldl (· ^^^ ·) st.checksum }
  | [], _, _, h0, _, _ => absurd rfl h0
  | c :: Q, st, h, _, h1, h2 => by
    simp only [List.length_cons] at h1
    have hmod : (st.ii + 1) % 65536 = st.ii + 1 := Nat.mod_eq_of_lt (by omega)
    have hfeed : feed K st (c :: Q) = feed K (msgParse K st c) Q := rfl
    by_cases hQ : Q = []
    · subst hQ
      simp only [List.length_nil] at h1
      have hstep : msgParse K st c =
          { st with msgParseState := ST_GET_CHECK,
                    msgBuffer := Function.update st.msgBuffer st.ii c,
                    ii := st.ii + 1, checksum := st.checksum ^^^ c } := by
        simp [msgParse, h, ST_START, ST_GET_SEQ_NUM, ST_MSG_SIZE_1, ST_MSG_SIZE_2,
          ST_GET_TOKEN, ST_GET_DATA, ST_GET_CHECK, hmod, ← h1]
      rw [hfeed, hstep]
      simp [feed, storeAt]
    · have hne : st.ii + 1 ≠ st.msgLength := by
        have : 0 < Q.length := List.length_pos.mpr hQ
        omega
      have hstep : msgParse K st c =
          { st with msgBuffer := Function.update st.msgBuffer st.ii c,
                    ii := st.ii + 1, checksum := st.checksum ^^^ c } := by
        simp [msgParse, h, ST_START, ST_GET_SEQ_NUM, ST_MSG_SIZE_1, ST_MSG_SIZE_2,
          ST_GET_TOKEN, ST_GET_DATA, hmod, hne]
      rw [hfeed, hstep, feed_payload K Q
        { st with msgBuffer := Function.update st.msgBuffer st.ii c,
                  ii := st.ii + 1, checksum := st.checksum ^^^ c } h hQ
        (by simp; omega) h2]
      simp [storeAt, Nat.add_assoc, Nat.add_comm 1]

theorem xorAll_frameBody (K : CommandH) (s : Nat) (P : List Nat) :
    xorAll (frameBody K s P) =
      P.foldl (· ^^^ ·)
        (K.MESSAGE_START ^^^ s ^^^ (P.length / 256) ^^^ (P.length % 256) ^^^ K.TOKEN) := by
  simp [xorAll, frameBody, List.foldl_append]

/-- The decoder state after the body of a frame (everything but the checksum
byte). -/
theorem feed_frameBody (K : CommandH) (st : State) (s : Nat) (P : List Nat)
    (hst : st.msgParseState = ST_START) (h1 : 1 ≤ P.length) (h2 : P.length < 65536) :
    feed K st (frameBody K s P) =
      { st with msgParseState := ST_GET_CHECK, seqNum := s, msgLength := P.length,
                ii := P.length, checksum := xorAll (frameBody K s P),
                msgBuffer := storeAt st.msgBuffer 0 P } := by
  have hP : P ≠ [] := by
    intro h; rw [h] at h1; simp at h1
  rw [xorAll_frameBody]
  unfold frameBody
  rw [feed_append, feed_header K st s _ _ hst, length_bytes _ h2,
    feed_payload K P _ rfl hP (by simp) (by simpa using h2)]
  simp

/-- The decoder state after a whole frame. -/
theorem feed_frame (K : CommandH) (st : State) (s : Nat) (P : List Nat)
    (hst : st.msgParseState = ST_START) (h1 : 1 ≤ P.length) (h2 : P.length < 65536) :
    feed K st (frame K s P) = accepted st s P (xorAll (frameBody K s P)) := by
  unfold frame
  rw [feed_append, feed_frameBody K st s P hst h1 h2]
  simp [feed, msgParse, accepted, ST_START, ST_GET_SEQ_NUM, ST_MSG_SIZE_1, ST_MSG_SIZE_2,
    ST_GET_TOKEN, ST_GET_DATA, ST_GET_CHECK]

theorem length_frameBody (K : CommandH) (s : Nat) (P : List Nat) :
    (frameBody K s P).length = P.length + 5 := by
  simp [frameBody]

theorem length_frame (K : CommandH) (s : Nat) (P : List Nat) :
    (frame K s P).length = P.length + 6 := by
  simp [frame, length_frameBody]

/-- No proper initial part of a frame brings the decoder to `ST_PROCESS`. -/
theorem feed_frame_take (K : CommandH) (st : State) (s : Nat) (P : List Nat)
    (hst : st.msgParseState = ST_START) (h1 : 1 ≤ P.length) (h2 : P.length < 65536)
    (n : Nat) (hn : n < (frame K s P).length) :
    (feed K st ((frame K s P).take n)).msgParseState ≠ ST_PROCESS := by
  rw [length_frame] at hn
  have hle : n ≤ (frameBody K s P).length := by rw [length_frameBody]; omega
  unfold frame
  rw [List.take_append_of_le_length hle]
  by_cases h5 : n < 5
  · unfold frameBody
    have h : n = 0 ∨ n = 1 ∨ n = 2 ∨ n = 3 ∨ n = 4 := by omega
    rcases h with h | h | h | h | h <;> subst h <;>
      simp [feed, msgParse, hst, ST_START, ST_GET_SEQ_NUM, ST_MSG_SIZE_1, ST_MSG_SIZE_2,
        ST_GET_TOKEN, ST_GET_DATA, ST_PROCESS]
  · by_cases hfull : n = P.length + 5
    · rw [List.take_of_length_le (by rw [length_frameBody]; omega),
        feed_frameBody K st s P hst h1 h2]
      simp [ST_GET_CHECK, ST_PROCESS]
    · have hlen : (List.take (n - 5) P).length = n - 5 := by
        rw [List.length_take]; omega
      unfold frameBody
      rw [List.take_append_eq_append_take, List.take_of_length_le (by simp; omega),
        feed_append, feed_header K st s _ _ hst, length_bytes _ h2]
      simp only [List.length_cons, List.length_nil]
      rw [feed_data K _ _ rfl (by simp only [hlen]; omega) (by simpa using h2)]
      simp [ST_GET_DATA, ST_PROCESS]

theorem collectMessage_process (K : CommandH) (st : State) (rest : List Nat)
    (h : st.msgParseState = ST_PROCESS) : collectMessage K st rest = Res.ok (st, rest) := by
  cases rest <;> simp [collectMessage, h]

theorem fetchByte_of_ne (st : State) (h : st.boot_state ≠ 1) : fetchByte st = st := by
  unfold fetchByte; rw [if_neg h]

theorem fetchByte_boot_state (st : State) : (fetchByte st).boot_state ≠ 1 := by
  unfold fetchByte
  split_ifs with h
  · show (0 : Nat) ≠ 1
    decide
  · exact h

theorem fetchByte_msgParseState (st : State) :
    (fetchByte st).msgParseState = st.msgParseState := by
  unfold fetchByte; split_ifs <;> rfl

theorem msgParse_boot_state (K : CommandH) (st : State) (c : Nat) :
    (msgParse K st c).boot_state = st.boot_state := by
  unfold msgParse
  dsimp only
  split_ifs <;> rfl

/-- Once `boot_state` is not 1, the receive loop reads on as long as the
decoder has not reached `ST_PROCESS`. -/
theorem collectMessage_feed_later (K : CommandH) : ∀ (cs : List Nat) (st : State)
    (rest : List Nat), st.boot_state ≠ 1 →
    (∀ n, n < cs.length → (feed K st (cs.take n)).msgParseState ≠ ST_PROCESS) →
    collectMessage K st (cs ++ rest) = collectMessage K (feed K st cs) rest
  | [], _, _, _, _ => rfl
  | c :: cs, st, rest, hb, h => by
    have h0 : st.msgParseState ≠ ST_PROCESS := h 0 (by simp)
    have hrec := collectMessage_feed_later K cs (msgParse K st c) rest
      (by rw [msgParse_boot_state]; exact hb) (fun n hn => by
      have := h (n + 1) (by simpa using hn)
      simpa [feed] using this)
    have hstep : collectMessage K st (c :: cs ++ rest) =
        collectMessage K (msgParse K st c) (cs ++ rest) := by
      simp only [List.cons_append, collectMessage, if_neg h0, fetchByte_of_ne st hb]
      rfl
    rw [hstep, hrec]
    rfl

/-- The receive loop fetches the bytes `cs` as long as the decoder has not
reached `ST_PROCESS`. -/
theorem collectMessage_feed (K : CommandH) (cs : List Nat) (st : State) (rest : List Nat)
    (hne : cs ≠ [])
    (h : ∀ n, n < cs.length → (feed K (fetchByte st) (cs.take n)).msgParseState ≠ ST_PROCESS) :
    collectMessage K st (cs ++ rest) = collectMessage K (feed K (fetchByte st) cs) rest := by
  cases cs with
  | nil => exact absurd rfl hne
  | cons c cs =>
    have h0 : st.msgParseState ≠ ST_PROCESS := by
      have := h 0 (by simp)
      rw [← fetchByte_msgParseState]
      simpa [feed] using this
    have hstep : collectMessage K st (c :: cs ++ rest) =
        collectMessage K (msgParse K (fetchByte st) c) (cs ++ rest) := by
      simp only [List.cons_append, collectMessage, if_neg h0]
      rfl
    rw [hstep, collectMessage_feed_later K cs _ rest
      (by rw [msgParse_boot_state]; exact fetchByte_boot_state st) (fun n hn => by
      have := h (n + 1) (by simpa using hn)
      simpa [feed] using this)]
    rfl

theorem msgParse_check (K : CommandH) (s : State) (c : Nat)
    (h : s.msgParseState = ST_GET_CHECK) :
    msgParse K s c =
      if c = s.checksum then { s with msgParseState := ST_PROCESS }
      else { s with msgParseState := ST_START } := by
  simp [msgParse, h, ST_START, ST_GET_SEQ_NUM, ST_MSG_SIZE_1, ST_MSG_SIZE_2,
    ST_GET_TOKEN, ST_GET_DATA, ST_GET_CHECK]

theorem foldl_xor_init (P : List Nat) : ∀ (a m : Nat),
    P.foldl (· ^^^ ·) (a ^^^ m) = P.foldl (· ^^^ ·) a ^^^ m := by
  induction P with
  | nil => intro a m; rfl
  | cons c P ih =>
    intro a m
    simp only [List.foldl_cons]
    rw [← ih (a ^^^ c) m]
    congr 1
    rw [Nat.xor_assoc, Nat.xor_comm m c, ← Nat.xor_assoc]

theorem foldl_xor_set : ∀ (P : List Nat) (a i : Nat) (hi : i < P.length) (m : Nat),
    (P.set i (P[i] ^^^ m)).foldl (· ^^^ ·) a = P.foldl (· ^^^ ·) a ^^^ m
  | [], _, _, hi, _ => absurd hi (by simp)
  | c :: P, a, 0, _, m => by
    simp only [List.set_cons_zero, List.foldl_cons, List.getElem_cons_zero]
    rw [← Nat.xor_assoc, foldl_xor_init]
  | c :: P, a, i + 1, hi, m => by
    simp only [List.set_cons_succ, List.foldl_cons, List.getElem_cons_succ]
    exact foldl_xor_set P (a ^^^ c) i (by simpa using hi) m

theorem xor_pow_ne (x j : Nat) : x ^^^ 2 ^ j ≠ x := by
  intro h
  have h0 : x ^^^ (x ^^^ 2 ^ j) = x ^^^ x := by rw [h]
  rw [Nat.xor_cancel_left, Nat.xor_self] at h0
  exact absurd h0 (by positivity)

/-- A frame body followed by a byte other than its XOR is rejected. -/
theorem feed_bad_check (K : CommandH) (st : State) (s : Nat) (P : List Nat) (c : Nat)
    (hst : st.msgParseState = ST_START) (h1 : 1 ≤ P.length) (h2 : P.length < 65536)
    (hc : c ≠ xorAll (frameBody K s P)) :
    (feed K st (frameBody K s P ++ [c])).msgParseState = ST_START := by
  rw [feed_append, feed_frameBody K st s P hst h1 h2]
  have hstep : ∀ s0 : State, feed K s0 [c] = msgParse K s0 c := fun _ => rfl
  rw [hstep, msgParse_check K _ c rfl, if_neg hc]

/-- The receive loop stops at the end of a well-formed frame, leaving the
input behind it unread. -/
theorem collectMessage_whole (K : CommandH) (st : State) (s : Nat) (P rest : List Nat)
    (hst : st.msgParseState = ST_START) (h1 : 1 ≤ P.length) (h2 : P.length ≤ 285) :
    collectMessage K st (frame K s P ++ rest) =
      Res.ok (feed K (fetchByte st) (frame K s P), rest) := by
  have h3 : P.length < 65536 := by omega
  have hst2 : (fetchByte st).msgParseState = ST_START := by
    rw [fetchByte_msgParseState]; exact hst
  rw [collectMessage_feed K _ st rest (by simp [frame, frameBody])
    (feed_frame_take K (fetchByte st) s P hst2 h1 h3)]
  exact collectMessage_process K _ rest (by rw [feed_frame K _ s P hst2 h1 h3]; rfl)

/-- C1. Decoder completeness: a well-formed frame with a payload of 1 to 285
bytes, fed to the decoder in `ST_START`, brings it to `ST_PROCESS` with the
last byte and not before, with `seqNum`, `msgLength` and the first `|P|`
bytes of `msgBuffer` those of the frame; the receive loop stops there, leaving
the input behind the frame unread. -/
theorem decoder_complete (K : CommandH) (st : State) (s : Nat) (P rest : List Nat)
    (hst : st.msgParseState = ST_START) (h1 : 1 ≤ P.length) (h2 : P.length ≤ 285) :
    (∀ n, n < (frame K s P).length →
      (feed K st ((frame K s P).take n)).msgParseState ≠ ST_PROCESS) ∧
    (feed K st (frame K s P)).msgParseState = ST_PROCESS ∧
    (feed K st (frame K s P)).seqNum = s ∧
    (feed K st (frame K s P)).msgLength = P.length ∧
    (∀ i (hi : i < P.length), (feed K st (frame K s P)).msgBuffer i = P[i]) ∧
    collectMessage K st (frame K s P ++ rest) =
      Res.ok (feed K (fetchByte st) (frame K s P), rest) := by
  have h3 : P.length < 65536 := by omega
  have hacc := feed_frame K st s P hst h1 h3
  refine ⟨feed_frame_take K st s P hst h1 h3, ?_, ?_, ?_, ?_, ?_⟩
  · rw [hacc]; rfl
  · rw [hacc]; rfl
  · rw [hacc]; rfl
  · intro i hi
    rw [hacc]
    exact storeAt_lt P st.msgBuffer i hi
  · exact collectMessage_whole K st s P rest hst h1 h2

/-- Instance of C1: the Sign-on style frame with sequence number 7 and the
one-byte payload `[1]`. -/
theorem decoder_complete_witness :
    (resetState.msgParseState = ST_START ∧ 1 ≤ [1].length ∧ [1].length ≤ 285) ∧
    ((∀ n, n < (frame avr068 7 [1]).length →
      (feed avr068 resetState ((frame avr068 7 [1]).take n)).msgParseState ≠ ST_PROCESS) ∧
    (feed avr068 resetState (frame avr068 7 [1])).msgParseState = ST_PROCESS ∧
    (feed avr068 resetState (frame avr068 7 [1])).seqNum = 7 ∧
    (feed avr068 resetState (frame avr068 7 [1])).msgLength = [1].length ∧
    (∀ i (hi : i < [1].length),
      (feed avr068 resetState (frame avr068 7 [1])).msgBuffer i = [1][i]) ∧
    collectMessage avr068 resetState (frame avr068 7 [1] ++ [0x1B]) =
      Res.ok (feed avr068 (fetchByte resetState) (frame avr068 7 [1]), [0x1B])) :=
  ⟨⟨rfl, by decide, by decide⟩,
   decoder_complete avr068 resetState 7 [1] [0x1B] rfl (by decide) (by decide)⟩

theorem xorAll_frameBody_seq (K : CommandH) (s m : Nat) (P : List Nat) :
    xorAll (frameBody K (s ^^^ m) P) = xorAll (frameBody K s P) ^^^ m := by
  rw [xorAll_frameBody, xorAll_frameBody, ← foldl_xor_init]
  congr 1
  ac_rfl

theorem xorAll_frameBody_set (K : CommandH) (s m : Nat) (P : List Nat) (i : Nat)
    (hi : i < P.length) :
    xorAll (frameBody K s (P.set i (P[i] ^^^ m))) = xorAll (frameBody K s P) ^^^ m := by
  rw [xorAll_frameBody, xorAll_frameBody, List.length_set, foldl_xor_set P _ i hi m]

/-- C5. Corruption is rejected: take a well-formed frame with a payload of 1
to 285 bytes and flip bit `j` of the sequence byte, of payload byte `i`, or
of the checksum byte; after the last byte of the corrupted frame the decoder
is in `ST_START` (not in `ST_PROCESS`). -/
theorem corruption_rejected (K : CommandH) (st : State) (s : Nat) (P : List Nat) (j : Nat)
    (hst : st.msgParseState = ST_START) (h1 : 1 ≤ P.length) (h2 : P.length ≤ 285) :
    (feed K st (frameBody K (s ^^^ 2 ^ j) P ++ [xorAll (frameBody K s P)])).msgParseState
      = ST_START ∧
    (∀ i (hi : i < P.length),
      (feed K st (frameBody K s (P.set i (P[i] ^^^ 2 ^ j)) ++
        [xorAll (frameBody K s P)])).msgParseState = ST_START) ∧
    (feed K st (frameBody K s P ++ [xorAll (frameBody K s P) ^^^ 2 ^ j])).msgParseState
      = ST_START := by
  have h3 : P.length < 65536 := by omega
  refine ⟨?_, ?_, ?_⟩
  · apply feed_bad_check K st _ P _ hst h1 h3
    rw [xorAll_frameBody_seq]
    exact (xor_pow_ne _ j).symm
  · intro i hi
    apply feed_bad_check K st s _ _ hst (by rw [List.length_set]; exact h1)
      (by rw [List.length_set]; exact h3)
    rw [xorAll_frameBody_set K s _ P i hi]
    exact (xor_pow_ne _ j).symm
  · exact feed_bad_check K st s P _ hst h1 h3 (xor_pow_ne _ j)

/-- Instance of C5: the frame `1B 07 00 02 0E 01 00 11` with bit 3 flipped in
the sequence byte, in a payload byte, or in the checksum. -/
theorem corruption_rejected_witness :
    (resetState.msgParseState = ST_START ∧ 1 ≤ [1, 0].length ∧ [1, 0].length ≤ 285) ∧
    ((feed avr068 resetState
        (frameBody avr068 (7 ^^^ 2 ^ 3) [1, 0] ++
          [xorAll (frameBody avr068 7 [1, 0])])).msgParseState = ST_START ∧
    (∀ i (hi : i < [1, 0].length),
      (feed avr068 resetState (frameBody avr068 7 ([1, 0].set i ([1, 0][i] ^^^ 2 ^ 3)) ++
        [xorAll (frameBody avr068 7 [1, 0])])).msgParseState = ST_START) ∧
    (feed avr068 resetState
        (frameBody avr068 7 [1, 0] ++
          [xorAll (frameBody avr068 7 [1, 0]) ^^^ 2 ^ 3])).msgParseState = ST_START) :=
  ⟨⟨rfl, by decide, by decide⟩,
   corruption_rejected avr068 resetState 7 [1, 0] 3 rfl (by decide) (by decide)⟩

/-! ## Theorems: reply -/

theorem length_bufferBytes (buf : Nat → Nat) : ∀ (n p : Nat),
    (bufferBytes buf p n).length = n
  | 0, _ => rfl
  | n + 1, p => by simp [bufferBytes, length_bufferBytes buf n]

theorem getElem_bufferBytes (buf : Nat → Nat) : ∀ (n p i : Nat)
    (h : i < (bufferBytes buf p n).length), (bufferBytes buf p n)[i] = buf (p + i)
  | 0, _, _, h => absurd h (by simp [bufferBytes])
  | n + 1, p, 0, _ => by simp [bufferBytes]
  | n + 1, p, i + 1, h => by
    simp only [bufferBytes, List.getElem_cons_succ]
    rw [getElem_bufferBytes buf n (p + 1) i]
    congr 1
    omega

theorem sendLoop_eq : ∀ (n : Nat) (st : State) (p : Nat),
    (st.selectedSerial = 0 ∨ st.selectedSerial = 2) →
    sendLoop n st p =
      { st with tx := st.tx ++ bufferBytes st.msgBuffer p n,
                checksum := (bufferBytes st.msgBuffer p n).foldl (· ^^^ ·) st.checksum,
                msgLength := st.msgLength - n }
  | 0, st, p, _ => by simp [sendLoop, bufferBytes]
  | n + 1, st, p, h => by
    have hs : (st.selectedSerial = 0 ∨ st.selectedSerial = 2) = True := eq_true h
    rw [sendLoop, sendLoop_eq n _ (p + 1) (by simp [sendchar, hs])]
    simp [sendchar, hs, bufferBytes, Nat.sub_sub, Nat.add_comm 1 n]

theorem length_low_high (L : Nat) (h : L < 65536) :
    L >>> 8 = L / 256 ∧ L &&& 0xFF = L % 256 ∧ (L >>> 8) &&& 0xFF = L / 256 := by
  have h1 : L >>> 8 = L / 256 := by rw [Nat.shiftRight_eq_div_pow]
  have h2 : ∀ x : Nat, x &&& 0xFF = x % 256 := fun x => Nat.and_pow_two_sub_one_eq_mod x 8
  refine ⟨h1, h2 L, ?_⟩
  rw [h2, h1]
  omega

/-- What `sendAnswer` transmits: the reply frame. -/
theorem sendAnswer_tx (K : CommandH) (st : State)
    (hser : st.selectedSerial = 0 ∨ st.selectedSerial = 2) (hL : st.msgLength < 65536) :
    (sendAnswer K st).tx = st.tx ++ (replyBody K st ++ [xorAll (replyBody K st)]) := by
  obtain ⟨e1, e2, e3⟩ := length_low_high st.msgLength hL
  have e2' : st.msgLength &&& 255 = st.msgLength % 256 := e2
  have e3' : st.msgLength / 256 &&& 255 = st.msgLength / 256 := by
    have h := e3
    rw [e1] at h
    exact h
  have hs : (st.selectedSerial = 0 ∨ st.selectedSerial = 2) = True := eq_true hser
  unfold sendAnswer replyBody
  simp only [sendchar, hs, if_true]
  rw [sendLoop_eq _ _ _ (by simp [hs])]
  simp [xorAll, List.foldl_append, e1, e2', e3', hs]

theorem replyBody_eq_frameBody (K : CommandH) (st : State) (hL : st.msgLength < 65536) :
    replyBody K st = frameBody K st.seqNum (bufferBytes st.msgBuffer 0 st.msgLength) := by
  obtain ⟨e1, e2, _⟩ := length_low_high st.msgLength hL
  unfold replyBody frameBody
  rw [length_bufferBytes, e1, e2]

/-- C7. Reply framing round trip: for a reply of length 1 to 285 the bytes
sent are `MESSAGE_START, seqNum, L>>8, L&0xFF, TOKEN, msgBuffer[0..L)` and the
XOR of all of these; a decoder in `ST_START` fed exactly these bytes reaches
`ST_PROCESS` with the last of them and not before, with the same sequence
number, length and payload. -/
theorem reply_roundtrip (K : CommandH) (st st0 : State)
    (hser : st.selectedSerial = 0 ∨ st.selectedSerial = 2)
    (h1 : 1 ≤ st.msgLength) (h2 : st.msgLength ≤ 285)
    (hst0 : st0.msgParseState = ST_START) :
    (sendAnswer K st).tx = st.tx ++ (replyBody K st ++ [xorAll (replyBody K st)]) ∧
    (∀ n, n < (replyBody K st ++ [xorAll (replyBody K st)]).length →
      (feed K st0 ((replyBody K st ++ [xorAll (replyBody K st)]).take n)).msgParseState
        ≠ ST_PROCESS) ∧
    (feed K st0 (replyBody K st ++ [xorAll (replyBody K st)])).msgParseState = ST_PROCESS ∧
    (feed K st0 (replyBody K st ++ [xorAll (replyBody K st)])).seqNum = st.seqNum ∧
    (feed K st0 (replyBody K st ++ [xorAll (replyBody K st)])).msgLength = st.msgLength ∧
    (∀ i, i < st.msgLength →
      (feed K st0 (replyBody K st ++ [xorAll (replyBody K st)])).msgBuffer i
        = st.msgBuffer i) := by
  have hL : st.msgLength < 65536 := by omega
  have hlen := length_bufferBytes st.msgBuffer st.msgLength 0
  have hfr : replyBody K st ++ [xorAll (replyBody K st)] =
      frame K st.seqNum (bufferBytes st.msgBuffer 0 st.msgLength) := by
    rw [replyBody_eq_frameBody K st hL]; rfl
  have hP1 : 1 ≤ (bufferBytes st.msgBuffer 0 st.msgLength).length := by rw [hlen]; exact h1
  have hP2 : (bufferBytes st.msgBuffer 0 st.msgLength).length < 65536 := by rw [hlen]; exact hL
  have hacc := feed_frame K st0 st.seqNum (bufferBytes st.msgBuffer 0 st.msgLength)
    hst0 hP1 hP2
  rw [hfr]
  refine ⟨by rw [← hfr]; exact sendAnswer_tx K st hser hL,
    feed_frame_take K st0 st.seqNum _ hst0 hP1 hP2, by rw [hacc]; rfl, by rw [hacc]; rfl,
    by rw [hacc]; exact hlen, ?_⟩
  intro i hi
  have hi2 : i < (bufferBytes st.msgBuffer 0 st.msgLength).length := by rw [hlen]; exact hi
  rw [hacc]
  show storeAt st0.msgBuffer 0 (bufferBytes st.msgBuffer 0 st.msgLength) i = _
  rw [storeAt_lt _ st0.msgBuffer i hi2, getElem_bufferBytes, Nat.zero_add]

/-! ## Theorems: what the command interpreter leaves alone -/

/-- Instance of C7: a two-byte reply with sequence number 0. -/
theorem reply_roundtrip_witness :
    (({ resetState with msgLength := 2 } : State).selectedSerial = 0 ∨
      ({ resetState with msgLength := 2 } : State).selectedSerial = 2) ∧
    1 ≤ ({ resetState with msgLength := 2 } : State).msgLength ∧
    ({ resetState with msgLength := 2 } : State).msgLength ≤ 285 ∧
    resetState.msgParseState = ST_START ∧
    (sendAnswer avr068 { resetState with msgLength := 2 }).tx =
      ({ resetState with msgLength := 2 } : State).tx ++
        (replyBody avr068 { resetState with msgLength := 2 } ++
          [xorAll (replyBody avr068 { resetState with msgLength := 2 })]) ∧
    (∀ n, n < (replyBody avr068 { resetState with msgLength := 2 } ++
          [xorAll (replyBody avr068 { resetState with msgLength := 2 })]).length →
      (feed avr068 resetState ((replyBody avr068 { resetState with msgLength := 2 } ++
          [xorAll (replyBody avr068 { resetState with msgLength := 2 })]).take n)).msgParseState
        ≠ ST_PROCESS) ∧
    (feed avr068 resetState (replyBody avr068 { resetState with msgLength := 2 } ++
      [xorAll (replyBody avr068 { resetState with msgLength := 2 })])).msgParseState
        = ST_PROCESS ∧
    (feed avr068 resetState (replyBody avr068 { resetState with msgLength := 2 } ++
      [xorAll (replyBody avr068 { resetState with msgLength := 2 })])).seqNum
        = ({ resetState with msgLength := 2 } : State).seqNum ∧
    (feed avr068 resetState (replyBody avr068 { resetState with msgLength := 2 } ++
      [xorAll (replyBody avr068 { resetState with msgLength := 2 })])).msgLength
        = ({ resetState with msgLength := 2 } : State).msgLength ∧
    (∀ i, i < ({ resetState with msgLength := 2 } : State).msgLength →
      (feed avr068 resetState (replyBody avr068 { resetState with msgLength := 2 } ++
        [xorAll (replyBody avr068 { resetState with msgLength := 2 })])).msgBuffer i
        = ({ resetState with msgLength := 2 } : State).msgBuffer i) :=
  ⟨Or.inl rfl, by decide, by decide, rfl,
   reply_roundtrip avr068 { resetState with msgLength := 2 } resetState (Or.inl rfl)
     (by decide) (by decide) rfl⟩

/-! ## Theorems: what the loops of the command interpreter preserve -/

/-- Anything the body of the Program-Flash loop preserves, the loop
preserves. -/
theorem programFlashLoop_inv {α : Type} (f : State → α)
    (hf : ∀ st p, f (programFlashStep st p) = f st) (fuel : Nat) :
    ∀ (st : State) (p size : Nat), f (programFlashLoop fuel st p size).reached = f st := by
  induction fuel with
  | zero => intro st p size; rfl
  | succ fuel ih =>
    intro st p size
    simp only [programFlashLoop]
    split
    · rw [ih, hf]
    · exact hf st p

theorem programEepromLoop_inv {α : Type} (f : State → α)
    (hf : ∀ st p ii, f (programEepromStep st p ii) = f st) (fuel : Nat) :
    ∀ (st : State) (p ii size : Nat),
      f (programEepromLoop fuel st p ii size).reached = f st := by
  induction fuel with
  | zero => intro st p ii size; rfl
  | succ fuel ih =>
    intro st p ii size
    simp only [programEepromLoop]
    split
    · rw [ih, hf]
    · rfl

theorem readFlashLoop_inv {α : Type} (f : State → α)
    (hf : ∀ st p, f (readFlashStep st p) = f st) (fuel : Nat) :
    ∀ (st : State) (p size : Nat), f (readFlashLoop fuel st p size).reachedFst = f st := by
  induction fuel with
  | zero => intro st p size; rfl
  | succ fuel ih =>
    intro st p size
    simp only [readFlashLoop]
    split
    · rw [ih, hf]
    · exact hf st p

theorem readEepromLoop_inv {α : Type} (f : State → α)
    (hf : ∀ st p, f (readEepromStep st p) = f st) (fuel : Nat) :
    ∀ (st : State) (p size : Nat), f (readEepromLoop fuel st p size).reachedFst = f st := by
  induction fuel with
  | zero => intro st p size; rfl
  | succ fuel ih =>
    intro st p size
    simp only [readEepromLoop]
    split
    · rw [ih, hf]
    · exact hf st p

theorem programFlashProgress_address (st : State) (size : Nat) :
    (programFlashProgress st size).address = st.address := by
  unfold programFlashProgress; split_ifs <;> rfl

theorem programFlashErase_address (st : State) :
    (programFlashErase st).address = st.address := by
  unfold programFlashErase; split_ifs <;> rfl

/-- Anything preserved by the pieces of the program case is preserved by the
whole case. -/
theorem cmdProgram_inv {α : Type} (f : State → α) (K : CommandH)
    (h1 : ∀ st size, f (programFlashProgress st size) = f st)
    (h2 : ∀ st, f (programFlashErase st) = f st)
    (h3 : ∀ st p, f (programFlashStep st p) = f st)
    (h4 : ∀ st a, a < APP_END → f (programFlashWrite st a) = f st)
    (h5 : ∀ st p ii, f (programEepromStep st p ii) = f st)
    (h6 : ∀ st, f (answerOk K st) = f st)
    (fuel : Nat) (st : State) : f (cmdProgram K fuel st).reached = f st := by
  unfold cmdProgram
  simp only []
  split_ifs with hop haddr
  · have haddr2 : st.address < APP_END := by
      rw [programFlashErase_address, programFlashProgress_address] at haddr
      exact haddr
    have hl := programFlashLoop_inv f h3 fuel
      (programFlashErase (programFlashProgress st
        ((st.msgBuffer 1 <<< 8 ||| st.msgBuffer 2) % 65536))) 10
      ((st.msgBuffer 1 <<< 8 ||| st.msgBuffer 2) % 65536)
    cases hr : programFlashLoop fuel
      (programFlashErase (programFlashProgress st
        ((st.msgBuffer 1 <<< 8 ||| st.msgBuffer 2) % 65536))) 10
      ((st.msgBuffer 1 <<< 8 ||| st.msgBuffer 2) % 65536) with
    | ok s1 =>
      rw [hr] at hl
      simp only [Res.reached] at hl ⊢
      rw [h6, h4 _ _ haddr2, hl, h2, h1]
    | hang s1 =>
      rw [hr] at hl
      simp only [Res.reached] at hl ⊢
      rw [hl, h2, h1]
    | jump s1 =>
      rw [hr] at hl
      simp only [Res.reached] at hl ⊢
      rw [hl, h2, h1]
  · simp only [Res.reached]
    rw [h6, h2, h1]
  · have hl := programEepromLoop_inv f h5 fuel st 10 ((st.address >>> 1) % 65536)
      ((st.msgBuffer 1 <<< 8 ||| st.msgBuffer 2) % 65536)
    cases hr : programEepromLoop fuel st 10 ((st.address >>> 1) % 65536)
      ((st.msgBuffer 1 <<< 8 ||| st.msgBuffer 2) % 65536) with
    | ok s1 =>
      rw [hr] at hl
      simp only [Res.reached] at hl ⊢
      rw [h6, hl]
    | hang s1 =>
      rw [hr] at hl
      simp only [Res.reached] at hl ⊢
      rw [hl]
    | jump s1 =>
      rw [hr] at hl
      simp only [Res.reached] at hl ⊢
      rw [hl]

/-- Anything preserved by the pieces of the read case is preserved by the
whole case. -/
theorem cmdRead_inv {α : Type} (f : State → α) (K : CommandH)
    (h1 : ∀ st size, f (readHeader K st size) = f st)
    (h2 : ∀ st size, f (readFlashProgress st size) = f st)
    (h3 : ∀ st p, f (readFlashStep st p) = f st)
    (h4 : ∀ st p, f (readEepromStep st p) = f st)
    (h5 : ∀ st p v, f (setBuf st p v) = f st)
    (fuel : Nat) (st : State) : f (cmdRead K fuel st).reached = f st := by
  unfold cmdRead
  simp only []
  split_ifs with hop
  · have hl := readFlashLoop_inv f h3 fuel
      (readFlashProgress (readHeader K st ((st.msgBuffer 1 <<< 8 ||| st.msgBuffer 2) % 65536))
        ((st.msgBuffer 1 <<< 8 ||| st.msgBuffer 2) % 65536)) 2
      ((st.msgBuffer 1 <<< 8 ||| st.msgBuffer 2) % 65536)
    cases hr : readFlashLoop fuel
      (readFlashProgress (readHeader K st ((st.msgBuffer 1 <<< 8 ||| st.msgBuffer 2) % 65536))
        ((st.msgBuffer 1 <<< 8 ||| st.msgBuffer 2) % 65536)) 2
      ((st.msgBuffer 1 <<< 8 ||| st.msgBuffer 2) % 65536) with
    | ok s1 =>
      obtain ⟨s1, q⟩ := s1
      rw [hr] at hl
      simp only [Res.reached, Res.reachedFst] at hl ⊢
      rw [h5, hl, h2, h1]
    | hang s1 =>
      rw [hr] at hl
      simp only [Res.reached, Res.reachedFst] at hl ⊢
      rw [hl, h2, h1]
    | jump s1 =>
      rw [hr] at hl
      simp only [Res.reached, Res.reachedFst] at hl ⊢
      rw [hl, h2, h1]
  · have hl := readEepromLoop_inv f h4 fuel
      (readHeader K st ((st.msgBuffer 1 <<< 8 ||| st.msgBuffer 2) % 65536)) 2
      ((st.msgBuffer 1 <<< 8 ||| st.msgBuffer 2) % 65536)
    cases hr : readEepromLoop fuel
      (readHeader K st ((st.msgBuffer 1 <<< 8 ||| st.msgBuffer 2) % 65536)) 2
      ((st.msgBuffer 1 <<< 8 ||| st.msgBuffer 2) % 65536) with
    | ok s1 =>
      obtain ⟨s1, q⟩ := s1
      rw [hr] at hl
      simp only [Res.reached, Res.reachedFst] at hl ⊢
      rw [h5, hl, h1]
    | hang s1 =>
      rw [hr] at hl
      simp only [Res.reached, Res.reachedFst] at hl ⊢
      rw [hl, h1]
    | jump s1 =>
      rw [hr] at hl
      simp only [Res.reached, Res.reachedFst] at hl ⊢
      rw [hl, h1]

theorem programFlashProgress_link (st : State) (size : Nat) :
    link (programFlashProgress st size) = link st := by
  unfold programFlashProgress; split_ifs <;> rfl

theorem programFlashErase_link (st : State) : link (programFlashErase st) = link st := by
  unfold programFlashErase; split_ifs <;> rfl

theorem readFlashProgress_link (st : State) (size : Nat) :
    link (readFlashProgress st size) = link st := by
  unfold readFlashProgress; split_ifs <;> rfl

theorem link_setBuf (st : State) (i v : Nat) : link (setBuf st i v) = link st := rfl

/-- Case analysis over the command switch: what holds for the result of every
case holds for the result of `processCommand`. -/
theorem processCommand_elim {P : Res State → Prop} (K : CommandH) (fuel : Nat) (st : State)
    (hsimple : ∀ f : CommandH → State → State,
      f ∈ [cmdSpiMulti, cmdSignOn, cmdGetParameter, cmdLeaveProgmode, cmdAcknowledge,
           cmdReadSignature, cmdReadLock, cmdReadFuse, cmdProgramLock, cmdChipErase,
           cmdLoadAddress, cmdSetUploadSize, cmdDefault] → P (Res.ok (f K st)))
    (hprog : P (cmdProgram K fuel st)) (hread : P (cmdRead K fuel st)) :
    P (processCommand K fuel st) := by
  unfold processCommand
  by_cases h : st.msgBuffer 0 = K.CMD_SPI_MULTI
  · rw [if_pos h]; exact hsimple cmdSpiMulti (by simp)
  rw [if_neg h]
  clear h
  by_cases h : st.msgBuffer 0 = K.CMD_SIGN_ON
  · rw [if_pos h]; exact hsimple cmdSignOn (by simp)
  rw [if_neg h]
  clear h
  by_cases h : st.msgBuffer 0 = K.CMD_GET_PARAMETER
  · rw [if_pos h]; exact hsimple cmdGetParameter (by simp)
  rw [if_neg h]
  clear h
  by_cases h : st.msgBuffer 0 = K.CMD_LEAVE_PROGMODE_ISP
  · rw [if_pos h]; exact hsimple cmdLeaveProgmode (by simp)
  rw [if_neg h]
  clear h
  by_cases h : st.msgBuffer 0 = K.CMD_SET_PARAMETER
  · rw [if_pos h]; exact hsimple cmdAcknowledge (by simp)
  rw [if_neg h]
  clear h
  by_cases h : st.msgBuffer 0 = K.CMD_ENTER_PROGMODE_ISP
  · rw [if_pos h]; exact hsimple cmdAcknowledge (by simp)
  rw [if_neg h]
  clear h
  by_cases h : st.msgBuffer 0 = K.CMD_READ_SIGNATURE_ISP
  · rw [if_pos h]; exact hsimple cmdReadSignature (by simp)
  rw [if_neg h]
  clear h
  by_cases h : st.msgBuffer 0 = K.CMD_READ_LOCK_ISP
  · rw [if_pos h]; exact hsimple cmdReadLock (by simp)
  rw [if_neg h]
  clear h
  by_cases h : st.msgBuffer 0 = K.CMD_READ_FUSE_ISP
  · rw [if_pos h]; exact hsimple cmdReadFuse (by simp)
  rw [if_neg h]
  clear h
  by_cases h : st.msgBuffer 0 = K.CMD_PROGRAM_LOCK_ISP
  · rw [if_pos h]; exact hsimple cmdProgramLock (by simp)
  rw [if_neg h]
  clear h
  by_cases h : st.msgBuffer 0 = K.CMD_CHIP_ERASE_ISP
  · rw [if_pos h]; exact hsimple cmdChipErase (by simp)
  rw [if_neg h]
  clear h
  by_cases h : st.msgBuffer 0 = K.CMD_LOAD_ADDRESS
  · rw [if_pos h]; exact hsimple cmdLoadAddress (by simp)
  rw [if_neg h]
  clear h
  by_cases h : st.msgBuffer 0 = K.CMD_SET_UPLOAD_SIZE_PRUSA3D
  · rw [if_pos h]; exact hsimple cmdSetUploadSize (by simp)
  rw [if_neg h]
  clear h
  by_cases h : st.msgBuffer 0 = K.CMD_PROGRAM_FLASH_ISP
  · rw [if_pos h]; exact hprog
  rw [if_neg h]
  clear h
  by_cases h : st.msgBuffer 0 = K.CMD_PROGRAM_EEPROM_ISP
  · rw [if_pos h]; exact hprog
  rw [if_neg h]
  clear h
  by_cases h : st.msgBuffer 0 = K.CMD_READ_FLASH_ISP
  · rw [if_pos h]; exact hread
  rw [if_neg h]
  clear h
  by_cases h : st.msgBuffer 0 = K.CMD_READ_EEPROM_ISP
  · rw [if_pos h]; exact hread
  rw [if_neg h]
  clear h
  exact hsimple cmdDefault (by simp)

/-- No command changes the sequence number, the selected port or the bytes
already sent. -/
theorem processCommand_link (K : CommandH) (fuel : Nat) (st : State) :
    link (processCommand K fuel st).reached = link st := by
  refine processCommand_elim (P := fun r => link r.reached = link st) K fuel st ?_ ?_ ?_
  · intro f hf
    simp only [List.mem_cons, List.mem_singleton, List.not_mem_nil, or_false] at hf
    rcases hf with h | h | h | h | h | h | h | h | h | h | h | h | h <;> subst h <;>
      simp only [Res.reached, cmdSpiMulti, cmdSignOn, cmdGetParameter, cmdLeaveProgmode,
        cmdAcknowledge, cmdReadSignature, cmdReadLock, cmdReadFuse, cmdProgramLock,
        cmdChipErase, cmdLoadAddress, cmdSetUploadSize, cmdDefault, link_setBuf] <;> rfl
  · exact cmdProgram_inv link K programFlashProgress_link programFlashErase_link
      (fun _ _ => rfl) (fun _ _ _ => rfl) (fun _ _ _ => rfl) (fun _ => rfl) fuel st
  · exact cmdRead_inv link K (fun _ _ => rfl) readFlashProgress_link
      (fun _ _ => rfl) (fun _ _ => rfl) (fun _ _ _ => rfl) fuel st

/-! ## Theorems: termination of the loops -/

theorem readFlashLoop_ok (fuel : Nat) : ∀ (st : State) (p size : Nat),
    size % 2 = 0 → size < 65536 → (size + 65534) % 65536 / 2 < fuel →
    ∃ r, readFlashLoop fuel st p size = Res.ok r := by
  induction fuel with
  | zero => intro st p size _ _ h; omega
  | succ fuel ih =>
    intro st p size h1 h2 h3
    simp only [readFlashLoop]
    split
    · exact ih _ _ _ (by omega) (by omega) (by omega)
    · exact ⟨_, rfl⟩

/-- The receive loop of the main loop on a well-formed frame. -/
theorem collectMessage_frame (K : CommandH) (st : State) (s : Nat) (P rest : List Nat)
    (h1 : 1 ≤ P.length) (h2 : P.length ≤ 285) :
    collectMessage K { st with msgParseState := ST_START } (frame K s P ++ rest) =
      Res.ok (accepted (receiving st) s P (xorAll (frameBody K s P)), rest) := by
  rw [collectMessage_whole K { st with msgParseState := ST_START } s P rest rfl h1 h2,
    feed_frame K _ s P (by rw [fetchByte_msgParseState]) h1 (by omega)]
  rfl

/-- Fetching the first byte changes `boot_state` only. -/
theorem receiving_fields (st : State) :
    (receiving st).address = st.address ∧ (receiving st).eraseAddress = st.eraseAddress ∧
    (receiving st).pageBuffer = st.pageBuffer ∧ (receiving st).flash = st.flash ∧
    (receiving st).isLeave = st.isLeave ∧ (receiving st).selectedSerial = st.selectedSerial ∧
    (receiving st).msgBuffer = st.msgBuffer ∧ (receiving st).tx = st.tx := by
  unfold receiving fetchByte
  split_ifs <;> exact ⟨rfl, rfl, rfl, rfl, rfl, rfl, rfl, rfl⟩

theorem APP_END_eq : APP_END = 253952 := by decide

/-- The page of an address below `APP_END` ends at or below `APP_END`. -/
theorem pageBase_lt (a : Nat) (h : a < APP_END) : pageBase a + SPM_PAGESIZE ≤ APP_END := by
  rw [APP_END_eq] at *
  unfold pageBase FLASHEND SPM_PAGESIZE
  omega

theorem boot_page_erase_bootSection (st : State) (a : Nat) (h : a < APP_END) :
    bootSection (boot_page_erase st a) = bootSection st := by
  funext x
  have hp := pageBase_lt a h
  have hn : ¬ (pageBase a ≤ APP_END + x ∧ APP_END + x < pageBase a + SPM_PAGESIZE) := by omega
  simp only [bootSection, boot_page_erase, if_neg hn]

theorem boot_page_write_bootSection (st : State) (a : Nat) (h : a < APP_END) :
    bootSection (boot_page_write st a) = bootSection st := by
  funext x
  have hp := pageBase_lt a h
  have hn : ¬ (pageBase a ≤ APP_END + x ∧ APP_END + x < pageBase a + SPM_PAGESIZE) := by omega
  simp only [bootSection, boot_page_write, if_neg hn]

theorem programFlashProgress_bootSection (st : State) (size : Nat) :
    bootSection (programFlashProgress st size) = bootSection st := by
  unfold programFlashProgress; split_ifs <;> rfl

theorem programFlashErase_bootSection (st : State) :
    bootSection (programFlashErase st) = bootSection st := by
  unfold programFlashErase
  split_ifs with h
  · exact boot_page_erase_bootSection st _ h
  · rfl

theorem programFlashWrite_bootSection (st : State) (a : Nat) (h : a < APP_END) :
    bootSection (programFlashWrite st a) = bootSection st :=
  boot_page_write_bootSection st a h

theorem readFlashProgress_bootSection (st : State) (size : Nat) :
    bootSection (readFlashProgress st size) = bootSection st := by
  unfold readFlashProgress; split_ifs <;> rfl

theorem bootSection_setBuf (st : State) (i v : Nat) :
    bootSection (setBuf st i v) = bootSection st := rfl

theorem cmdProgram_bootSection (K : CommandH) (fuel : Nat) (st : State) :
    bootSection (cmdProgram K fuel st).reached = bootSection st :=
  cmdProgram_inv bootSection K programFlashProgress_bootSection programFlashErase_bootSection
    (fun _ _ => rfl) programFlashWrite_bootSection (fun _ _ _ => rfl) (fun _ => rfl) fuel st

/-- No command changes the bootloader section. -/
theorem processCommand_bootSection (K : CommandH) (fuel : Nat) (st : State) :
    bootSection (processCommand K fuel st).reached = bootSection st := by
  refine processCommand_elim (P := fun r => bootSection r.reached = bootSection st)
    K fuel st ?_ ?_ ?_
  · intro f hf
    simp only [List.mem_cons, List.mem_singleton, List.not_mem_nil, or_false] at hf
    rcases hf with h | h | h | h | h | h | h | h | h | h | h | h | h <;> subst h <;>
      simp only [Res.reached, cmdSpiMulti, cmdSignOn, cmdGetParameter, cmdLeaveProgmode,
        cmdAcknowledge, cmdReadSignature, cmdReadLock, cmdReadFuse, cmdProgramLock,
        cmdChipErase, cmdLoadAddress, cmdSetUploadSize, cmdDefault, bootSection_setBuf] <;> rfl
  · exact cmdProgram_bootSection K fuel st
  · exact cmdRead_inv bootSection K (fun _ _ => rfl) readFlashProgress_bootSection
      (fun _ _ => rfl) (fun _ _ => rfl) (fun _ _ _ => rfl) fuel st

theorem msgParse_flash (K : CommandH) (st : State) (c : Nat) :
    (msgParse K st c).flash = st.flash := by
  unfold msgParse
  dsimp only
  split_ifs <;> rfl

theorem feed_flash (K : CommandH) : ∀ (cs : List Nat) (st : State),
    (feed K st cs).flash = st.flash
  | [], _ => rfl
  | c :: cs, st => by
    have h : feed K st (c :: cs) = feed K (msgParse K st c) cs := rfl
    rw [h, feed_flash K cs, msgParse_flash]

theorem fetchByte_flash (st : State) : (fetchByte st).flash = st.flash := by
  unfold fetchByte; split_ifs <;> rfl

theorem collectMessage_flash (K : CommandH) : ∀ (cs : List Nat) (st : State),
    (collectMessage K st cs).reachedFst.flash = st.flash
  | [], st => by
    simp only [collectMessage]
    split_ifs
    · rfl
    · rfl
    · rw [recchar_timeout_reachedFst]
  | c :: cs, st => by
    simp only [collectMessage]
    split_ifs
    · rfl
    · rw [collectMessage_flash K cs, msgParse_flash, fetchByte_flash]

theorem sendLoop_flash : ∀ (n : Nat) (st : State) (p : Nat),
    (sendLoop n st p).flash = st.flash
  | 0, _, _ => rfl
  | n + 1, st, p => by
    rw [sendLoop, sendLoop_flash n]
    simp only [sendchar]
    split_ifs <;> rfl

theorem sendchar_flash (st : State) (c : Nat) : (sendchar st c).flash = st.flash := by
  unfold sendchar; split_ifs <;> rfl

theorem sendAnswer_flash (K : CommandH) (st : State) : (sendAnswer K st).flash = st.flash := by
  unfold sendAnswer
  simp only [sendLoop_flash, sendchar_flash]

theorem bootSection_congr (a b : State) (h : a.flash = b.flash) :
    bootSection a = bootSection b := by
  unfold bootSection; rw [h]

/-- One pass of the main loop leaves the bootloader section as it was. -/
theorem mainLoopBody_bootSection (K : CommandH) (fuel : Nat) (st : State) (input : List Nat) :
    bootSection (mainLoopBody K fuel st input).reachedFst = bootSection st := by
  unfold mainLoopBody
  have hf := collectMessage_flash K input { st with msgParseState := ST_START }
  cases hc : collectMessage K { st with msgParseState := ST_START } input with
  | hang st1 =>
    rw [hc] at hf
    simp only [Res.reachedFst] at hf ⊢
    exact bootSection_congr _ _ hf
  | jump st1 =>
    rw [hc] at hf
    simp only [Res.reachedFst] at hf ⊢
    exact bootSection_congr _ _ hf
  | ok r =>
    obtain ⟨st1, rest⟩ := r
    rw [hc] at hf
    have h1 : bootSection st1 = bootSection st := bootSection_congr _ _ hf
    have h2 := processCommand_bootSection K fuel st1
    simp only []
    cases hp : processCommand K fuel st1 with
    | ok st2 =>
      rw [hp] at h2
      simp only [Res.reachedFst, Res.reached] at h2 ⊢
      rw [bootSection_congr _ _ (sendAnswer_flash K st2), h2, h1]
    | hang st2 =>
      rw [hp] at h2
      simp only [Res.reachedFst, Res.reached] at h2 ⊢
      rw [h2, h1]
    | jump st2 =>
      rw [hp] at h2
      simp only [Res.reachedFst, Res.reached] at h2 ⊢
      rw [h2, h1]

/-- The main loop leaves the bootloader section as it was, whatever it
receives. -/
theorem mainLoop_bootSection (K : CommandH) (fuel : Nat) : ∀ (n : Nat) (st : State)
    (input : List Nat), bootSection (mainLoop K fuel n st input).reached = bootSection st
  | 0, _, _ => rfl
  | n + 1, st, input => by
    simp only [mainLoop]
    split_ifs with hl
    · rfl
    · have hb := mainLoopBody_bootSection K fuel st input
      cases hm : mainLoopBody K fuel st input with
      | ok r =>
        obtain ⟨st1, rest⟩ := r
        rw [hm] at hb
        simp only [Res.reachedFst] at hb
        simp only []
        rw [mainLoop_bootSection K fuel n st1 rest, hb]
      | hang st1 =>
        rw [hm] at hb
        exact hb
      | jump st1 =>
        rw [hm] at hb
        exact hb

/-- C3. Bootloader protection in Program-Flash: for every state (any
`address`, any `eraseAddress`, any message in `msgBuffer`), the flash byte at
an address `x >= APP_END` is the same after the Program-Flash case as before
it, however many loop iterations are run; the same holds for the whole command
switch and for the main loop on any input, hence across any sequence of
commands. -/
theorem bootloader_protected (K : CommandH) (fuel : Nat) (st : State) (x : Nat)
    (hx : APP_END ≤ x) :
    (cmdProgram K fuel st).reached.flash x = st.flash x ∧
    (processCommand K fuel st).reached.flash x = st.flash x ∧
    (∀ n input, (mainLoop K fuel n st input).reached.flash x = st.flash x) := by
  have hx2 : x = APP_END + (x - APP_END) := by omega
  refine ⟨?_, ?_, ?_⟩
  · have h := congrFun (cmdProgram_bootSection K fuel st) (x - APP_END)
    simp only [bootSection] at h
    rw [hx2]; exact h
  · have h := congrFun (processCommand_bootSection K fuel st) (x - APP_END)
    simp only [bootSection] at h
    rw [hx2]; exact h
  · intro n input
    have h := congrFun (mainLoop_bootSection K fuel n st input) (x - APP_END)
    simp only [bootSection] at h
    rw [hx2]; exact h

/-- Instance of C3: the first byte of the bootloader section, for a machine
fresh from reset. -/
theorem bootloader_protected_witness :
    APP_END ≤ APP_END ∧
    ((cmdProgram avr068 128 resetState).reached.flash APP_END = resetState.flash APP_END ∧
     (processCommand avr068 128 resetState).reached.flash APP_END
       = resetState.flash APP_END ∧
     (∀ n input, (mainLoop avr068 128 n resetState input).reached.flash APP_END
       = resetState.flash APP_END)) :=
  ⟨Nat.le_refl _, bootloader_protected avr068 128 resetState APP_END (Nat.le_refl _)⟩

/-! ## Theorems: deferred self-update -/

/-- C9. A bad magic never triggers a copy: when `boot_app_magic` is not
`0x55aa55aa`, the watchdog block returns the machine state unchanged, whatever
the reset cause, the other descriptor fields and the loop bound: nothing is
erased, filled or written and no descriptor field changes. -/
theorem bad_magic_no_copy (fuel mcuStatusReg : Nat) (st : State)
    (h : st.boot_app_magic ≠ 0x55aa55aa) :
    selfUpdate fuel mcuStatusReg st =
      Res.ok (st, if mcuStatusReg &&& (1 <<< WDRF) ≠ 0 then Next.exit else Next.start) := by
  unfold selfUpdate
  by_cases hw : mcuStatusReg &&& (1 <<< WDRF) ≠ 0
  · rw [if_pos hw, if_neg h, if_pos hw]
  · rw [if_neg hw, if_neg hw]

/-- Instance of C9: a watchdog reset with the magic off by one. -/
theorem bad_magic_no_copy_witness :
    badMagicRequest.boot_app_magic ≠ 0x55aa55aa ∧
    selfUpdate 1000 (1 <<< WDRF) badMagicRequest =
      Res.ok (badMagicRequest,
        if (1 <<< WDRF) &&& (1 <<< WDRF) ≠ 0 then Next.exit else Next.start) :=
  ⟨by decide, bad_magic_no_copy 1000 (1 <<< WDRF) badMagicRequest (by decide)⟩

theorem selfUpdateSkip_size (st : State) :
    (selfUpdateSkip st).boot_copy_size =
      if st.boot_copy_size > SPM_PAGESIZE then st.boot_copy_size - SPM_PAGESIZE else 0 := by
  unfold selfUpdateSkip
  dsimp only
  split_ifs <;> rfl

theorem selfUpdateSkip_flags (st : State) :
    (selfUpdateSkip st).boot_app_flags = st.boot_app_flags := by
  unfold selfUpdateSkip
  dsimp only
  split_ifs <;> rfl

theorem selfUpdateSkip_spmLog (st : State) : (selfUpdateSkip st).spmLog = st.spmLog := by
  unfold selfUpdateSkip
  dsimp only
  split_ifs <;> rfl

/-- The self-update loop with `BOOT_APP_FLG_ERASE` set and `BOOT_APP_FLG_COPY`
clear: one erase per page, nothing else. -/
theorem selfUpdateLoop_eraseOnly (fuel : Nat) : ∀ (st : State) (pa : Nat),
    st.boot_app_flags &&& BOOT_APP_FLG_ERASE ≠ 0 →
    st.boot_app_flags &&& BOOT_APP_FLG_COPY = 0 →
    pa < 2 ^ 32 → (st.boot_copy_size + 255) / 256 < fuel →
    ∃ st1, selfUpdateLoop fuel st pa = Res.ok st1 ∧
      st1.spmLog = st.spmLog ++ (List.range ((st.boot_copy_size + 255) / 256)).map
        (fun k => SpmOp.erase ((pa + k * SPM_PAGESIZE) % 2 ^ 32)) ∧
      st1.boot_copy_size = 0 := by
  induction fuel with
  | zero => intro st pa _ _ _ h; omega
  | succ fuel ih =>
    intro st pa he hc hpa hf
    simp only [selfUpdateLoop]
    by_cases hn : st.boot_copy_size = 0
    · rw [if_neg (by simp [hn])]
      exact ⟨st, rfl, by simp [hn], hn⟩
    · have herase : selfUpdateErase st pa = boot_page_erase st pa := by
        unfold selfUpdateErase; rw [if_pos he]
      have hc2 : ¬ ((boot_page_erase st pa).boot_app_flags &&& BOOT_APP_FLG_COPY ≠ 0) := by
        intro h; exact h hc
      rw [if_pos hn, herase, if_neg hc2]
      have hsz := selfUpdateSkip_size (boot_page_erase st pa)
      have hsz0 : (boot_page_erase st pa).boot_copy_size = st.boot_copy_size := rfl
      rw [hsz0] at hsz
      have hcnt : (st.boot_copy_size + 255) / 256 =
          ((selfUpdateSkip (boot_page_erase st pa)).boot_copy_size + 255) / 256 + 1 := by
        rw [hsz]; unfold SPM_PAGESIZE; split_ifs <;> omega
      obtain ⟨st1, h1, h2, h3⟩ := ih (selfUpdateSkip (boot_page_erase st pa))
        ((pa + SPM_PAGESIZE) % 2 ^ 32)
        (by rw [selfUpdateSkip_flags]; exact he)
        (by rw [selfUpdateSkip_flags]; exact hc)
        (Nat.mod_lt _ (by decide)) (by omega)
      refine ⟨st1, h1, ?_, h3⟩
      rw [h2, selfUpdateSkip_spmLog, hcnt, List.range_succ_eq_map]
      have hlog : (boot_page_erase st pa).spmLog = st.spmLog ++ [SpmOp.erase pa] := rfl
      rw [hlog, List.map_cons, List.map_map, List.append_assoc]
      congr 1
      simp only [List.singleton_append, Nat.zero_mul, Nat.add_zero, Nat.mod_eq_of_lt hpa]
      congr 1
      apply List.map_congr_left
      intro k _
      simp only [Function.comp, SPM_PAGESIZE]
      congr 1
      omega

/-- C10. Erase-only self-update: after a watchdog reset, with a valid magic,
`BOOT_APP_FLG_RUN` and `BOOT_APP_FLG_COPY` clear and `BOOT_APP_FLG_ERASE` set,
the self-update ends (given a loop bound above the page count) at label `exit`
having issued exactly the erases of `d, d + SPM_PAGESIZE, ...` (32-bit
addresses), `ceil(n / SPM_PAGESIZE)` of them, no page fill and no page write,
with `boot_copy_size = 0`; for a page-aligned `d` with `d + n` within the
32-bit range the erased pages are exactly the pages that meet `[d, d + n)`. -/
theorem erase_only_update (fuel mcuStatusReg : Nat) (st : State)
    (hw : mcuStatusReg &&& (1 <<< WDRF) ≠ 0)
    (hm : st.boot_app_magic = 0x55aa55aa)
    (hrun : st.boot_app_flags &&& BOOT_APP_FLG_RUN = 0)
    (he : st.boot_app_flags &&& BOOT_APP_FLG_ERASE ≠ 0)
    (hc : st.boot_app_flags &&& BOOT_APP_FLG_COPY = 0)
    (hd : st.boot_dst_addr % SPM_PAGESIZE = 0) (hd32 : st.boot_dst_addr < 2 ^ 32)
    (hf : (st.boot_copy_size + SPM_PAGESIZE - 1) / SPM_PAGESIZE < fuel) :
    ∃ st1, selfUpdate fuel mcuStatusReg st = Res.ok (st1, Next.exit) ∧
      st1.spmLog = st.spmLog ++
        (List.range ((st.boot_copy_size + SPM_PAGESIZE - 1) / SPM_PAGESIZE)).map
          (fun k => SpmOp.erase ((st.boot_dst_addr + k * SPM_PAGESIZE) % 2 ^ 32)) ∧
      st1.boot_copy_size = 0 ∧
      (st.boot_dst_addr + st.boot_copy_size ≤ 2 ^ 32 →
        ∀ a, a % SPM_PAGESIZE = 0 →
          (SpmOp.erase a ∈
              (List.range ((st.boot_copy_size + SPM_PAGESIZE - 1) / SPM_PAGESIZE)).map
                (fun k => SpmOp.erase ((st.boot_dst_addr + k * SPM_PAGESIZE) % 2 ^ 32)) ↔
            (a < st.boot_dst_addr + st.boot_copy_size ∧
             st.boot_dst_addr < a + SPM_PAGESIZE))) := by
  have hcnt : (st.boot_copy_size + SPM_PAGESIZE - 1) / SPM_PAGESIZE
      = (st.boot_copy_size + 255) / 256 := by unfold SPM_PAGESIZE; rfl
  rw [hcnt] at hf ⊢
  obtain ⟨st1, h1, h2, h3⟩ := selfUpdateLoop_eraseOnly fuel
    { st with address := st.boot_dst_addr } st.boot_dst_addr he hc hd32 hf
  refine ⟨st1, ?_, h2, h3, ?_⟩
  · unfold selfUpdate
    rw [if_pos hw, if_pos hm, if_neg (by intro h; exact h hrun)]
    simp only []
    rw [h1]
  · intro hsum a ha
    unfold SPM_PAGESIZE at ha hd ⊢
    simp only [List.mem_map, List.mem_range, SpmOp.erase.injEq]
    constructor
    · rintro ⟨k, hk, rfl⟩
      have hk2 : st.boot_dst_addr + k * 256 < 2 ^ 32 := by omega
      rw [Nat.mod_eq_of_lt hk2]
      omega
    · rintro ⟨h4, h5⟩
      refine ⟨(a - st.boot_dst_addr) / 256, by omega, ?_⟩
      have hk2 : st.boot_dst_addr + (a - st.boot_dst_addr) / 256 * 256 < 2 ^ 32 := by omega
      rw [Nat.mod_eq_of_lt hk2]
      omega

/-- Instance of C10: 600 bytes from `0x2000` on are three pages. -/
theorem erase_only_update_witness :
    ((1 <<< WDRF) &&& (1 <<< WDRF) ≠ 0 ∧
     eraseRequest.boot_app_magic = 0x55aa55aa ∧
     eraseRequest.boot_app_flags &&& BOOT_APP_FLG_RUN = 0 ∧
     eraseRequest.boot_app_flags &&& BOOT_APP_FLG_ERASE ≠ 0 ∧
     eraseRequest.boot_app_flags &&& BOOT_APP_FLG_COPY = 0 ∧
     eraseRequest.boot_dst_addr % SPM_PAGESIZE = 0 ∧ eraseRequest.boot_dst_addr < 2 ^ 32 ∧
     (eraseRequest.boot_copy_size + SPM_PAGESIZE - 1) / SPM_PAGESIZE < 4) ∧
    ∃ st1, selfUpdate 4 (1 <<< WDRF) eraseRequest = Res.ok (st1, Next.exit) ∧
      st1.spmLog = eraseRequest.spmLog ++
        (List.range ((eraseRequest.boot_copy_size + SPM_PAGESIZE - 1) / SPM_PAGESIZE)).map
          (fun k => SpmOp.erase ((eraseRequest.boot_dst_addr + k * SPM_PAGESIZE) % 2 ^ 32)) ∧
      st1.boot_copy_size = 0 ∧
      (eraseRequest.boot_dst_addr + eraseRequest.boot_copy_size ≤ 2 ^ 32 →
        ∀ a, a % SPM_PAGESIZE = 0 →
          (SpmOp.erase a ∈
              (List.range
                ((eraseRequest.boot_copy_size + SPM_PAGESIZE - 1) / SPM_PAGESIZE)).map
                (fun k =>
                  SpmOp.erase ((eraseRequest.boot_dst_addr + k * SPM_PAGESIZE) % 2 ^ 32)) ↔
            (a < eraseRequest.boot_dst_addr + eraseRequest.boot_copy_size ∧
             eraseRequest.boot_dst_addr < a + SPM_PAGESIZE))) :=
  ⟨⟨by decide, by decide, by decide, by decide, by decide, by decide, by decide, by decide⟩,
   erase_only_update 4 (1 <<< WDRF) eraseRequest (by decide) (by decide) (by decide)
     (by decide) (by decide) (by decide) (by decide) (by decide)⟩

/-- The erases of the instance of C10, evaluated. -/
theorem erase_only_update_pages :
    (List.range ((eraseRequest.boot_copy_size + SPM_PAGESIZE - 1) / SPM_PAGESIZE)).map
      (fun k => SpmOp.erase ((eraseRequest.boot_dst_addr + k * SPM_PAGESIZE) % 2 ^ 32))
    = [SpmOp.erase 0x2000, SpmOp.erase 0x2100, SpmOp.erase 0x2200] := by decide

/-- C8 fails on the code: a descriptor with valid magic, `BOOT_APP_FLG_ERASE`
and destination `APP_END` makes the watchdog block erase the first page of the
bootloader section; the byte at `APP_END` changes from `0x0C` to `0xFF`. -/
theorem selfUpdate_erases_bootloader :
    ∃ st1, selfUpdate 2 (1 <<< WDRF) eraseBootRequest = Res.ok (st1, Next.exit) ∧
      st1.spmLog = [SpmOp.erase APP_END] ∧
      eraseBootRequest.flash APP_END = 0x0C ∧ st1.flash APP_END = 0xFF :=
  ⟨_, rfl, by decide, by decide, by decide⟩

/-! ## Theorems: programming and reading back one page -/

/-- Two different case labels of the command switch have different values. -/
theorem label_ne (K : CommandH) (hK : K.valid) (i j : Nat) (hi : i < 17) (hj : j < 17)
    (hij : i ≠ j) : K.caseLabels.get ⟨i, hi⟩ ≠ K.caseLabels.get ⟨j, hj⟩ := by
  intro h
  exact hij (Fin.mk.inj ((List.nodup_iff_injective_get.mp hK.2.2.2.2) h))

/-- With distinct case labels the Program-Flash opcode selects the program case. -/
theorem processCommand_programFlash (K : CommandH) (hK : K.valid) (fuel : Nat) (st : State)
    (hop : st.msgBuffer 0 = K.CMD_PROGRAM_FLASH_ISP) :
    processCommand K fuel st = cmdProgram K fuel st := by
  unfold processCommand
  rw [hop]
  have n0 : K.CMD_PROGRAM_FLASH_ISP ≠ K.CMD_SPI_MULTI :=
    label_ne K hK 13 0 (by decide) (by decide) (by decide)
  rw [if_neg n0]
  have n1 : K.CMD_PROGRAM_FLASH_ISP ≠ K.CMD_SIGN_ON :=
    label_ne K hK 13 1 (by decide) (by decide) (by decide)
  rw [if_neg n1]
  have n2 : K.CMD_PROGRAM_FLASH_ISP ≠ K.CMD_GET_PARAMETER :=
    label_ne K hK 13 2 (by decide) (by decide) (by decide)
  rw [if_neg n2]
  have n3 : K.CMD_PROGRAM_FLASH_ISP ≠ K.CMD_LEAVE_PROGMODE_ISP :=
    label_ne K hK 13 3 (by decide) (by decide) (by decide)
  rw [if_neg n3]
  have n4 : K.CMD_PROGRAM_FLASH_ISP ≠ K.CMD_SET_PARAMETER :=
    label_ne K hK 13 4 (by decide) (by decide) (by decide)
  rw [if_neg n4]
  have n5 : K.CMD_PROGRAM_FLASH_ISP ≠ K.CMD_ENTER_PROGMODE_ISP :=
    label_ne K hK 13 5 (by decide) (by decide) (by decide)
  rw [if_neg n5]
  have n6 : K.CMD_PROGRAM_FLASH_ISP ≠ K.CMD_READ_SIGNATURE_ISP :=
    label_ne K hK 13 6 (by decide) (by decide) (by decide)
  rw [if_neg n6]
  have n7 : K.CMD_PROGRAM_FLASH_ISP ≠ K.CMD_READ_LOCK_ISP :=
    label_ne K hK 13 7 (by decide) (by decide) (by decide)
  rw [if_neg n7]
  have n8 : K.CMD_PROGRAM_FLASH_ISP ≠ K.CMD_READ_FUSE_ISP :=
    label_ne K hK 13 8 (by decide) (by decide) (by decide)
  rw [if_neg n8]
  have n9 : K.CMD_PROGRAM_FLASH_ISP ≠ K.CMD_PROGRAM_LOCK_ISP :=
    label_ne K hK 13 9 (by decide) (by decide) (by decide)
  rw [if_neg n9]
  have n10 : K.CMD_PROGRAM_FLASH_ISP ≠ K.CMD_CHIP_ERASE_ISP :=
    label_ne K hK 13 10 (by decide) (by decide) (by decide)
  rw [if_neg n10]
  have n11 : K.CMD_PROGRAM_FLASH_ISP ≠ K.CMD_LOAD_ADDRESS :=
    label_ne K hK 13 11 (by decide) (by decide) (by decide)
  rw [if_neg n11]
  have n12 : K.CMD_PROGRAM_FLASH_ISP ≠ K.CMD_SET_UPLOAD_SIZE_PRUSA3D :=
    label_ne K hK 13 12 (by decide) (by decide) (by decide)
  rw [if_neg n12]
  rw [if_pos rfl]

/-- With distinct case labels the Read-Flash opcode selects the read case. -/
theorem processCommand_readFlash (K : CommandH) (hK : K.valid) (fuel : Nat) (st : State)
    (hop : st.msgBuffer 0 = K.CMD_READ_FLASH_ISP) :
    processCommand K fuel st = cmdRead K fuel st := by
  unfold processCommand
  rw [hop]
  have n0 : K.CMD_READ_FLASH_ISP ≠ K.CMD_SPI_MULTI :=
    label_ne K hK 15 0 (by decide) (by decide) (by decide)
  rw [if_neg n0]
  have n1 : K.CMD_READ_FLASH_ISP ≠ K.CMD_SIGN_ON :=
    label_ne K hK 15 1 (by decide) (by decide) (by decide)
  rw [if_neg n1]
  have n2 : K.CMD_READ_FLASH_ISP ≠ K.CMD_GET_PARAMETER :=
    label_ne K hK 15 2 (by decide) (by decide) (by decide)
  rw [if_neg n2]
  have n3 : K.CMD_READ_FLASH_ISP ≠ K.CMD_LEAVE_PROGMODE_ISP :=
    label_ne K hK 15 3 (by decide) (by decide) (by decide)
  rw [if_neg n3]
  have n4 : K.CMD_READ_FLASH_ISP ≠ K.CMD_SET_PARAMETER :=
    label_ne K hK 15 4 (by decide) (by decide) (by decide)
  rw [if_neg n4]
  have n5 : K.CMD_READ_FLASH_ISP ≠ K.CMD_ENTER_PROGMODE_ISP :=
    label_ne K hK 15 5 (by decide) (by decide) (by decide)
  rw [if_neg n5]
  have n6 : K.CMD_READ_FLASH_ISP ≠ K.CMD_READ_SIGNATURE_ISP :=
    label_ne K hK 15 6 (by decide) (by decide) (by decide)
  rw [if_neg n6]
  have n7 : K.CMD_READ_FLASH_ISP ≠ K.CMD_READ_LOCK_ISP :=
    label_ne K hK 15 7 (by decide) (by decide) (by decide)
  rw [if_neg n7]
  have n8 : K.CMD_READ_FLASH_ISP ≠ K.CMD_READ_FUSE_ISP :=
    label_ne K hK 15 8 (by decide) (by decide) (by decide)
  rw [if_neg n8]
  have n9 : K.CMD_READ_FLASH_ISP ≠ K.CMD_PROGRAM_LOCK_ISP :=
    label_ne K hK 15 9 (by decide) (by decide) (by decide)
  rw [if_neg n9]
  have n10 : K.CMD_READ_FLASH_ISP ≠ K.CMD_CHIP_ERASE_ISP :=
    label_ne K hK 15 10 (by decide) (by decide) (by decide)
  rw [if_neg n10]
  have n11 : K.CMD_READ_FLASH_ISP ≠ K.CMD_LOAD_ADDRESS :=
    label_ne K hK 15 11 (by decide) (by decide) (by decide)
  rw [if_neg n11]
  have n12 : K.CMD_READ_FLASH_ISP ≠ K.CMD_SET_UPLOAD_SIZE_PRUSA3D :=
    label_ne K hK 15 12 (by decide) (by decide) (by decide)
  rw [if_neg n12]
  have n13 : K.CMD_READ_FLASH_ISP ≠ K.CMD_PROGRAM_FLASH_ISP :=
    label_ne K hK 15 13 (by decide) (by decide) (by decide)
  rw [if_neg n13]
  have n14 : K.CMD_READ_FLASH_ISP ≠ K.CMD_PROGRAM_EEPROM_ISP :=
    label_ne K hK 15 14 (by decide) (by decide) (by decide)
  rw [if_neg n14]
  rw [if_pos rfl]

/-- With distinct case labels the Load-address opcode selects its case. -/
theorem processCommand_loadAddress (K : CommandH) (hK : K.valid) (fuel : Nat) (st : State)
    (hop : st.msgBuffer 0 = K.CMD_LOAD_ADDRESS) :
    processCommand K fuel st = Res.ok (cmdLoadAddress K st) := by
  unfold processCommand
  rw [hop]
  have n0 : K.CMD_LOAD_ADDRESS ≠ K.CMD_SPI_MULTI :=
    label_ne K hK 11 0 (by decide) (by decide) (by decide)
  rw [if_neg n0]
  have n1 : K.CMD_LOAD_ADDRESS ≠ K.CMD_SIGN_ON :=
    label_ne K hK 11 1 (by decide) (by decide) (by decide)
  rw [if_neg n1]
  have n2 : K.CMD_LOAD_ADDRESS ≠ K.CMD_GET_PARAMETER :=
    label_ne K hK 11 2 (by decide) (by decide) (by decide)
  rw [if_neg n2]
  have n3 : K.CMD_LOAD_ADDRESS ≠ K.CMD_LEAVE_PROGMODE_ISP :=
    label_ne K hK 11 3 (by decide) (by decide) (by decide)
  rw [if_neg n3]
  have n4 : K.CMD_LOAD_ADDRESS ≠ K.CMD_SET_PARAMETER :=
    label_ne K hK 11 4 (by decide) (by decide) (by decide)
  rw [if_neg n4]
  have n5 : K.CMD_LOAD_ADDRESS ≠ K.CMD_ENTER_PROGMODE_ISP :=
    label_ne K hK 11 5 (by decide) (by decide) (by decide)
  rw [if_neg n5]
  have n6 : K.CMD_LOAD_ADDRESS ≠ K.CMD_READ_SIGNATURE_ISP :=
    label_ne K hK 11 6 (by decide) (by decide) (by decide)
  rw [if_neg n6]
  have n7 : K.CMD_LOAD_ADDRESS ≠ K.CMD_READ_LOCK_ISP :=
    label_ne K hK 11 7 (by decide) (by decide) (by decide)
  rw [if_neg n7]
  have n8 : K.CMD_LOAD_ADDRESS ≠ K.CMD_READ_FUSE_ISP :=
    label_ne K hK 11 8 (by decide) (by decide) (by decide)
  rw [if_neg n8]
  have n9 : K.CMD_LOAD_ADDRESS ≠ K.CMD_PROGRAM_LOCK_ISP :=
    label_ne K hK 11 9 (by decide) (by decide) (by decide)
  rw [if_neg n9]
  have n10 : K.CMD_LOAD_ADDRESS ≠ K.CMD_CHIP_ERASE_ISP :=
    label_ne K hK 11 10 (by decide) (by decide) (by decide)
  rw [if_neg n10]
  rw [if_pos rfl]


theorem word_bytes (lo hi : Nat) (hlo : lo < 256) (hhi : hi < 256) :
    ((hi <<< 8) ||| lo) % 256 = lo ∧ ((hi <<< 8) ||| lo) / 256 % 256 = hi := by
  have h1 : hi <<< 8 = 2 ^ 8 * hi := by rw [Nat.shiftLeft_eq, Nat.mul_comm]
  rw [h1, ← Nat.mul_add_lt_is_or (by omega : lo < 2 ^ 8)]
  omega

theorem and_byte (b : Nat) (hb : b < 256) : 0xFF &&& b = b := by
  rw [Nat.land_comm]
  have h := Nat.and_pow_two_sub_one_eq_mod b 8
  have h2 : (2 : Nat) ^ 8 - 1 = 0xFF := by decide
  rw [h2] at h
  rw [h, Nat.mod_eq_of_lt hb]

/-- The Program-Flash loop on `n` words that stay within one page: the bytes
`msgBuffer[p .. p + 2n)` are loaded into the page buffer at the page offset of
`address`. -/
theorem programFlashLoop_fill (fuel : Nat) : ∀ (n : Nat) (st : State) (p : Nat),
    1 ≤ n → n ≤ fuel → st.address % 2 = 0 → st.address % 256 + 2 * n ≤ 256 →
    st.address + 2 * n < 2 ^ 32 → (∀ i, i < 2 * n → st.msgBuffer (p + i) < 256) →
    ∃ st1, programFlashLoop fuel st p (2 * n) = Res.ok st1 ∧
      st1.address = st.address + 2 * n ∧
      (∀ o, st1.pageBuffer o =
        if st.address % 256 ≤ o ∧ o < st.address % 256 + 2 * n then
          st.pageBuffer o &&& st.msgBuffer (p + (o - st.address % 256))
        else st.pageBuffer o) := by
  induction fuel with
  | zero => intro n st p h1 h2; omega
  | succ fuel ih =>
    intro n st p h1 h2 hev hpage h32 hbytes
    have hoff : wordOffset st.address = st.address % 256 := by
      unfold wordOffset SPM_PAGESIZE; omega
    have hb0 := hbytes 0 (by omega)
    have hb1 := hbytes 1 (by omega)
    rw [Nat.add_zero] at hb0
    obtain ⟨hlo, hhi⟩ := word_bytes _ _ hb0 hb1
    have haddr : (programFlashStep st p).address = st.address + 2 := by
      have h0 : (programFlashStep st p).address = (st.address + 2) % 2 ^ 32 := rfl
      rw [h0]
      exact Nat.mod_eq_of_lt (by omega)
    have hpb : ∀ o, (programFlashStep st p).pageBuffer o =
        if o = st.address % 256 then st.pageBuffer o &&& st.msgBuffer p
        else if o = st.address % 256 + 1 then st.pageBuffer o &&& st.msgBuffer (p + 1)
        else st.pageBuffer o := by
      intro o
      have h0 : (programFlashStep st p).pageBuffer o =
          if o = wordOffset st.address then
            st.pageBuffer o &&& (((st.msgBuffer (p + 1) <<< 8) ||| st.msgBuffer p) % 256)
          else if o = wordOffset st.address + 1 then
            st.pageBuffer o &&& (((st.msgBuffer (p + 1) <<< 8) ||| st.msgBuffer p) / 256 % 256)
          else st.pageBuffer o := rfl
      rw [h0, hoff, hlo, hhi]
    simp only [programFlashLoop]
    have hsz : (2 * n + 65536 - 2) % 65536 = 2 * (n - 1) := by omega
    rw [hsz]
    by_cases hn : n = 1
    · subst hn
      refine ⟨programFlashStep st p, by simp, haddr, ?_⟩
      intro o
      rw [hpb]
      by_cases c1 : o = st.address % 256
      · rw [if_pos c1, if_pos (by omega)]
        subst c1; simp
      · rw [if_neg c1]
        by_cases c2 : o = st.address % 256 + 1
        · rw [if_pos c2, if_pos (by omega)]
          subst c2; simp
        · rw [if_neg c2, if_neg (by omega)]
    · have hne : 2 * (n - 1) ≠ 0 := by omega
      rw [if_pos hne]
      have hmb : (programFlashStep st p).msgBuffer = st.msgBuffer := rfl
      obtain ⟨st1, e1, e2, e3⟩ := ih (n - 1) (programFlashStep st p) (p + 2) (by omega)
        (by omega) (by rw [haddr]; omega) (by rw [haddr]; omega) (by rw [haddr]; omega)
        (by
          intro i hi
          rw [hmb]
          have := hbytes (i + 2) (by omega)
          rw [show p + 2 + i = p + (i + 2) by omega]
          exact this)
      refine ⟨st1, e1, by rw [e2, haddr]; omega, ?_⟩
      intro o
      rw [e3, haddr, hmb, hpb]
      have hm : (st.address + 2) % 256 = st.address % 256 + 2 := by omega
      rw [hm]
      by_cases c1 : o = st.address % 256
      · have : ¬ (st.address % 256 + 2 ≤ o ∧ o < st.address % 256 + 2 + 2 * (n - 1)) := by
          omega
        rw [if_neg this, if_pos c1, if_pos (by omega)]
        subst c1; simp
      · by_cases c2 : o = st.address % 256 + 1
        · have : ¬ (st.address % 256 + 2 ≤ o ∧ o < st.address % 256 + 2 + 2 * (n - 1)) := by
            omega
          rw [if_neg this, if_neg c1, if_pos c2, if_pos (by omega)]
          subst c2; simp
        · by_cases c3 : st.address % 256 + 2 ≤ o ∧ o < st.address % 256 + 2 + 2 * (n - 1)
          · rw [if_pos c3, if_neg c1, if_neg c2, if_pos (by omega),
              show p + 2 + (o - (st.address % 256 + 2)) = p + (o - st.address % 256) by omega]
          · rw [if_neg c3, if_neg c1, if_neg c2, if_neg (by omega)]

theorem pageBase_aligned (a : Nat) (h1 : a % 256 = 0) (h2 : a < APP_END) : pageBase a = a := by
  rw [APP_END_eq] at h2
  unfold pageBase FLASHEND SPM_PAGESIZE
  omega

theorem programFlashProgress_core (st : State) (size : Nat) :
    (programFlashProgress st size).address = st.address ∧
    (programFlashProgress st size).eraseAddress = st.eraseAddress ∧
    (programFlashProgress st size).pageBuffer = st.pageBuffer ∧
    (programFlashProgress st size).flash = st.flash ∧
    besideFill (programFlashProgress st size) = besideFill st := by
  unfold programFlashProgress
  split_ifs <;> exact ⟨rfl, rfl, rfl, rfl, rfl⟩

/-- Program-Flash of one whole page at the erase frontier: the page is erased,
filled from `msgBuffer[10 .. 266)` and written. -/
theorem cmdProgram_page (K : CommandH) (fuel : Nat) (st : State)
    (hop : st.msgBuffer 0 = K.CMD_PROGRAM_FLASH_ISP)
    (hs1 : st.msgBuffer 1 = 1) (hs2 : st.msgBuffer 2 = 0)
    (hera : st.eraseAddress = st.address) (hal : st.address % 256 = 0)
    (hend : st.address + 256 ≤ APP_END) (hpb : ∀ o, st.pageBuffer o = 0xFF)
    (hbytes : ∀ i, i < 256 → st.msgBuffer (10 + i) < 256) (hfuel : 128 ≤ fuel) :
    ∃ st1, cmdProgram K fuel st = Res.ok st1 ∧
      st1.address = st.address + 256 ∧ st1.eraseAddress = st.address + 256 ∧
      (∀ o, st1.pageBuffer o = 0xFF) ∧
      (∀ x, st1.flash x =
        if st.address ≤ x ∧ x < st.address + 256 then st.msgBuffer (10 + (x - st.address))
        else st.flash x) ∧
      st1.msgLength = 2 ∧ st1.msgBuffer 0 = K.CMD_PROGRAM_FLASH_ISP ∧
      st1.msgBuffer 1 = K.STATUS_CMD_OK ∧ st1.isLeave = st.isLeave ∧ link st1 = link st := by
  have hA := APP_END_eq
  have hsize : (st.msgBuffer 1 <<< 8 ||| st.msgBuffer 2) % 65536 = 2 * 128 := by
    rw [hs1, hs2]; decide
  obtain ⟨pa, pe, pp, pf, pr⟩ := programFlashProgress_core st (2 * 128)
  -- the erase
  have hlt : (programFlashProgress st (2 * 128)).eraseAddress < APP_END := by
    rw [pe, hera]; omega
  have herase : programFlashErase (programFlashProgress st (2 * 128)) =
      eraseAhead (programFlashProgress st (2 * 128)) := by
    unfold programFlashErase
    rw [if_pos hlt]
  have hpbase : pageBase st.address = st.address :=
    pageBase_aligned _ hal (by omega)
  -- the state before the loop
  have ea : (programFlashErase (programFlashProgress st (2 * 128))).address = st.address := by
    rw [programFlashErase_address, pa]
  have ee : (programFlashErase (programFlashProgress st (2 * 128))).eraseAddress
      = st.address + 256 := by
    rw [herase]
    show ((programFlashProgress st (2 * 128)).eraseAddress + SPM_PAGESIZE) % 2 ^ 32 = _
    rw [pe, hera]
    unfold SPM_PAGESIZE
    exact Nat.mod_eq_of_lt (by omega)
  have epb : (programFlashErase (programFlashProgress st (2 * 128))).pageBuffer
      = st.pageBuffer := by
    rw [herase]; exact pp
  have emb : (programFlashErase (programFlashProgress st (2 * 128))).msgBuffer
      = st.msgBuffer := by
    rw [herase]; exact congrArg (fun t => t.2.1) pr
  have eil : (programFlashErase (programFlashProgress st (2 * 128))).isLeave
      = st.isLeave := by
    rw [herase]; exact congrArg (fun t => t.2.2.2.1) pr
  have elink : link (programFlashErase (programFlashProgress st (2 * 128))) = link st := by
    rw [programFlashErase_link, programFlashProgress_link]
  have efl : ∀ x, (programFlashErase (programFlashProgress st (2 * 128))).flash x =
      if st.address ≤ x ∧ x < st.address + 256 then 0xFF else st.flash x := by
    intro x
    rw [herase]
    show (if pageBase (programFlashProgress st (2 * 128)).eraseAddress ≤ x ∧
        x < pageBase (programFlashProgress st (2 * 128)).eraseAddress + SPM_PAGESIZE
      then 0xFF else (programFlashProgress st (2 * 128)).flash x) = _
    rw [pe, hera, hpbase, pf]
    rfl
  -- the loop
  obtain ⟨st3, l1, l2, l3⟩ := programFlashLoop_fill fuel 128
    (programFlashErase (programFlashProgress st (2 * 128))) 10 (by omega) hfuel
    (by rw [ea]; omega) (by rw [ea]; omega) (by rw [ea]; omega)
    (by intro i hi; rw [emb]; exact hbytes i (by omega))
  have l4 := programFlashLoop_inv besideFill (fun _ _ => rfl) fuel
    (programFlashErase (programFlashProgress st (2 * 128))) 10 (2 * 128)
  rw [l1] at l4
  simp only [Res.reached] at l4
  have l3e : st3.eraseAddress = st.address + 256 := by
    rw [← ee]; exact congrArg (fun t => t.1) l4
  have l3m : st3.msgBuffer = st.msgBuffer := by
    rw [← emb]; exact congrArg (fun t => t.2.1) l4
  have l3f : st3.flash = (programFlashErase (programFlashProgress st (2 * 128))).flash :=
    congrArg (fun t => t.2.2.1) l4
  have l3i : st3.isLeave = st.isLeave := by
    rw [← eil]; exact congrArg (fun t => t.2.2.2.1) l4
  have l3l : link st3 = link st := by
    rw [← elink]; exact congrArg (fun t => t.2.2.2.2.2) l4
  refine ⟨answerOk K (programFlashWrite st3 st.address), ?_, ?_, ?_, ?_, ?_, rfl, ?_, ?_, ?_, ?_⟩
  · unfold cmdProgram
    simp only []
    rw [hsize, if_pos hop, if_pos (by rw [ea]; omega), l1]
  · show st3.address = _
    rw [l2, ea]
  · show st3.eraseAddress = _
    exact l3e
  · intro o; rfl
  · intro x
    show (if pageBase st.address ≤ x ∧ x < pageBase st.address + SPM_PAGESIZE then
        st3.flash x &&& st3.pageBuffer (x - pageBase st.address) else st3.flash x) = _
    rw [hpbase, l3f, efl, l3, ea, epb]
    unfold SPM_PAGESIZE
    by_cases hx : st.address ≤ x ∧ x < st.address + 256
    · have h2 : st.address % 256 ≤ x - st.address ∧
          x - st.address < st.address % 256 + 2 * 128 := by omega
      have hb := hbytes (x - st.address) (by omega)
      simp only [if_pos hx, if_pos h2, hpb, emb]
      rw [show x - st.address - st.address % 256 = x - st.address by omega,
        and_byte _ hb, and_byte _ hb]
    · simp only [if_neg hx]
  · show Function.update st3.msgBuffer 1 K.STATUS_CMD_OK 0 = _
    rw [Function.update_noteq (by decide), l3m, hop]
  · show Function.update st3.msgBuffer 1 K.STATUS_CMD_OK 1 = _
    rw [Function.update_same]
  · exact l3i
  · exact l3l

theorem readFlashProgress_core (st : State) (size : Nat) :
    (readFlashProgress st size).address = st.address ∧
    (readFlashProgress st size).msgBuffer = st.msgBuffer ∧
    besideRead (readFlashProgress st size) = besideRead st := by
  unfold readFlashProgress
  split_ifs <;> exact ⟨rfl, rfl, rfl⟩

/-- The Read-Flash loop on `n` words inside the flash: the flash bytes from
`address` on are stored at `msgBuffer[p .. p + 2n)`. -/
theorem readFlashLoop_read (fuel : Nat) : ∀ (n : Nat) (st : State) (p : Nat),
    1 ≤ n → n ≤ fuel → n ≤ 32768 → st.address + 2 * n ≤ FLASHEND + 1 →
    (∀ i, i < 2 * n → st.flash (st.address + i) < 256) →
    ∃ st1, readFlashLoop fuel st p (2 * n) = Res.ok (st1, p + 2 * n) ∧
      st1.address = st.address + 2 * n ∧
      (∀ j, st1.msgBuffer j =
        if p ≤ j ∧ j < p + 2 * n then st.flash (st.address + (j - p)) else st.msgBuffer j) := by
  induction fuel with
  | zero => intro n st p h1 h2; omega
  | succ fuel ih =>
    intro n st p h1 h2 h3 hend hbytes
    have hF : FLASHEND + 1 = 262144 := by decide
    rw [hF] at hend
    have hb0 := hbytes 0 (by omega)
    have hb1 := hbytes 1 (by omega)
    rw [Nat.add_zero] at hb0
    have hword : pgm_read_word_far st st.address =
        st.flash st.address + 256 * st.flash (st.address + 1) := by
      unfold pgm_read_word_far
      rw [hF, Nat.mod_eq_of_lt (by omega), Nat.mod_eq_of_lt (by omega)]
    have hlo : pgm_read_word_far st st.address % 256 = st.flash st.address := by
      rw [hword]; omega
    have hhi : (pgm_read_word_far st st.address >>> 8) % 256 = st.flash (st.address + 1) := by
      rw [hword, Nat.shiftRight_eq_div_pow]; omega
    have haddr : (readFlashStep st p).address = st.address + 2 := by
      have h0 : (readFlashStep st p).address = (st.address + 2) % 2 ^ 32 := rfl
      rw [h0]
      exact Nat.mod_eq_of_lt (by omega)
    have hfl : (readFlashStep st p).flash = st.flash := rfl
    have hmb : ∀ j, (readFlashStep st p).msgBuffer j =
        if j = p + 1 then st.flash (st.address + 1)
        else if j = p then st.flash st.address else st.msgBuffer j := by
      intro j
      have h0 : (readFlashStep st p).msgBuffer j =
          Function.update (Function.update st.msgBuffer p
            (pgm_read_word_far st st.address % 256)) (p + 1)
            ((pgm_read_word_far st st.address >>> 8) % 256) j := rfl
      rw [h0, hlo, hhi]
      simp only [Function.update, eq_rec_constant, dite_eq_ite]
    simp only [readFlashLoop]
    have hsz : (2 * n + 65536 - 2) % 65536 = 2 * (n - 1) := by omega
    rw [hsz]
    by_cases hn : n = 1
    · subst hn
      refine ⟨readFlashStep st p, by simp, haddr, ?_⟩
      intro j
      rw [hmb]
      by_cases c1 : j = p + 1
      · rw [if_pos c1, if_pos (by omega)]
        subst c1
        rw [show p + 1 - p = 1 by omega]
      · rw [if_neg c1]
        by_cases c2 : j = p
        · rw [if_pos c2, if_pos (by omega)]
          subst c2
          rw [Nat.sub_self, Nat.add_zero]
        · rw [if_neg c2, if_neg (by omega)]
    · have hne : 2 * (n - 1) ≠ 0 := by omega
      rw [if_pos hne]
      obtain ⟨st1, e1, e2, e3⟩ := ih (n - 1) (readFlashStep st p) (p + 2) (by omega)
        (by omega) (by omega) (by rw [haddr, hF]; omega)
        (by
          intro i hi
          rw [hfl, haddr]
          have := hbytes (i + 2) (by omega)
          rw [show st.address + 2 + i = st.address + (i + 2) by omega]
          exact this)
      refine ⟨st1, by rw [e1, show p + 2 + 2 * (n - 1) = p + 2 * n by omega],
        by rw [e2, haddr]; omega, ?_⟩
      intro j
      rw [e3, haddr, hfl, hmb]
      by_cases c1 : j = p + 1
      · have : ¬ (p + 2 ≤ j ∧ j < p + 2 + 2 * (n - 1)) := by omega
        rw [if_neg this, if_pos c1, if_pos (by omega)]
        subst c1
        rw [show p + 1 - p = 1 by omega]
      · by_cases c2 : j = p
        · have : ¬ (p + 2 ≤ j ∧ j < p + 2 + 2 * (n - 1)) := by omega
          rw [if_neg this, if_neg c1, if_pos c2, if_pos (by omega)]
          subst c2
          rw [Nat.sub_self, Nat.add_zero]
        · by_cases c3 : p + 2 ≤ j ∧ j < p + 2 + 2 * (n - 1)
          · rw [if_pos c3, if_pos (by omega),
              show st.address + 2 + (j - (p + 2)) = st.address + (j - p) by omega]
          · rw [if_neg c3, if_neg c1, if_neg c2, if_neg (by omega)]

/-- Read-Flash of 256 bytes inside the flash: the reply is the opcode, a
status byte, the 256 flash bytes from `address` on, and a status byte. -/
theorem cmdRead_page (K : CommandH) (fuel : Nat) (st : State)
    (hop : st.msgBuffer 0 = K.CMD_READ_FLASH_ISP)
    (hs1 : st.msgBuffer 1 = 1) (hs2 : st.msgBuffer 2 = 0)
    (hend : st.address + 256 ≤ FLASHEND + 1)
    (hbytes : ∀ i, i < 256 → st.flash (st.address + i) < 256) (hfuel : 128 ≤ fuel) :
    ∃ st1, cmdRead K fuel st = Res.ok st1 ∧
      st1.address = st.address + 256 ∧ st1.msgLength = 259 ∧
      st1.msgBuffer 0 = K.CMD_READ_FLASH_ISP ∧ st1.msgBuffer 1 = K.STATUS_CMD_OK ∧
      (∀ i, i < 256 → st1.msgBuffer (2 + i) = st.flash (st.address + i)) ∧
      st1.msgBuffer 258 = K.STATUS_CMD_OK ∧
      st1.eraseAddress = st.eraseAddress ∧ st1.pageBuffer = st.pageBuffer ∧
      st1.flash = st.flash ∧ st1.isLeave = st.isLeave ∧ link st1 = link st := by
  have hsize : (st.msgBuffer 1 <<< 8 ||| st.msgBuffer 2) % 65536 = 2 * 128 := by
    rw [hs1, hs2]; decide
  obtain ⟨ra, rm, rr⟩ := readFlashProgress_core (readHeader K st (2 * 128)) (2 * 128)
  have ha : (readFlashProgress (readHeader K st (2 * 128)) (2 * 128)).address = st.address :=
    ra
  have hfl : (readFlashProgress (readHeader K st (2 * 128)) (2 * 128)).flash = st.flash :=
    congrArg (fun t => t.2.2.1) rr
  have hmb : (readFlashProgress (readHeader K st (2 * 128)) (2 * 128)).msgBuffer =
      Function.update st.msgBuffer 1 K.STATUS_CMD_OK := rm
  obtain ⟨st3, l1, l2, l3⟩ := readFlashLoop_read fuel 128
    (readFlashProgress (readHeader K st (2 * 128)) (2 * 128)) 2 (by omega) hfuel (by omega)
    (by rw [ha]; omega) (by intro i hi; rw [hfl, ha]; exact hbytes i (by omega))
  have l4 := readFlashLoop_inv besideRead (fun _ _ => rfl) fuel
    (readFlashProgress (readHeader K st (2 * 128)) (2 * 128)) 2 (2 * 128)
  rw [l1] at l4
  simp only [Res.reachedFst] at l4
  rw [rr] at l4
  have k1 : st3.eraseAddress = st.eraseAddress := congrArg (fun t => t.1) l4
  have k2 : st3.pageBuffer = st.pageBuffer := congrArg (fun t => t.2.1) l4
  have k3 : st3.flash = st.flash := congrArg (fun t => t.2.2.1) l4
  have k4 : st3.isLeave = st.isLeave := congrArg (fun t => t.2.2.2.1) l4
  have k5 : st3.msgLength = 259 := congrArg (fun t => t.2.2.2.2.1) l4
  have k6 : link st3 = link st := congrArg (fun t => t.2.2.2.2.2) l4
  have hopH : (readHeader K st (2 * 128)).msgBuffer 0 = K.CMD_READ_FLASH_ISP := by
    show Function.update st.msgBuffer 1 K.STATUS_CMD_OK 0 = _
    rw [Function.update_noteq (by decide), hop]
  refine ⟨setBuf st3 (2 + 2 * 128) K.STATUS_CMD_OK, ?_, ?_, k5, ?_, ?_, ?_, ?_, k1, k2, k3,
    k4, k6⟩
  · unfold cmdRead
    simp only []
    rw [hsize, if_pos hopH, l1]
  · show st3.address = _
    rw [l2, ha]
  · show Function.update st3.msgBuffer (2 + 2 * 128) K.STATUS_CMD_OK 0 = _
    rw [Function.update_noteq (by decide), l3, if_neg (by omega), hmb,
      Function.update_noteq (by decide), hop]
  · show Function.update st3.msgBuffer (2 + 2 * 128) K.STATUS_CMD_OK 1 = _
    rw [Function.update_noteq (by decide), l3, if_neg (by omega), hmb, Function.update_same]
  · intro i hi
    show Function.update st3.msgBuffer (2 + 2 * 128) K.STATUS_CMD_OK (2 + i) = _
    rw [Function.update_noteq (by omega), l3, if_pos (by omega), hfl, ha,
      show 2 + i - 2 = i by omega]
  · show Function.update st3.msgBuffer (2 + 2 * 128) K.STATUS_CMD_OK 258 = _
    exact Function.update_same _ _ _

/-! ## Theorems: flash round trip through the main loop -/

/-- Sending the answer changes nothing but `tx`, `checksum`, `msgLength` and
`seqNum`. -/
theorem sendAnswer_besideSend (K : CommandH) (st : State)
    (hser : st.selectedSerial = 0 ∨ st.selectedSerial = 2) :
    besideSend (sendAnswer K st) = besideSend st := by
  have hs : (st.selectedSerial = 0 ∨ st.selectedSerial = 2) = True := eq_true hser
  unfold sendAnswer
  simp only [sendchar, hs, if_true]
  rw [sendLoop_eq _ _ _ (by simp [hs])]
  simp only [hs, if_true]
  rfl

theorem wire_append (K : CommandH) (s : Nat) (a b : List (List Nat)) :
    wire K s (a ++ b) = wire K s a ++ wire K s b := by
  induction a with
  | nil => rfl
  | cons P a ih =>
    show frame K s P ++ wire K s (a ++ b) = (frame K s P ++ wire K s a) ++ wire K s b
    rw [ih, List.append_assoc]

theorem besideSend_eq {a b : State} (h : besideSend a = besideSend b) :
    a.address = b.address ∧ a.eraseAddress = b.eraseAddress ∧ a.pageBuffer = b.pageBuffer ∧
    a.flash = b.flash ∧ a.isLeave = b.isLeave ∧ a.selectedSerial = b.selectedSerial := by
  simp only [besideSend, Prod.mk.injEq] at h
  exact h

theorem link_eq {a b : State} (h : link a = link b) :
    a.seqNum = b.seqNum ∧ a.selectedSerial = b.selectedSerial ∧ a.tx = b.tx := by
  simp only [link, Prod.mk.injEq] at h
  exact h

/-- One pass of the main loop on a well-formed frame whose command returns. -/
theorem mainLoop_frame (K : CommandH) (fuel n : Nat) (st st2 : State) (s : Nat)
    (P rest : List Nat) (hl : st.isLeave = 0) (h1 : 1 ≤ P.length) (h2 : P.length ≤ 285)
    (hp : processCommand K fuel
      (accepted (receiving st) s P (xorAll (frameBody K s P))) = Res.ok st2) :
    mainLoop K fuel (n + 1) st (frame K s P ++ rest) = mainLoop K fuel n (sendAnswer K st2) rest := by
  have hc := collectMessage_frame K st s P rest h1 h2
  have hb : mainLoopBody K fuel st (frame K s P ++ rest) = Res.ok (sendAnswer K st2, rest) := by
    unfold mainLoopBody
    rw [hc]
    simp only [hp]
  rw [mainLoop, if_neg (by rw [hl]; decide), hb]

/-- The answer to a command that left `msgLength = 2`. -/
theorem sendAnswer_two (K : CommandH) (st : State) (op status : Nat)
    (hser : st.selectedSerial = 0 ∨ st.selectedSerial = 2) (hlen : st.msgLength = 2)
    (h0 : st.msgBuffer 0 = op) (h1 : st.msgBuffer 1 = status) :
    (sendAnswer K st).tx = st.tx ++ frame K st.seqNum [op, status] := by
  rw [sendAnswer_tx K st hser (by omega), replyBody_eq_frameBody K st (by omega), hlen]
  simp only [bufferBytes, h0, h1, Nat.zero_add]
  rfl

theorem programFlashMsg_length (K : CommandH) (D : List Nat) :
    (programFlashMsg K D).length = D.length + 10 := by
  simp [programFlashMsg]

/-- The message buffer once a Program-Flash message has been received. -/
theorem storeAt_programFlashMsg (K : CommandH) (buf : Nat → Nat) (D : List Nat)
    (hD : D.length = 256) :
    storeAt buf 0 (programFlashMsg K D) 0 = K.CMD_PROGRAM_FLASH_ISP ∧
    storeAt buf 0 (programFlashMsg K D) 1 = 1 ∧
    storeAt buf 0 (programFlashMsg K D) 2 = 0 ∧
    (∀ i, i < 256 → storeAt buf 0 (programFlashMsg K D) (10 + i) = D.getD i 0) := by
  have hl := programFlashMsg_length K D
  refine ⟨?_, ?_, ?_, ?_⟩
  · rw [storeAt_apply, if_pos (by omega)]
    simp [programFlashMsg]
  · rw [storeAt_apply, if_pos (by omega)]
    simp [programFlashMsg, hD]
  · rw [storeAt_apply, if_pos (by omega)]
    simp [programFlashMsg, hD]
  · intro i hi
    rw [storeAt_apply, if_pos (by omega)]
    unfold programFlashMsg
    rw [Nat.sub_zero, List.getD_append_right _ _ _ _ (by simp)]
    simp

/-- One Program-Flash frame with a whole page of data at the erase frontier,
handled by the main loop. -/
theorem mainLoop_program (K : CommandH) (hK : K.valid) (fuel n : Nat) (st : State) (s : Nat)
    (D rest : List Nat) (hl : st.isLeave = 0)
    (hser : st.selectedSerial = 0 ∨ st.selectedSerial = 2)
    (hera : st.eraseAddress = st.address) (hal : st.address % 256 = 0)
    (hend : st.address + 256 ≤ APP_END) (hpb : ∀ o, st.pageBuffer o = 0xFF)
    (hD : D.length = 256) (hDb : ∀ b ∈ D, b < 256) (hfuel : 128 ≤ fuel) :
    ∃ st1, mainLoop K fuel (n + 1) st (frame K s (programFlashMsg K D) ++ rest)
        = mainLoop K fuel n st1 rest ∧
      st1.isLeave = 0 ∧ st1.selectedSerial = st.selectedSerial ∧
      st1.address = st.address + 256 ∧ st1.eraseAddress = st1.address ∧
      (∀ o, st1.pageBuffer o = 0xFF) ∧
      (∀ x, st1.flash x =
        if st.address ≤ x ∧ x < st.address + 256 then D.getD (x - st.address) 0
        else st.flash x) ∧
      st1.tx = st.tx ++ frame K s [K.CMD_PROGRAM_FLASH_ISP, K.STATUS_CMD_OK] := by
  obtain ⟨r1, r2, r3, r4, r5, r6, -, r8⟩ := receiving_fields st
  obtain ⟨m0, m1, m2, m10⟩ := storeAt_programFlashMsg K (receiving st).msgBuffer D hD
  have hbytes : ∀ i, i < 256 →
      storeAt (receiving st).msgBuffer 0 (programFlashMsg K D) (10 + i) < 256 := by
    intro i hi
    rw [m10 i hi, List.getD_eq_getElem _ _ (by omega)]
    exact hDb _ (List.getElem_mem _)
  have hera2 : (receiving st).eraseAddress = (receiving st).address := by
    rw [r1, r2]; exact hera
  have hal2 : (receiving st).address % 256 = 0 := by rw [r1]; exact hal
  have hend2 : (receiving st).address + 256 ≤ APP_END := by rw [r1]; exact hend
  have hpb2 : ∀ o, (receiving st).pageBuffer o = 0xFF := by rw [r3]; exact hpb
  obtain ⟨st2, c1, c2, c3, c4, c5, c6, c7, c8, c9, c10⟩ := cmdProgram_page K fuel
    (accepted (receiving st) s (programFlashMsg K D)
      (xorAll (frameBody K s (programFlashMsg K D))))
    m0 m1 m2 hera2 hal2 hend2 hpb2 hbytes hfuel
  have hlen := programFlashMsg_length K D
  obtain ⟨hseq, hsel, htx⟩ := link_eq c10
  have hseq2 : st2.seqNum = s := hseq
  have hsel2 : st2.selectedSerial = st.selectedSerial := hsel.trans r6
  have htx2 : st2.tx = st.tx := htx.trans r8
  have hser2 : st2.selectedSerial = 0 ∨ st2.selectedSerial = 2 := by rw [hsel2]; exact hser
  obtain ⟨b1, b2, b3, b4, b5, b6⟩ := besideSend_eq (sendAnswer_besideSend K st2 hser2)
  refine ⟨sendAnswer K st2, ?_, ?_, ?_, ?_, ?_, ?_, ?_, ?_⟩
  · apply mainLoop_frame K fuel n st st2 s _ rest hl (by omega) (by omega)
    rw [processCommand_programFlash K hK fuel _ m0]
    exact c1
  · rw [b5, c9]; exact r5.trans hl
  · rw [b6, hsel2]
  · rw [b1, c2]; exact congrArg (· + 256) r1
  · rw [b2, b1, c3, c2]
  · intro o
    rw [b3, c4 o]
  · intro x
    rw [b4, c5 x]
    have ha : (accepted (receiving st) s (programFlashMsg K D)
        (xorAll (frameBody K s (programFlashMsg K D)))).address = st.address := r1
    have hfl : (accepted (receiving st) s (programFlashMsg K D)
        (xorAll (frameBody K s (programFlashMsg K D)))).flash = st.flash := r4
    rw [ha, hfl]
    by_cases hx : st.address ≤ x ∧ x < st.address + 256
    · rw [if_pos hx, if_pos hx]
      exact m10 _ (by omega)
    · rw [if_neg hx, if_neg hx]
  · rw [sendAnswer_two K st2 _ _ hser2 c6 c7 c8, htx2, hseq2]

/-- A run of Program-Flash frames, one page each, from the erase frontier
on. -/
theorem mainLoop_programs (K : CommandH) (hK : K.valid) (fuel : Nat) (s : Nat)
    (hfuel : 128 ≤ fuel) : ∀ (Ds : List (List Nat)) (st : State) (n : Nat) (rest : List Nat),
    st.isLeave = 0 → (st.selectedSerial = 0 ∨ st.selectedSerial = 2) →
    st.eraseAddress = st.address → st.address % 256 = 0 →
    st.address + 256 * Ds.length ≤ APP_END → (∀ o, st.pageBuffer o = 0xFF) →
    (∀ D ∈ Ds, D.length = 256 ∧ ∀ b ∈ D, b < 256) →
    ∃ st1, mainLoop K fuel (n + Ds.length) st (wire K s (Ds.map (programFlashMsg K)) ++ rest)
        = mainLoop K fuel n st1 rest ∧
      st1.isLeave = 0 ∧ st1.selectedSerial = st.selectedSerial ∧
      st1.address = st.address + 256 * Ds.length ∧ st1.eraseAddress = st1.address ∧
      (∀ o, st1.pageBuffer o = 0xFF) ∧
      (∀ x, x < st.address → st1.flash x = st.flash x) ∧
      (∀ i j, i < Ds.length → j < 256 →
        st1.flash (st.address + 256 * i + j) = (Ds.getD i []).getD j 0) ∧
      st1.tx = st.tx ++
        wire K s (Ds.map (fun _ => [K.CMD_PROGRAM_FLASH_ISP, K.STATUS_CMD_OK])) := by
  intro Ds
  induction Ds with
  | nil =>
    intro st n rest hl hser hera hal hend hpb hDs
    refine ⟨st, rfl, hl, rfl, rfl, hera, hpb, fun _ _ => rfl, ?_, by simp [wire]⟩
    intro i j hi
    exact absurd hi (by simp)
  | cons D Ds ih =>
    intro st n rest hl hser hera hal hend hpb hDs
    simp only [List.length_cons] at hend
    obtain ⟨hD, hDb⟩ := hDs D (List.mem_cons_self _ _)
    obtain ⟨st1, a1, a2, a3, a4, a5, a6, a7, a8⟩ := mainLoop_program K hK fuel
      (n + Ds.length) st s D (wire K s (Ds.map (programFlashMsg K)) ++ rest) hl hser hera hal
      (by omega) hpb hD hDb hfuel
    obtain ⟨st2, c1, c2, c3, c4, c5, c6, c7, c8, c9⟩ := ih st1 n rest a2
      (by rw [a3]; exact hser) a5 (by rw [a4]; omega) (by rw [a4]; omega) a6
      (fun D' hD' => hDs D' (List.mem_cons_of_mem _ hD'))
    refine ⟨st2, ?_, c2, by rw [c3, a3], by rw [c4, a4, List.length_cons]; omega, c5, c6,
      ?_, ?_, ?_⟩
    · have e1 : n + (D :: Ds).length = n + Ds.length + 1 := by simp; omega
      have e2 : wire K s (List.map (programFlashMsg K) (D :: Ds)) ++ rest =
          frame K s (programFlashMsg K D) ++
            (wire K s (Ds.map (programFlashMsg K)) ++ rest) := by
        simp only [List.map_cons, wire, List.append_assoc]
      rw [e1, e2, a1, c1]
    · intro x hx
      rw [c7 x (by rw [a4]; omega), a7 x, if_neg (by omega)]
    · intro i j hi hj
      cases i with
      | zero =>
        rw [Nat.mul_zero, Nat.add_zero, c7 _ (by rw [a4]; omega), a7, if_pos (by omega)]
        simp
      | succ i =>
        have hi2 : i < Ds.length := by simpa using hi
        have := c8 i j hi2 hj
        rw [a4] at this
        rw [show st.address + 256 * (i + 1) + j = st.address + 256 + 256 * i + j by omega,
          this]
        simp
    · rw [c9, a8]
      simp only [List.map_cons, wire, List.append_assoc]

/-- The Load-address frame for word address 0, handled by the main loop. -/
theorem mainLoop_loadZero (K : CommandH) (hK : K.valid) (fuel n : Nat) (st : State) (s : Nat)
    (rest : List Nat) (hl : st.isLeave = 0)
    (hser : st.selectedSerial = 0 ∨ st.selectedSerial = 2) :
    ∃ st1, mainLoop K fuel (n + 1) st (frame K s (loadAddressMsg K 0) ++ rest)
        = mainLoop K fuel n st1 rest ∧
      st1.isLeave = 0 ∧ st1.selectedSerial = st.selectedSerial ∧ st1.address = 0 ∧
      st1.flash = st.flash ∧
      st1.tx = st.tx ++ frame K s [K.CMD_LOAD_ADDRESS, K.STATUS_CMD_OK] := by
  obtain ⟨-, -, -, r4, r5, r6, -, r8⟩ := receiving_fields st
  have hlen : (loadAddressMsg K 0).length = 5 := rfl
  have hm : ∀ j, j < 5 → storeAt (receiving st).msgBuffer 0 (loadAddressMsg K 0) j =
      (loadAddressMsg K 0).getD j 0 := by
    intro j hj
    rw [storeAt_apply, if_pos (by omega), Nat.sub_zero]
  have m0 : storeAt (receiving st).msgBuffer 0 (loadAddressMsg K 0) 0 = K.CMD_LOAD_ADDRESS := by
    rw [hm 0 (by omega)]; rfl
  have m1 : storeAt (receiving st).msgBuffer 0 (loadAddressMsg K 0) 1 = 0 := by
    rw [hm 1 (by omega)]; rfl
  have m2 : storeAt (receiving st).msgBuffer 0 (loadAddressMsg K 0) 2 = 0 := by
    rw [hm 2 (by omega)]; rfl
  have m3 : storeAt (receiving st).msgBuffer 0 (loadAddressMsg K 0) 3 = 0 := by
    rw [hm 3 (by omega)]; rfl
  have m4 : storeAt (receiving st).msgBuffer 0 (loadAddressMsg K 0) 4 = 0 := by
    rw [hm 4 (by omega)]; rfl
  have hp := processCommand_loadAddress K hK fuel
    (accepted (receiving st) s (loadAddressMsg K 0)
      (xorAll (frameBody K s (loadAddressMsg K 0)))) m0
  have hser2 : (cmdLoadAddress K (accepted (receiving st) s
      (loadAddressMsg K 0) (xorAll (frameBody K s (loadAddressMsg K 0))))).selectedSerial = 0 ∨
      (cmdLoadAddress K (accepted (receiving st) s
      (loadAddressMsg K 0) (xorAll (frameBody K s (loadAddressMsg K 0))))).selectedSerial = 2 := by
    show (receiving st).selectedSerial = 0 ∨ (receiving st).selectedSerial = 2
    rw [r6]; exact hser
  obtain ⟨b1, b2, b3, b4, b5, b6⟩ := besideSend_eq (sendAnswer_besideSend K _ hser2)
  refine ⟨_, mainLoop_frame K fuel n st _ s _ rest hl (by rw [hlen]; omega)
    (by rw [hlen]; omega) hp, ?_, ?_, ?_, ?_, ?_⟩
  · rw [b5]; exact r5.trans hl
  · rw [b6]; exact r6
  · rw [b1]
    show ((storeAt (receiving st).msgBuffer 0 (loadAddressMsg K 0) 1 <<< 24 |||
      storeAt (receiving st).msgBuffer 0 (loadAddressMsg K 0) 2 <<< 16 |||
      storeAt (receiving st).msgBuffer 0 (loadAddressMsg K 0) 3 <<< 8 |||
      storeAt (receiving st).msgBuffer 0 (loadAddressMsg K 0) 4) <<< 1) % 2 ^ 32 = 0
    rw [m1, m2, m3, m4]
    decide
  · rw [b4]; exact r4
  · rw [sendAnswer_two K _ K.CMD_LOAD_ADDRESS K.STATUS_CMD_OK hser2 rfl ?_ ?_]
    · show (receiving st).tx ++ _ = _
      rw [r8]
      rfl
    · show Function.update (storeAt (receiving st).msgBuffer 0 (loadAddressMsg K 0)) 1 K.STATUS_CMD_OK 0 = _
      rw [Function.update_noteq (by decide), m0]
    · show Function.update (storeAt (receiving st).msgBuffer 0 (loadAddressMsg K 0)) 1 K.STATUS_CMD_OK 1 = _
      rw [Function.update_same]

theorem bufferBytes_append (buf : Nat → Nat) : ∀ (a p b : Nat),
    bufferBytes buf p (a + b) = bufferBytes buf p a ++ bufferBytes buf (p + a) b
  | 0, p, b => by simp [bufferBytes]
  | a + 1, p, b => by
    rw [show a + 1 + b = (a + b) + 1 by omega, bufferBytes, bufferBytes,
      bufferBytes_append buf a (p + 1) b, show p + 1 + a = p + (a + 1) by omega]
    rfl

theorem bufferBytes_eq (buf : Nat → Nat) : ∀ (n p : Nat) (D : List Nat),
    D.length = n → (∀ i, i < n → buf (p + i) = D.getD i 0) → bufferBytes buf p n = D
  | 0, _, D, hD, _ => by
    rw [List.length_eq_zero.mp hD]; rfl
  | n + 1, p, [], hD, _ => by simp at hD
  | n + 1, p, d :: D, hD, h => by
    rw [bufferBytes]
    have h0 := h 0 (by omega)
    simp only [Nat.add_zero, List.getD_cons_zero] at h0
    rw [h0, bufferBytes_eq buf n (p + 1) D (by simpa using hD)]
    intro i hi
    have := h (i + 1) (by omega)
    rw [List.getD_cons_succ] at this
    rw [show p + 1 + i = p + (i + 1) by omega]
    exact this

/-- The answer to a Read-Flash of 256 bytes. -/
theorem bufferBytes_read (K : CommandH) (buf : Nat → Nat) (D : List Nat) (hD : D.length = 256)
    (h0 : buf 0 = K.CMD_READ_FLASH_ISP) (h1 : buf 1 = K.STATUS_CMD_OK)
    (hd : ∀ i, i < 256 → buf (2 + i) = D.getD i 0) (hlast : buf 258 = K.STATUS_CMD_OK) :
    bufferBytes buf 0 259 = [K.CMD_READ_FLASH_ISP, K.STATUS_CMD_OK] ++ D ++ [K.STATUS_CMD_OK] := by
  rw [show 259 = 2 + (256 + 1) by rfl, bufferBytes_append, bufferBytes_append,
    bufferBytes_eq buf 256 (0 + 2) D hD (by simpa using hd)]
  simp [bufferBytes, h0, h1, hlast]

/-- One Read-Flash frame for 256 bytes inside the flash, handled by the main
loop. -/
theorem mainLoop_read (K : CommandH) (hK : K.valid) (fuel n : Nat) (st : State) (s : Nat)
    (D rest : List Nat) (hl : st.isLeave = 0)
    (hser : st.selectedSerial = 0 ∨ st.selectedSerial = 2)
    (hend : st.address + 256 ≤ FLASHEND + 1) (hD : D.length = 256) (hDb : ∀ b ∈ D, b < 256)
    (hfl : ∀ j, j < 256 → st.flash (st.address + j) = D.getD j 0) (hfuel : 128 ≤ fuel) :
    ∃ st1, mainLoop K fuel (n + 1) st (frame K s (readFlashMsg K 256) ++ rest)
        = mainLoop K fuel n st1 rest ∧
      st1.isLeave = 0 ∧ st1.selectedSerial = st.selectedSerial ∧
      st1.address = st.address + 256 ∧ st1.flash = st.flash ∧
      st1.tx = st.tx ++
        frame K s ([K.CMD_READ_FLASH_ISP, K.STATUS_CMD_OK] ++ D ++ [K.STATUS_CMD_OK]) := by
  obtain ⟨r1, -, -, r4, r5, r6, -, r8⟩ := receiving_fields st
  have hlen : (readFlashMsg K 256).length = 4 := rfl
  have hm : ∀ j, j < 4 → storeAt (receiving st).msgBuffer 0 (readFlashMsg K 256) j =
      (readFlashMsg K 256).getD j 0 := by
    intro j hj
    rw [storeAt_apply, if_pos (by omega), Nat.sub_zero]
  have m0 : storeAt (receiving st).msgBuffer 0 (readFlashMsg K 256) 0 = K.CMD_READ_FLASH_ISP := by
    rw [hm 0 (by omega)]; rfl
  have m1 : storeAt (receiving st).msgBuffer 0 (readFlashMsg K 256) 1 = 1 := by
    rw [hm 1 (by omega)]; rfl
  have m2 : storeAt (receiving st).msgBuffer 0 (readFlashMsg K 256) 2 = 0 := by
    rw [hm 2 (by omega)]; rfl
  have hfl2 : ∀ j, j < 256 →
      (receiving st).flash ((receiving st).address + j) = D.getD j 0 := by
    rw [r1, r4]; exact hfl
  have hend2 : (receiving st).address + 256 ≤ FLASHEND + 1 := by rw [r1]; exact hend
  have hbytes : ∀ i, i < 256 → (receiving st).flash ((receiving st).address + i) < 256 := by
    intro i hi
    rw [hfl2 i hi, List.getD_eq_getElem _ _ (by omega)]
    exact hDb _ (List.getElem_mem _)
  obtain ⟨st2, c1, c2, c3, c4, c5, c6, c7, c8, c9, c10, c11, c12⟩ := cmdRead_page K fuel
    (accepted (receiving st) s (readFlashMsg K 256)
      (xorAll (frameBody K s (readFlashMsg K 256))))
    m0 m1 m2 hend2 hbytes hfuel
  obtain ⟨hseq, hsel, htx⟩ := link_eq c12
  have hseq2 : st2.seqNum = s := hseq
  have hsel2 : st2.selectedSerial = st.selectedSerial := hsel.trans r6
  have htx2 : st2.tx = st.tx := htx.trans r8
  have hser2 : st2.selectedSerial = 0 ∨ st2.selectedSerial = 2 := by rw [hsel2]; exact hser
  obtain ⟨b1, b2, b3, b4, b5, b6⟩ := besideSend_eq (sendAnswer_besideSend K st2 hser2)
  refine ⟨sendAnswer K st2, ?_, ?_, ?_, ?_, ?_, ?_⟩
  · apply mainLoop_frame K fuel n st st2 s _ rest hl (by rw [hlen]; omega)
      (by rw [hlen]; omega)
    rw [processCommand_readFlash K hK fuel _ m0]
    exact c1
  · rw [b5, c11]; exact r5.trans hl
  · rw [b6, hsel2]
  · rw [b1, c2]; exact congrArg (· + 256) r1
  · rw [b4, c10]; exact r4
  · rw [sendAnswer_tx K st2 hser2 (by omega), replyBody_eq_frameBody K st2 (by omega), c3,
      htx2, hseq2]
    have hb := bufferBytes_read K st2.msgBuffer D hD c4 c5
      (fun i hi => by rw [c6 i hi]; exact hfl2 i hi) c7
    rw [hb]
    rfl

/-- A run of Read-Flash frames of 256 bytes each over flash that holds the
blocks `Ds`. -/
theorem mainLoop_reads (K : CommandH) (hK : K.valid) (fuel : Nat) (s : Nat)
    (hfuel : 128 ≤ fuel) : ∀ (Ds : List (List Nat)) (st : State) (n : Nat) (rest : List Nat),
    st.isLeave = 0 → (st.selectedSerial = 0 ∨ st.selectedSerial = 2) →
    st.address + 256 * Ds.length ≤ FLASHEND + 1 →
    (∀ D ∈ Ds, D.length = 256 ∧ ∀ b ∈ D, b < 256) →
    (∀ i j, i < Ds.length → j < 256 →
      st.flash (st.address + 256 * i + j) = (Ds.getD i []).getD j 0) →
    ∃ st1, mainLoop K fuel (n + Ds.length) st
          (wire K s (Ds.map (fun _ => readFlashMsg K 256)) ++ rest)
        = mainLoop K fuel n st1 rest ∧
      st1.isLeave = 0 ∧
      st1.tx = st.tx ++ wire K s (Ds.map
        (fun D => [K.CMD_READ_FLASH_ISP, K.STATUS_CMD_OK] ++ D ++ [K.STATUS_CMD_OK])) := by
  intro Ds
  induction Ds with
  | nil =>
    intro st n rest hl hser hend hDs hfl
    exact ⟨st, rfl, hl, by simp [wire]⟩
  | cons D Ds ih =>
    intro st n rest hl hser hend hDs hfl
    simp only [List.length_cons] at hend
    obtain ⟨hD, hDb⟩ := hDs D (List.mem_cons_self _ _)
    obtain ⟨st1, a1, a2, a3, a4, a5, a6⟩ := mainLoop_read K hK fuel (n + Ds.length) st s D
      (wire K s (Ds.map (fun _ => readFlashMsg K 256)) ++ rest) hl hser (by omega) hD hDb
      (fun j hj => by
        have := hfl 0 j (by simp) hj
        simpa using this)
      hfuel
    obtain ⟨st2, c1, c2, c3⟩ := ih st1 n rest a2 (by rw [a3]; exact hser)
      (by rw [a4]; omega) (fun D' hD' => hDs D' (List.mem_cons_of_mem _ hD'))
      (fun i j hi hj => by
        have := hfl (i + 1) j (by simpa using hi) hj
        rw [a5, a4, show st.address + 256 + 256 * i + j = st.address + 256 * (i + 1) + j
          by omega, this]
        simp)
    refine ⟨st2, ?_, c2, ?_⟩
    · have e1 : n + (D :: Ds).length = n + Ds.length + 1 := by simp; omega
      have e2 : wire K s (List.map (fun _ => readFlashMsg K 256) (D :: Ds)) ++ rest =
          frame K s (readFlashMsg K 256) ++
            (wire K s (Ds.map (fun _ => readFlashMsg K 256)) ++ rest) := by
        simp only [List.map_cons, wire, List.append_assoc]
      rw [e1, e2, a1, c1]
    · rw [c3, a6]
      simp only [List.map_cons, wire, List.append_assoc]

/-- The main loop on a line that stays silent: the code is in
`recchar_timeout`, unless the first byte is still to be taken from the data
register. -/
theorem mainLoop_silent (K : CommandH) (fuel n : Nat) (st : State) (hl : st.isLeave = 0) :
    mainLoop K fuel (n + 1) st [] =
      if st.boot_state = 1 then Res.hang { st with msgParseState := ST_START }
      else recchar_timeout { st with msgParseState := ST_START } := by
  have hb : mainLoopBody K fuel st [] =
      if st.boot_state = 1 then Res.hang { st with msgParseState := ST_START }
      else recchar_timeout { st with msgParseState := ST_START } := by
    unfold mainLoopBody
    simp only [collectMessage]
    rw [if_neg (show ¬ (ST_START = ST_PROCESS) by decide)]
    by_cases h1 : st.boot_state = 1
    · rw [if_pos h1]
    · rw [if_neg h1]
      unfold recchar_timeout
      split_ifs <;> rfl
  rw [mainLoop, if_neg (by rw [hl]; decide), hb]
  by_cases h1 : st.boot_state = 1
  · rw [if_pos h1, if_pos h1]
  · rw [if_neg h1, if_neg h1]
    unfold recchar_timeout
    split_ifs <;> rfl

/-- With the input used up nothing that ignores the decoder state changes any
more. -/
theorem mainLoop_nil_inv {α : Type} (f : State → α)
    (hf : ∀ (st : State) v, f { st with msgParseState := v } = f st)
    (K : CommandH) (fuel n : Nat) (st : State) :
    f (mainLoop K fuel n st []).reached = f st := by
  cases n with
  | zero => rfl
  | succ n =>
    by_cases hl : st.isLeave = 0
    · rw [mainLoop_silent K fuel n st hl]
      by_cases h1 : st.boot_state = 1
      · rw [if_pos h1]
        exact hf st ST_START
      · rw [if_neg h1, recchar_timeout_reached]
        exact hf st ST_START
    · rw [mainLoop, if_pos hl]
      rfl

/-- With the input used up nothing more is sent. -/
theorem mainLoop_nil (K : CommandH) (fuel n : Nat) (st : State) :
    (mainLoop K fuel n st []).reached.tx = st.tx :=
  mainLoop_nil_inv (fun s => s.tx) (fun _ _ => rfl) K fuel n st

/-- C4. Flash write/read round trip, on the wire: from a fresh session
(`address = 0`, `eraseAddress = 0`, page buffer erased) the host sends one
Program-Flash frame per block `D_0 .. D_{k-1}` of `SPM_PAGESIZE` bytes, with
`k * SPM_PAGESIZE <= APP_END - SPM_PAGESIZE`, then Load-address 0, then `k`
Read-Flash frames of `SPM_PAGESIZE` bytes.  The bootloader answers every
Program-Flash and the Load-address with status OK, and the answer to the
`i`-th Read-Flash carries exactly the bytes of `D_i` between its two status
bytes. -/
theorem flash_roundtrip (K : CommandH) (hK : K.valid) (fuel n s : Nat) (st : State)
    (Ds : List (List Nat)) (hfuel : 128 ≤ fuel) (hn : 2 * Ds.length + 1 ≤ n)
    (hl : st.isLeave = 0) (hser : st.selectedSerial = 0 ∨ st.selectedSerial = 2)
    (haddr : st.address = 0) (hera : st.eraseAddress = 0)
    (hpb : ∀ o, st.pageBuffer o = 0xFF)
    (hk : Ds.length * SPM_PAGESIZE ≤ APP_END - SPM_PAGESIZE)
    (hDs : ∀ D ∈ Ds, D.length = SPM_PAGESIZE ∧ ∀ b ∈ D, b < 256) :
    (mainLoop K fuel n st
      (wire K s (Ds.map (programFlashMsg K) ++ [loadAddressMsg K 0] ++
        Ds.map (fun _ => readFlashMsg K SPM_PAGESIZE)))).reached.tx =
    st.tx ++ wire K s
      (Ds.map (fun _ => [K.CMD_PROGRAM_FLASH_ISP, K.STATUS_CMD_OK]) ++
        [[K.CMD_LOAD_ADDRESS, K.STATUS_CMD_OK]] ++
        Ds.map (fun D => [K.CMD_READ_FLASH_ISP, K.STATUS_CMD_OK] ++ D ++ [K.STATUS_CMD_OK])) := by
  have hA := APP_END_eq
  have hF : FLASHEND + 1 = 262144 := by decide
  unfold SPM_PAGESIZE at hk hDs ⊢
  rw [hA] at hk
  obtain ⟨m, hm⟩ : ∃ m, n = ((m + Ds.length) + 1) + Ds.length := ⟨n - (2 * Ds.length + 1), by omega⟩
  obtain ⟨st1, a1, a2, a3, a4, a5, a6, a7, a8, a9⟩ := mainLoop_programs K hK fuel s hfuel Ds st
    ((m + Ds.length) + 1)
    (wire K s ([loadAddressMsg K 0] ++ Ds.map (fun _ => readFlashMsg K 256)))
    hl hser (by rw [hera, haddr]) (by rw [haddr]) (by rw [haddr, hA]; omega) hpb hDs
  obtain ⟨st2, b1, b2, b3, b4, b5, b6⟩ := mainLoop_loadZero K hK fuel (m + Ds.length) st1 s
    (wire K s (Ds.map (fun _ => readFlashMsg K 256))) a2 (by rw [a3]; exact hser)
  obtain ⟨st3, c1, c2, c3⟩ := mainLoop_reads K hK fuel s hfuel Ds st2 m [] b2
    (by rw [b3, a3]; exact hser) (by rw [b4, hF]; omega) hDs
    (fun i j hi hj => by
      have := a8 i j hi hj
      rw [haddr] at this
      rw [b5, b4, this])
  have e1 : wire K s (Ds.map (programFlashMsg K) ++ [loadAddressMsg K 0] ++
        Ds.map (fun _ => readFlashMsg K 256)) =
      wire K s (Ds.map (programFlashMsg K)) ++
        wire K s ([loadAddressMsg K 0] ++ Ds.map (fun _ => readFlashMsg K 256)) := by
    rw [List.append_assoc, wire_append]
  have e2 : wire K s ([loadAddressMsg K 0] ++ Ds.map (fun _ => readFlashMsg K 256)) =
      frame K s (loadAddressMsg K 0) ++ wire K s (Ds.map (fun _ => readFlashMsg K 256)) := rfl
  have e3 : wire K s (Ds.map (fun _ => readFlashMsg K 256)) =
      wire K s (Ds.map (fun _ => readFlashMsg K 256)) ++ [] := by rw [List.append_nil]
  rw [e1, hm, a1, e2, b1, e3, c1, mainLoop_nil, c3, b6, a9, wire_append, wire_append]
  simp only [wire, List.append_assoc, List.append_nil]

theorem replicate_page (v : Nat) (hv : v < 256) :
    ∀ D ∈ [List.replicate 256 v], D.length = SPM_PAGESIZE ∧ ∀ b ∈ D, b < 256 := by
  intro D hD
  rw [List.mem_singleton] at hD
  subst hD
  exact ⟨List.length_replicate _ _, fun b hb => by rw [List.eq_of_mem_replicate hb]; exact hv⟩

/-- Instance of C4: one page of `0x5A` bytes written to, and read back from,
a machine fresh from reset. -/
theorem flash_roundtrip_witness :
    (avr068.valid ∧ 128 ≤ 128 ∧ 2 * [List.replicate 256 0x5A].length + 1 ≤ 3 ∧
     resetState.isLeave = 0 ∧ (resetState.selectedSerial = 0 ∨ resetState.selectedSerial = 2) ∧
     resetState.address = 0 ∧ resetState.eraseAddress = 0 ∧
     (∀ o, resetState.pageBuffer o = 0xFF) ∧
     [List.replicate 256 0x5A].length * SPM_PAGESIZE ≤ APP_END - SPM_PAGESIZE ∧
     (∀ D ∈ [List.replicate 256 0x5A], D.length = SPM_PAGESIZE ∧ ∀ b ∈ D, b < 256)) ∧
    (mainLoop avr068 128 3 resetState
      (wire avr068 1 ([List.replicate 256 0x5A].map (programFlashMsg avr068) ++
        [loadAddressMsg avr068 0] ++
        [List.replicate 256 0x5A].map (fun _ => readFlashMsg avr068 SPM_PAGESIZE)))).reached.tx =
    resetState.tx ++ wire avr068 1
      ([List.replicate 256 0x5A].map
          (fun _ => [avr068.CMD_PROGRAM_FLASH_ISP, avr068.STATUS_CMD_OK]) ++
        [[avr068.CMD_LOAD_ADDRESS, avr068.STATUS_CMD_OK]] ++
        [List.replicate 256 0x5A].map (fun D =>
          [avr068.CMD_READ_FLASH_ISP, avr068.STATUS_CMD_OK] ++ D ++ [avr068.STATUS_CMD_OK])) :=
  ⟨⟨by decide, by decide, by decide, rfl, Or.inl rfl, rfl, rfl, fun _ => rfl, by decide,
    replicate_page 0x5A (by decide)⟩,
   flash_roundtrip avr068 (by decide) 128 3 1 resetState [List.replicate 256 0x5A]
     (by decide) (by decide) rfl (Or.inl rfl) rfl rfl (fun _ => rfl) (by decide)
     (replicate_page 0x5A (by decide))⟩

/-! ## Theorems: the watchdog block, RUN flag and magic -/

/-- Anything the body of the inner copy loop preserves, the loop preserves. -/
theorem selfUpdateCopy_inv {α : Type} (f : State → α)
    (hf : ∀ st, f (selfUpdateCopyStep st) = f st) (fuel : Nat) :
    ∀ (st : State) (pa : Nat), f (selfUpdateCopy fuel st pa).reached = f st := by
  induction fuel with
  | zero => intro st pa; rfl
  | succ fuel ih =>
    intro st pa
    simp only [selfUpdateCopy]
    split
    · rw [ih, hf]
    · rfl

/-- Anything the pieces of the self-update loop preserve, the loop preserves. -/
theorem selfUpdateLoop_inv {α : Type} (f : State → α)
    (h1 : ∀ st, f (selfUpdateCopyStep st) = f st)
    (h2 : ∀ st pa, f (selfUpdateErase st pa) = f st)
    (h3 : ∀ st pa, f (selfUpdateWrite st pa) = f st)
    (h4 : ∀ st, f (selfUpdateSkip st) = f st) (fuel : Nat) :
    ∀ (st : State) (pa : Nat), f (selfUpdateLoop fuel st pa).reached = f st := by
  induction fuel with
  | zero => intro st pa; rfl
  | succ fuel ih =>
    intro st pa
    simp only [selfUpdateLoop]
    split_ifs with hn hc
    · have hcp := selfUpdateCopy_inv f h1 fuel (selfUpdateErase st pa)
        ((pa + SPM_PAGESIZE) % 2 ^ 32)
      cases hr : selfUpdateCopy fuel (selfUpdateErase st pa) ((pa + SPM_PAGESIZE) % 2 ^ 32) with
      | ok s1 =>
        rw [hr] at hcp
        simp only [Res.reached] at hcp
        simp only []
        rw [ih, h3, hcp, h2]
      | hang s1 =>
        rw [hr] at hcp
        simp only [Res.reached] at hcp ⊢
        rw [hcp, h2]
      | jump s1 =>
        rw [hr] at hcp
        simp only [Res.reached] at hcp ⊢
        rw [hcp, h2]
    · rw [ih, h4, h2]
    · rfl

/-- Anything the pieces of the watchdog block preserve, the block
preserves. -/
theorem selfUpdate_inv {α : Type} (f : State → α)
    (h0 : ∀ st a, f { st with address := a } = f st)
    (h1 : ∀ st, f (selfUpdateCopyStep st) = f st)
    (h2 : ∀ st pa, f (selfUpdateErase st pa) = f st)
    (h3 : ∀ st pa, f (selfUpdateWrite st pa) = f st)
    (h4 : ∀ st, f (selfUpdateSkip st) = f st) (fuel mcuStatusReg : Nat) (st : State) :
    f (selfUpdate fuel mcuStatusReg st).reachedFst = f st := by
  unfold selfUpdate
  split_ifs with hw hm hr
  · rfl
  · have hl := selfUpdateLoop_inv f h1 h2 h3 h4 fuel { st with address := st.boot_dst_addr }
      st.boot_dst_addr
    simp only []
    cases hr : selfUpdateLoop fuel { st with address := st.boot_dst_addr } st.boot_dst_addr with
    | ok s1 =>
      rw [hr] at hl
      simp only [Res.reached] at hl
      simp only [Res.reachedFst]
      rw [hl, h0]
    | hang s1 =>
      rw [hr] at hl
      simp only [Res.reached] at hl
      simp only [Res.reachedFst]
      rw [hl, h0]
    | jump s1 =>
      rw [hr] at hl
      simp only [Res.reached] at hl
      simp only [Res.reachedFst]
      rw [hl, h0]
  · rfl
  · rfl

theorem selfUpdateCopyStep_magic (st : State) :
    (selfUpdateCopyStep st).boot_app_magic = st.boot_app_magic := by
  unfold selfUpdateCopyStep
  dsimp only
  split_ifs <;> rfl

theorem selfUpdateErase_magic (st : State) (pa : Nat) :
    (selfUpdateErase st pa).boot_app_magic = st.boot_app_magic := by
  unfold selfUpdateErase
  split_ifs <;> rfl

theorem selfUpdateSkip_magic (st : State) :
    (selfUpdateSkip st).boot_app_magic = st.boot_app_magic := by
  unfold selfUpdateSkip
  dsimp only
  split_ifs <;> rfl

/-- C11, as amended.  After a watchdog reset with a valid magic and
`BOOT_APP_FLG_RUN` set, the watchdog block changes nothing (no flash
operation) and `main` goes on at label `start`, the normal boot path with the
serial wait loop, not at `exit`; every other run of the block after a watchdog
reset that leaves the block leaves it at `exit`, the jump to the
application. -/
theorem deferred_run_starts (fuel mcuStatusReg : Nat) (st : State)
    (hw : mcuStatusReg &&& (1 <<< WDRF) ≠ 0) :
    (st.boot_app_magic = 0x55aa55aa → st.boot_app_flags &&& BOOT_APP_FLG_RUN ≠ 0 →
      selfUpdate fuel mcuStatusReg st = Res.ok (st, Next.start)) ∧
    (∀ st1 nx, selfUpdate fuel mcuStatusReg st = Res.ok (st1, nx) →
      (nx = Next.exit ↔
        ¬ (st.boot_app_magic = 0x55aa55aa ∧ st.boot_app_flags &&& BOOT_APP_FLG_RUN ≠ 0))) := by
  refine ⟨?_, ?_⟩
  · intro hm hr
    unfold selfUpdate
    rw [if_pos hw, if_pos hm, if_pos hr]
  · intro st1 nx h
    unfold selfUpdate at h
    rw [if_pos hw] at h
    by_cases hm : st.boot_app_magic = 0x55aa55aa
    · rw [if_pos hm] at h
      by_cases hr : st.boot_app_flags &&& BOOT_APP_FLG_RUN ≠ 0
      · rw [if_pos hr] at h
        simp only [Res.ok.injEq, Prod.mk.injEq] at h
        rw [← h.2]
        simp [hm, hr]
      · rw [if_neg hr] at h
        simp only [] at h
        split at h
        · simp only [Res.ok.injEq, Prod.mk.injEq] at h
          rw [← h.2]
          simp [hr]
        · exact absurd h (by simp)
        · exact absurd h (by simp)
    · rw [if_neg hm] at h
      simp only [Res.ok.injEq, Prod.mk.injEq] at h
      rw [← h.2]
      simp [hm]

/-- Instance of C11: the descriptor `deferRunRequest` after a watchdog
reset. -/
theorem deferred_run_starts_witness :
    ((1 <<< WDRF) &&& (1 <<< WDRF) ≠ 0) ∧
    ((deferRunRequest.boot_app_magic = 0x55aa55aa →
      deferRunRequest.boot_app_flags &&& BOOT_APP_FLG_RUN ≠ 0 →
      selfUpdate 1000 (1 <<< WDRF) deferRunRequest = Res.ok (deferRunRequest, Next.start)) ∧
    (∀ st1 nx, selfUpdate 1000 (1 <<< WDRF) deferRunRequest = Res.ok (st1, nx) →
      (nx = Next.exit ↔
        ¬ (deferRunRequest.boot_app_magic = 0x55aa55aa ∧
          deferRunRequest.boot_app_flags &&& BOOT_APP_FLG_RUN ≠ 0)))) :=
  ⟨by decide, deferred_run_starts 1000 (1 <<< WDRF) deferRunRequest (by decide)⟩

/-- C11 fails as stated: after a watchdog reset with valid magic and
`BOOT_APP_FLG_RUN` set the watchdog block is left at label `start`, in front
of the serial wait loop, and not at `exit`. -/
theorem deferred_run_not_application :
    (1 <<< WDRF) &&& (1 <<< WDRF) ≠ 0 ∧ deferRunRequest.boot_app_magic = 0x55aa55aa ∧
    deferRunRequest.boot_app_flags &&& BOOT_APP_FLG_RUN ≠ 0 ∧
    selfUpdate 1000 (1 <<< WDRF) deferRunRequest = Res.ok (deferRunRequest, Next.start) ∧
    Next.start ≠ Next.exit :=
  ⟨by decide, by decide, by decide, rfl, by decide⟩

theorem selfUpdateWrite_eq (st : State) (pa : Nat) :
    selfUpdateWrite st pa =
      boot_rww_enable (boot_page_write st ((pa + 2 ^ 32 - SPM_PAGESIZE) % 2 ^ 32)) := rfl

theorem commit_magic (st : State) (a : Nat) :
    (boot_rww_enable (boot_page_write st a)).boot_app_magic = st.boot_app_magic := rfl

theorem selfUpdateWrite_magic (st : State) (pa : Nat) :
    (selfUpdateWrite st pa).boot_app_magic = st.boot_app_magic := by
  rw [selfUpdateWrite_eq]
  exact commit_magic st _

/-- C12, as amended.  The watchdog block never writes `boot_app_magic`:
whatever the reset cause, the descriptor and the loop bound, the magic is the
same after the block as before it, so a valid magic stays valid. -/
theorem magic_kept (fuel mcuStatusReg : Nat) (st : State) :
    (selfUpdate fuel mcuStatusReg st).reachedFst.boot_app_magic = st.boot_app_magic :=
  selfUpdate_inv (fun s => s.boot_app_magic) (fun _ _ => rfl) selfUpdateCopyStep_magic
    selfUpdateErase_magic selfUpdateWrite_magic selfUpdateSkip_magic fuel mcuStatusReg st

/-- C12 fails as stated: the erase-only descriptor `eraseRequest` is processed
after a watchdog reset (`boot_copy_size` ends at 0) and the magic still is
`0x55aa55aa`. -/
theorem magic_survives_update :
    (1 <<< WDRF) &&& (1 <<< WDRF) ≠ 0 ∧ eraseRequest.boot_app_magic = 0x55aa55aa ∧
    ∃ st1, selfUpdate 4 (1 <<< WDRF) eraseRequest = Res.ok (st1, Next.exit) ∧
      st1.boot_copy_size = 0 ∧ st1.boot_app_magic = 0x55aa55aa :=
  ⟨by decide, by decide, _, rfl, by decide, by decide⟩

/-! ## Theorems: commands that do not return, payloads that do not fit -/

/-- The Read-Flash loop entered with an odd size never ends: `size -= 2` keeps
16-bit `size` odd, so `while (size)` never sees 0. -/
theorem readFlashLoop_odd (fuel : Nat) : ∀ (st : State) (p size : Nat),
    size % 2 = 1 → size < 65536 → ∃ st1, readFlashLoop fuel st p size = Res.hang st1 := by
  induction fuel with
  | zero => intro st p size _ _; exact ⟨st, rfl⟩
  | succ fuel ih =>
    intro st p size h1 h2
    simp only [readFlashLoop]
    rw [if_pos (by omega)]
    exact ih _ _ _ (by omega) (Nat.mod_lt _ (by decide))

/-- The Program-Flash loop entered with an odd size never ends. -/
theorem programFlashLoop_odd (fuel : Nat) : ∀ (st : State) (p size : Nat),
    size % 2 = 1 → size < 65536 → ∃ st1, programFlashLoop fuel st p size = Res.hang st1 := by
  induction fuel with
  | zero => intro st p size _ _; exact ⟨st, rfl⟩
  | succ fuel ih =>
    intro st p size h1 h2
    simp only [programFlashLoop]
    rw [if_pos (by omega)]
    exact ih _ _ _ (by omega) (Nat.mod_lt _ (by decide))

/-- A flash command with an odd size field does not return, whatever the
bound on the loop iterations. -/
theorem processCommand_odd (K : CommandH) (hK : K.valid) (st : State)
    (hodd : oddFlashSize K st) (fuel : Nat) :
    ∃ st1, processCommand K fuel st = Res.hang st1 := by
  obtain ⟨h1, h2⟩ := hodd
  have hsz : (st.msgBuffer 1 <<< 8 ||| st.msgBuffer 2) % 65536 < 65536 :=
    Nat.mod_lt _ (by decide)
  rcases h2 with ⟨hop, ha⟩ | hop
  · rw [processCommand_programFlash K hK fuel st hop]
    unfold cmdProgram
    simp only []
    rw [if_pos hop, if_pos (by
      rw [programFlashErase_address, programFlashProgress_address]; exact ha)]
    obtain ⟨st1, h⟩ := programFlashLoop_odd fuel
      (programFlashErase (programFlashProgress st
        ((st.msgBuffer 1 <<< 8 ||| st.msgBuffer 2) % 65536))) 10 _ h1 hsz
    rw [h]
    exact ⟨st1, rfl⟩
  · rw [processCommand_readFlash K hK fuel st hop]
    unfold cmdRead
    simp only []
    have hop2 : (readHeader K st ((st.msgBuffer 1 <<< 8 ||| st.msgBuffer 2) % 65536)).msgBuffer 0
        = K.CMD_READ_FLASH_ISP := hop
    rw [if_pos hop2]
    obtain ⟨st1, h⟩ := readFlashLoop_odd fuel
      (readFlashProgress (readHeader K st ((st.msgBuffer 1 <<< 8 ||| st.msgBuffer 2) % 65536))
        ((st.msgBuffer 1 <<< 8 ||| st.msgBuffer 2) % 65536)) 2 _ h1 hsz
    rw [h]
    exact ⟨st1, rfl⟩

theorem oddReadRequest_odd : oddFlashSize avr068 oddReadRequest := by
  refine ⟨?_, Or.inr ?_⟩
  · decide
  · decide

/-- C13 fails on the code: the Read-Flash frame with size field 1 is accepted
and its command never returns, whatever the bound on the loop iterations; the
main loop sends no reply byte. -/
theorem odd_read_never_answers (fuel n : Nat) :
    (∃ st1, processCommand avr068 fuel oddReadRequest = Res.hang st1) ∧
    ∃ st2, mainLoop avr068 fuel (n + 1) resetState (frame avr068 1 (readFlashMsg avr068 1))
        = Res.hang st2 ∧ st2.tx = [] := by
  obtain ⟨st1, h1⟩ := processCommand_odd avr068 (by decide) oddReadRequest oddReadRequest_odd fuel
  refine ⟨⟨st1, h1⟩, st1, ?_, ?_⟩
  · have hc := collectMessage_frame avr068 resetState 1 (readFlashMsg avr068 1) []
      (by decide) (by decide)
    rw [List.append_nil] at hc
    have hb : mainLoopBody avr068 fuel resetState (frame avr068 1 (readFlashMsg avr068 1))
        = Res.hang st1 := by
      unfold mainLoopBody
      rw [hc]
      have h1b : processCommand avr068 fuel (accepted (receiving resetState) 1
          (readFlashMsg avr068 1) (xorAll (frameBody avr068 1 (readFlashMsg avr068 1))))
          = Res.hang st1 := h1
      simp only [h1b]
    rw [mainLoop, if_neg (by decide), hb]
  · have hl := processCommand_link avr068 fuel oddReadRequest
    rw [h1] at hl
    obtain ⟨-, -, htx⟩ := link_eq hl
    have htx2 : st1.tx = oddReadRequest.tx := htx
    rw [htx2]
    rfl

/-- The decoder stores every byte of a payload longer than `msgBuffer`. -/
theorem feed_stores_all (K : CommandH) (st : State) (s : Nat) (P : List Nat)
    (hst : st.msgParseState = ST_START) (h1 : 285 < P.length) (h2 : P.length < 65536) :
    (feed K st (frame K s P)).msgParseState = ST_PROCESS ∧
    ∀ i (hi : i < P.length), (feed K st (frame K s P)).msgBuffer i = P[i] := by
  rw [feed_frame K st s P hst (by omega) h2]
  exact ⟨rfl, fun i hi => storeAt_lt P st.msgBuffer i hi⟩

/-- C14 fails on the code: a frame that announces 286 payload bytes is
accepted and its last payload byte is stored at index 285, behind the 285
bytes of `msgBuffer`. -/
theorem decoder_stores_past_buffer :
    resetState.msgBuffer 285 = 0 ∧
    (feed avr068 resetState (frame avr068 1 (List.replicate 286 0xAA))).msgParseState
      = ST_PROCESS ∧
    (feed avr068 resetState (frame avr068 1 (List.replicate 286 0xAA))).msgBuffer 285 = 0xAA := by
  have h := feed_stores_all avr068 resetState 1 (List.replicate 286 0xAA) rfl
    (by rw [List.length_replicate]; decide) (by rw [List.length_replicate]; decide)
  refine ⟨rfl, h.1, ?_⟩
  rw [h.2 285 (by rw [List.length_replicate]; decide), List.getElem_replicate]

/-! ## Theorems: invariants of the main loop and the program case -/

theorem session_eq {a b : State} (h : session a = session b) :
    a.address = b.address ∧ a.eraseAddress = b.eraseAddress ∧ a.flashSize = b.flashSize ∧
    a.flashCounter = b.flashCounter ∧ a.flashAddressLast = b.flashAddressLast ∧
    a.flashOperation = b.flashOperation ∧ a.isLeave = b.isLeave ∧ a.flash = b.flash ∧
    a.spmLog = b.spmLog := by
  simp only [session, Prod.mk.injEq] at h
  exact h

theorem sendLoop_inv {α : Type} (f : State → α)
    (h1 : ∀ st c, f (sendchar st c) = f st)
    (h2 : ∀ (st : State) c m, f { st with checksum := c, msgLength := m } = f st) :
    ∀ (n : Nat) (st : State) (p : Nat), f (sendLoop n st p) = f st
  | 0, _, _ => rfl
  | n + 1, st, p => by
    rw [sendLoop, sendLoop_inv f h1 h2 n, h2, h1]

/-- Anything `sendchar` and the assignments to `checksum`, `msgLength` and
`seqNum` preserve, sending the answer preserves. -/
theorem sendAnswer_inv {α : Type} (f : State → α) (K : CommandH)
    (h1 : ∀ st c, f (sendchar st c) = f st)
    (h2 : ∀ (st : State) c m, f { st with checksum := c, msgLength := m } = f st)
    (h3 : ∀ (st : State) c, f { st with checksum := c } = f st)
    (h4 : ∀ (st : State) s, f { st with seqNum := s } = f st) (st : State) :
    f (sendAnswer K st) = f st := by
  unfold sendAnswer
  simp only [h1, h3, h4, sendLoop_inv f h1 h2]

theorem fetchByte_session (st : State) : session (fetchByte st) = session st := by
  unfold fetchByte; split_ifs <;> rfl

theorem sendchar_session (st : State) (c : Nat) : session (sendchar st c) = session st := by
  unfold sendchar; split_ifs <;> rfl

theorem sendAnswer_session (K : CommandH) (st : State) :
    session (sendAnswer K st) = session st :=
  sendAnswer_inv session K sendchar_session (fun _ _ _ => rfl) (fun _ _ => rfl)
    (fun _ _ => rfl) st

theorem receiving_session (st : State) : session (receiving st) = session st := by
  unfold receiving
  rw [fetchByte_session]
  rfl

/-- What the program case leaves of a function of the state that the loops,
the page write and the answer do not touch: its value behind the bookkeeping
and the erase-ahead for Program-Flash, its value at entry for
Program-EEPROM. -/
theorem cmdProgram_shape {α : Type} (f : State → α) (K : CommandH)
    (h3 : ∀ st p, f (programFlashStep st p) = f st)
    (h4 : ∀ st a, f (programFlashWrite st a) = f st)
    (h5 : ∀ st p ii, f (programEepromStep st p ii) = f st)
    (h6 : ∀ st, f (answerOk K st) = f st)
    (fuel : Nat) (st : State) :
    f (cmdProgram K fuel st).reached =
      f (if st.msgBuffer 0 = K.CMD_PROGRAM_FLASH_ISP then programFlashHead st else st) := by
  unfold cmdProgram programFlashHead
  simp only []
  split_ifs with hop haddr
  · have hl := programFlashLoop_inv f h3 fuel
      (programFlashErase (programFlashProgress st
        ((st.msgBuffer 1 <<< 8 ||| st.msgBuffer 2) % 65536))) 10
      ((st.msgBuffer 1 <<< 8 ||| st.msgBuffer 2) % 65536)
    cases hr : programFlashLoop fuel
      (programFlashErase (programFlashProgress st
        ((st.msgBuffer 1 <<< 8 ||| st.msgBuffer 2) % 65536))) 10
      ((st.msgBuffer 1 <<< 8 ||| st.msgBuffer 2) % 65536) with
    | ok s1 =>
      rw [hr] at hl
      simp only [Res.reached] at hl ⊢
      rw [h6, h4, hl]
    | hang s1 =>
      rw [hr] at hl
      simp only [Res.reached] at hl ⊢
      rw [hl]
    | jump s1 =>
      rw [hr] at hl
      simp only [Res.reached] at hl ⊢
      rw [hl]
  · simp only [Res.reached]
    rw [h6]
  · have hl := programEepromLoop_inv f h5 fuel st 10 ((st.address >>> 1) % 65536)
      ((st.msgBuffer 1 <<< 8 ||| st.msgBuffer 2) % 65536)
    cases hr : programEepromLoop fuel st 10 ((st.address >>> 1) % 65536)
      ((st.msgBuffer 1 <<< 8 ||| st.msgBuffer 2) % 65536) with
    | ok s1 =>
      rw [hr] at hl
      simp only [Res.reached] at hl ⊢
      rw [h6, hl]
    | hang s1 =>
      rw [hr] at hl
      simp only [Res.reached] at hl ⊢
      rw [hl]
    | jump s1 =>
      rw [hr] at hl
      simp only [Res.reached] at hl ⊢
      rw [hl]

/-- Program-Flash with `address` at or above `APP_END`: the bookkeeping, the
erase-ahead and the two-byte answer, no loop and no page write. -/
theorem cmdProgram_beyond (K : CommandH) (fuel : Nat) (st : State)
    (hop : st.msgBuffer 0 = K.CMD_PROGRAM_FLASH_ISP) (ha : APP_END ≤ st.address) :
    cmdProgram K fuel st = Res.ok (answerOk K (programFlashHead st)) := by
  unfold cmdProgram programFlashHead
  simp only []
  rw [if_pos hop, if_neg (by
    rw [programFlashErase_address, programFlashProgress_address]; omega)]

theorem programFlashProgress_frontier (st : State) (size : Nat) :
    (programFlashProgress st size).eraseAddress = st.eraseAddress ∧
    (programFlashProgress st size).spmLog = st.spmLog ∧
    (programFlashProgress st size).flash = st.flash ∧
    (programFlashProgress st size).address = st.address ∧
    (programFlashProgress st size).msgBuffer = st.msgBuffer ∧
    link (programFlashProgress st size) = link st := by
  unfold programFlashProgress
  split_ifs <;> exact ⟨rfl, rfl, rfl, rfl, rfl, rfl⟩

/-- The erase-ahead in full: below `APP_END` the page at `eraseAddress` is
erased and `eraseAddress` moves on by one page; otherwise nothing happens. -/
theorem programFlashHead_frontier (st : State) :
    (programFlashHead st).eraseAddress =
      (if st.eraseAddress < APP_END then st.eraseAddress + SPM_PAGESIZE else st.eraseAddress) ∧
    (programFlashHead st).spmLog =
      st.spmLog ++ (if st.eraseAddress < APP_END then [SpmOp.erase st.eraseAddress] else []) ∧
    (programFlashHead st).flash =
      (if st.eraseAddress < APP_END then (boot_page_erase st st.eraseAddress).flash
       else st.flash) ∧
    (programFlashHead st).address = st.address ∧
    (programFlashHead st).msgBuffer = st.msgBuffer ∧
    link (programFlashHead st) = link st := by
  obtain ⟨p1, p2, p3, p4, p5, p6⟩ := programFlashProgress_frontier st
    ((st.msgBuffer 1 <<< 8 ||| st.msgBuffer 2) % 65536)
  unfold programFlashHead programFlashErase
  rw [p1]
  by_cases h : st.eraseAddress < APP_END
  · rw [if_pos h, if_pos h, if_pos h, if_pos h]
    have hA := APP_END_eq
    refine ⟨?_, ?_, ?_, p4, p5, p6⟩
    · show ((programFlashProgress st _).eraseAddress + SPM_PAGESIZE) % 2 ^ 32 = _
      rw [p1]
      unfold SPM_PAGESIZE
      omega
    · show (programFlashProgress st _).spmLog ++
        [SpmOp.erase (programFlashProgress st _).eraseAddress] = _
      rw [p1, p2]
    · show (fun x => if pageBase (programFlashProgress st _).eraseAddress ≤ x ∧
          x < pageBase (programFlashProgress st _).eraseAddress + SPM_PAGESIZE then 0xFF
          else (programFlashProgress st _).flash x) = _
      rw [p1, p3]
      rfl
  · rw [if_neg h, if_neg h, if_neg h, if_neg h, List.append_nil]
    exact ⟨p1, p2, p3, p4, p5, p6⟩

/-! ## Theorems: the erase frontier and Program-Flash beyond the boundary -/

theorem beyondRequest_facts :
    beyondRequest.msgBuffer 0 = avr068.CMD_PROGRAM_FLASH_ISP ∧
    APP_END ≤ beyondRequest.address ∧ beyondRequest.eraseAddress = 0 ∧
    beyondRequest.flash 0 = 0x0C := by
  refine ⟨by decide, by decide, by decide, by decide⟩

/-- Program-Flash with `address` at or above `APP_END`, in full. -/
theorem processCommand_beyond (K : CommandH) (hK : K.valid) (fuel : Nat) (st : State)
    (hop : st.msgBuffer 0 = K.CMD_PROGRAM_FLASH_ISP) (ha : APP_END ≤ st.address) :
    processCommand K fuel st = Res.ok (answerOk K (programFlashHead st)) ∧
    (answerOk K (programFlashHead st)).spmLog =
      st.spmLog ++ (if st.eraseAddress < APP_END then [SpmOp.erase st.eraseAddress] else []) ∧
    (answerOk K (programFlashHead st)).flash =
      (if st.eraseAddress < APP_END then (boot_page_erase st st.eraseAddress).flash
       else st.flash) ∧
    (answerOk K (programFlashHead st)).address = st.address ∧
    (answerOk K (programFlashHead st)).msgLength = 2 ∧
    (answerOk K (programFlashHead st)).msgBuffer 0 = K.CMD_PROGRAM_FLASH_ISP ∧
    (answerOk K (programFlashHead st)).msgBuffer 1 = K.STATUS_CMD_OK ∧
    link (answerOk K (programFlashHead st)) = link st := by
  obtain ⟨-, f2, f3, f4, f5, f6⟩ := programFlashHead_frontier st
  refine ⟨?_, f2, f3, f4, rfl, ?_, ?_, f6⟩
  · rw [processCommand_programFlash K hK fuel st hop]
    exact cmdProgram_beyond K fuel st hop ha
  · show Function.update (programFlashHead st).msgBuffer 1 K.STATUS_CMD_OK 0 = _
    rw [Function.update_noteq (by decide), f5, hop]
  · show Function.update (programFlashHead st).msgBuffer 1 K.STATUS_CMD_OK 1 = _
    rw [Function.update_same]

/-- C16, as amended.  Program-Flash with `address` at or above `APP_END`
returns having written nothing: no page fill and no page write; the only
hardware operation is the erase-ahead, so the flash is as before except that
the page at `eraseAddress` is erased when `eraseAddress` is below `APP_END`.
With `eraseAddress` at or above `APP_END` too, the whole flash is as
before. -/
theorem write_beyond_boundary (K : CommandH) (hK : K.valid) (fuel : Nat) (st : State)
    (hop : st.msgBuffer 0 = K.CMD_PROGRAM_FLASH_ISP) (ha : APP_END ≤ st.address) :
    ∃ st1, processCommand K fuel st = Res.ok st1 ∧
      st1.spmLog = st.spmLog ++
        (if st.eraseAddress < APP_END then [SpmOp.erase st.eraseAddress] else []) ∧
      (∀ x, st1.flash x =
        if st.eraseAddress < APP_END ∧ pageBase st.eraseAddress ≤ x ∧
            x < pageBase st.eraseAddress + SPM_PAGESIZE then 0xFF
        else st.flash x) ∧
      (APP_END ≤ st.eraseAddress → st1.flash = st.flash) := by
  obtain ⟨h1, h2, h3, -⟩ := processCommand_beyond K hK fuel st hop ha
  refine ⟨_, h1, h2, ?_, ?_⟩
  · intro x
    rw [h3]
    by_cases he : st.eraseAddress < APP_END
    · rw [if_pos he]
      show (if pageBase st.eraseAddress ≤ x ∧ x < pageBase st.eraseAddress + SPM_PAGESIZE
        then 0xFF else st.flash x) = _
      by_cases hx : pageBase st.eraseAddress ≤ x ∧ x < pageBase st.eraseAddress + SPM_PAGESIZE
      · rw [if_pos hx, if_pos ⟨he, hx⟩]
      · rw [if_neg hx, if_neg (fun h => hx h.2)]
    · rw [if_neg he, if_neg (fun h => he h.1)]
  · intro he
    rw [h3, if_neg (by omega)]

/-- Instance of C16: `address = APP_END` with the erase frontier at 0. -/
theorem write_beyond_boundary_witness :
    avr068.valid ∧ beyondRequest.msgBuffer 0 = avr068.CMD_PROGRAM_FLASH_ISP ∧
    APP_END ≤ beyondRequest.address ∧
    ∃ st1, processCommand avr068 0 beyondRequest = Res.ok st1 ∧
      st1.spmLog = beyondRequest.spmLog ++
        (if beyondRequest.eraseAddress < APP_END then [SpmOp.erase beyondRequest.eraseAddress]
         else []) ∧
      (∀ x, st1.flash x =
        if beyondRequest.eraseAddress < APP_END ∧ pageBase beyondRequest.eraseAddress ≤ x ∧
            x < pageBase beyondRequest.eraseAddress + SPM_PAGESIZE then 0xFF
        else beyondRequest.flash x) ∧
      (APP_END ≤ beyondRequest.eraseAddress → st1.flash = beyondRequest.flash) :=
  ⟨by decide, beyondRequest_facts.1, beyondRequest_facts.2.1,
   write_beyond_boundary avr068 (by decide) 0 beyondRequest beyondRequest_facts.1
     beyondRequest_facts.2.1⟩

/-- C16 fails as stated: with `address = APP_END` and the erase frontier at 0 a
Program-Flash command erases page 0; the flash byte at address 0 goes from
`0x0C` to `0xFF`. -/
theorem write_beyond_boundary_erases :
    APP_END ≤ beyondRequest.address ∧
    beyondRequest.msgBuffer 0 = avr068.CMD_PROGRAM_FLASH_ISP ∧
    beyondRequest.flash 0 = 0x0C ∧
    ∃ st1, processCommand avr068 0 beyondRequest = Res.ok st1 ∧ st1.flash 0 = 0xFF := by
  obtain ⟨h1, h2, h3, h4⟩ := beyondRequest_facts
  obtain ⟨p1, -, p3, -⟩ := processCommand_beyond avr068 (by decide) 0 beyondRequest h1 h2
  refine ⟨h2, h1, h4, _, p1, ?_⟩
  rw [p3, h3]
  decide

/-- C17. A boundary violation is reported as OK: Program-Flash with `address`
at or above `APP_END` returns, the hardware log gains no page fill and no page
write (only the erase-ahead, if any), `address` is unchanged, and the reply has
length 2 with the opcode and `STATUS_CMD_OK`; these two bytes are what is sent
in the answer frame. -/
theorem boundary_violation_ok (K : CommandH) (hK : K.valid) (fuel : Nat) (st : State)
    (hser : st.selectedSerial = 0 ∨ st.selectedSerial = 2)
    (hop : st.msgBuffer 0 = K.CMD_PROGRAM_FLASH_ISP) (ha : APP_END ≤ st.address) :
    ∃ st1, processCommand K fuel st = Res.ok st1 ∧
      st1.spmLog = st.spmLog ++
        (if st.eraseAddress < APP_END then [SpmOp.erase st.eraseAddress] else []) ∧
      st1.address = st.address ∧ st1.msgLength = 2 ∧
      st1.msgBuffer 0 = K.CMD_PROGRAM_FLASH_ISP ∧ st1.msgBuffer 1 = K.STATUS_CMD_OK ∧
      (sendAnswer K st1).tx =
        st.tx ++ frame K st.seqNum [K.CMD_PROGRAM_FLASH_ISP, K.STATUS_CMD_OK] := by
  obtain ⟨h1, h2, -, h4, h5, h6, h7, h8⟩ := processCommand_beyond K hK fuel st hop ha
  obtain ⟨l1, l2, l3⟩ := link_eq h8
  refine ⟨_, h1, h2, h4, h5, h6, h7, ?_⟩
  rw [sendAnswer_two K _ _ _ (by rw [l2]; exact hser) h5 h6 h7, l3, l1]

/-- Instance of C17: `address = APP_END`, port 0. -/
theorem boundary_violation_ok_witness :
    avr068.valid ∧ (beyondRequest.selectedSerial = 0 ∨ beyondRequest.selectedSerial = 2) ∧
    beyondRequest.msgBuffer 0 = avr068.CMD_PROGRAM_FLASH_ISP ∧
    APP_END ≤ beyondRequest.address ∧
    ∃ st1, processCommand avr068 0 beyondRequest = Res.ok st1 ∧
      st1.spmLog = beyondRequest.spmLog ++
        (if beyondRequest.eraseAddress < APP_END then [SpmOp.erase beyondRequest.eraseAddress]
         else []) ∧
      st1.address = beyondRequest.address ∧ st1.msgLength = 2 ∧
      st1.msgBuffer 0 = avr068.CMD_PROGRAM_FLASH_ISP ∧
      st1.msgBuffer 1 = avr068.STATUS_CMD_OK ∧
      (sendAnswer avr068 st1).tx =
        beyondRequest.tx ++
          frame avr068 beyondRequest.seqNum
            [avr068.CMD_PROGRAM_FLASH_ISP, avr068.STATUS_CMD_OK] :=
  ⟨by decide, Or.inl (by decide), beyondRequest_facts.1, beyondRequest_facts.2.1,
   boundary_violation_ok avr068 (by decide) 0 beyondRequest (Or.inl (by decide))
     beyondRequest_facts.1 beyondRequest_facts.2.1⟩

/-! ## Theorems: progress bookkeeping -/

theorem progress_eq {a b : State} (h : progress a = progress b) :
    a.flashSize = b.flashSize ∧ a.flashCounter = b.flashCounter ∧
    a.flashAddressLast = b.flashAddressLast ∧ a.flashOperation = b.flashOperation := by
  simp only [progress, Prod.mk.injEq] at h
  exact h

theorem storeAt_zero (buf : Nat → Nat) (P : List Nat) (j : Nat) (h : j < P.length) :
    storeAt buf 0 P j = P.getD j 0 := by
  rw [storeAt_apply, if_pos (by omega), Nat.sub_zero]

/-- The Program-Flash loop on `n` words: it ends and `address` has advanced by
`2 * n`. -/
theorem programFlashLoop_address (fuel : Nat) : ∀ (n : Nat) (st : State) (p : Nat),
    1 ≤ n → n ≤ fuel → 2 * n < 65536 → st.address + 2 * n < 2 ^ 32 →
    ∃ st1, programFlashLoop fuel st p (2 * n) = Res.ok st1 ∧
      st1.address = st.address + 2 * n := by
  induction fuel with
  | zero => intro n st p h1 h2; omega
  | succ fuel ih =>
    intro n st p h1 h2 h3 h4
    have haddr : (programFlashStep st p).address = st.address + 2 := by
      show (st.address + 2) % 2 ^ 32 = st.address + 2
      exact Nat.mod_eq_of_lt (by omega)
    simp only [programFlashLoop]
    by_cases hn : n = 1
    · subst hn
      rw [if_neg (by decide)]
      exact ⟨_, rfl, haddr⟩
    · have hsz : (2 * n + 65536 - 2) % 65536 = 2 * (n - 1) := by omega
      rw [hsz, if_pos (by omega)]
      obtain ⟨st1, e1, e2⟩ := ih (n - 1) (programFlashStep st p) (p + 2) (by omega) (by omega)
        (by omega) (by rw [haddr]; omega)
      exact ⟨st1, e1, by rw [e2, haddr]; omega⟩

theorem programFlashProgress_progress (st : State) (z : Nat) :
    (programFlashProgress st z).flashSize = st.flashSize ∧
    (programFlashProgress st z).flashCounter =
      (if st.flashSize ≠ 0 then
        (if st.address = 0 then z
         else if st.address ≠ st.flashAddressLast then (st.flashCounter + z) % 2 ^ 32
         else st.flashCounter)
       else st.flashCounter) ∧
    (programFlashProgress st z).flashAddressLast =
      (if st.flashSize ≠ 0 then st.address else st.flashAddressLast) ∧
    (programFlashProgress st z).flashOperation =
      (if st.flashSize ≠ 0 ∧ st.address = 0 then 1 else st.flashOperation) ∧
    (programFlashProgress st z).isLeave = st.isLeave := by
  unfold programFlashProgress
  by_cases h0 : st.flashSize = 0
  · simp [h0]
  · by_cases h1 : st.address = 0
    · simp [h0, h1]
    · by_cases h2 : st.address = st.flashAddressLast
      · simp [h0, h1, ← h2]
      · simp [h0, h1, h2]

theorem programFlashErase_progress (st : State) :
    progress (programFlashErase st) = progress st ∧
    (programFlashErase st).isLeave = st.isLeave := by
  unfold programFlashErase
  split_ifs <;> exact ⟨rfl, rfl⟩

/-- Program-Flash of an even number of bytes, at least 2, below `APP_END`: the
command returns, `address` has advanced by the size and the progress variables
are those the bookkeeping of lines 1339-1350 set. -/
theorem cmdProgram_below (K : CommandH) (fuel : Nat) (st : State)
    (hop : st.msgBuffer 0 = K.CMD_PROGRAM_FLASH_ISP)
    (hz2 : (st.msgBuffer 1 <<< 8 ||| st.msgBuffer 2) % 65536 % 2 = 0)
    (hz : 2 ≤ (st.msgBuffer 1 <<< 8 ||| st.msgBuffer 2) % 65536)
    (ha : st.address < APP_END) (hfuel : 32768 ≤ fuel) :
    ∃ st1, cmdProgram K fuel st = Res.ok st1 ∧
      st1.address = st.address + (st.msgBuffer 1 <<< 8 ||| st.msgBuffer 2) % 65536 ∧
      progress st1 = progress (programFlashProgress st
        ((st.msgBuffer 1 <<< 8 ||| st.msgBuffer 2) % 65536)) ∧
      st1.isLeave = st.isLeave := by
  have hA := APP_END_eq
  have hlt : (st.msgBuffer 1 <<< 8 ||| st.msgBuffer 2) % 65536 < 65536 :=
    Nat.mod_lt _ (by decide)
  generalize hzdef : (st.msgBuffer 1 <<< 8 ||| st.msgBuffer 2) % 65536 = z at *
  have hh : programFlashHead st = programFlashErase (programFlashProgress st z) := by
    unfold programFlashHead; rw [hzdef]
  have hha : (programFlashErase (programFlashProgress st z)).address = st.address := by
    rw [programFlashErase_address, programFlashProgress_address]
  obtain ⟨s1, e1, e2⟩ := programFlashLoop_address fuel (z / 2)
    (programFlashErase (programFlashProgress st z)) 10 (by omega) (by omega) (by omega)
    (by rw [hha]; omega)
  have hz3 : 2 * (z / 2) = z := by omega
  rw [hz3] at e1 e2
  have hres : cmdProgram K fuel st = Res.ok (answerOk K (programFlashWrite s1 st.address)) := by
    unfold cmdProgram
    simp only []
    rw [hzdef, if_pos hop, if_pos (by rw [hha]; exact ha), e1]
  have hp := cmdProgram_shape progress K (fun _ _ => rfl) (fun _ _ => rfl) (fun _ _ _ => rfl)
    (fun _ => rfl) fuel st
  have hq := cmdProgram_shape (fun s => s.isLeave) K (fun _ _ => rfl) (fun _ _ => rfl)
    (fun _ _ _ => rfl) (fun _ => rfl) fuel st
  rw [hres, if_pos hop, hh] at hp hq
  simp only [Res.reached] at hp hq
  refine ⟨_, hres, ?_, ?_, ?_⟩
  · show s1.address = _
    rw [e2, hha]
  · rw [hp, (programFlashErase_progress _).1]
  · rw [hq, (programFlashErase_progress _).2, (programFlashProgress_progress st z).2.2.2.2]

theorem accepted_session (st : State) (s : Nat) (P : List Nat) (ck : Nat) :
    session (accepted st s P ck) = session st := rfl

/-- One Program-Flash frame for an even number of bytes, at least 2, below
`APP_END`, handled by the main loop. -/
theorem mainLoop_programAny (K : CommandH) (hK : K.valid) (fuel n : Nat) (st : State)
    (s : Nat) (P rest : List Nat) (hl : st.isLeave = 0) (hfuel : 32768 ≤ fuel)
    (hP : 3 ≤ P.length ∧ P.length ≤ 285 ∧ P.getD 0 0 = K.CMD_PROGRAM_FLASH_ISP ∧
      sizeField P % 2 = 0 ∧ 2 ≤ sizeField P)
    (ha : st.address < APP_END) :
    ∃ st1, mainLoop K fuel (n + 1) st (frame K s P ++ rest) = mainLoop K fuel n st1 rest ∧
      st1.isLeave = 0 ∧ st1.address = st.address + sizeField P ∧
      progress st1 = progress (programFlashProgress st (sizeField P)) := by
  obtain ⟨hP1, hP2, hP3, hP4, hP5⟩ := hP
  obtain ⟨a1, -, a3, a4, a5, a6, a7, -, -⟩ :=
    session_eq ((accepted_session (receiving st) s P (xorAll (frameBody K s P))).trans
      (receiving_session st))
  have m0 : (accepted (receiving st) s P (xorAll (frameBody K s P))).msgBuffer 0
      = K.CMD_PROGRAM_FLASH_ISP := by
    show storeAt (receiving st).msgBuffer 0 P 0 = _
    rw [storeAt_zero _ _ _ (by omega), hP3]
  have mz : ((accepted (receiving st) s P (xorAll (frameBody K s P))).msgBuffer 1 <<< 8 |||
      (accepted (receiving st) s P (xorAll (frameBody K s P))).msgBuffer 2) % 65536
      = sizeField P := by
    show (storeAt (receiving st).msgBuffer 0 P 1 <<< 8 |||
      storeAt (receiving st).msgBuffer 0 P 2) % 65536 = _
    rw [storeAt_zero _ _ _ (by omega), storeAt_zero _ _ _ (by omega)]
    rfl
  obtain ⟨st2, c1, c2, c3, c4⟩ := cmdProgram_below K fuel
    (accepted (receiving st) s P (xorAll (frameBody K s P))) m0
    (by rw [mz]; exact hP4) (by rw [mz]; exact hP5) (by rw [a1]; exact ha) hfuel
  rw [mz] at c2 c3
  obtain ⟨b1, -, b3, b4, b5, b6, b7, -, -⟩ := session_eq (sendAnswer_session K st2)
  obtain ⟨q1, q2, q3, q4⟩ := progress_eq c3
  obtain ⟨r1, r2, r3, r4, -⟩ := programFlashProgress_progress
    (accepted (receiving st) s P (xorAll (frameBody K s P))) (sizeField P)
  obtain ⟨t1, t2, t3, t4, -⟩ := programFlashProgress_progress st (sizeField P)
  refine ⟨sendAnswer K st2, ?_, ?_, ?_, ?_⟩
  · apply mainLoop_frame K fuel n st st2 s P rest hl (by omega) hP2
    rw [processCommand_programFlash K hK fuel _ m0]
    exact c1
  · rw [b7, c4, a7]; exact hl
  · rw [b1, c2, a1]
  · show ((sendAnswer K st2).flashSize, (sendAnswer K st2).flashCounter,
      (sendAnswer K st2).flashAddressLast, (sendAnswer K st2).flashOperation) =
      ((programFlashProgress st (sizeField P)).flashSize,
       (programFlashProgress st (sizeField P)).flashCounter,
       (programFlashProgress st (sizeField P)).flashAddressLast,
       (programFlashProgress st (sizeField P)).flashOperation)
    rw [b3, b4, b5, b6, q1, q2, q3, q4, r1, r2, r3, r4, t1, t2, t3, t4, a1, a3, a4, a5, a6]

/-- A run of Program-Flash frames behind the first one of a transfer: the
counter follows `address`. -/
theorem mainLoop_programs_progress (K : CommandH) (hK : K.valid) (fuel s : Nat)
    (hfuel : 32768 ≤ fuel) : ∀ (Ps : List (List Nat)) (st : State) (n : Nat) (rest : List Nat),
    st.isLeave = 0 → st.flashSize ≠ 0 → st.flashOperation = 1 →
    st.flashAddressLast < st.address → st.flashCounter = st.address →
    (∀ P ∈ Ps, 3 ≤ P.length ∧ P.length ≤ 285 ∧ P.getD 0 0 = K.CMD_PROGRAM_FLASH_ISP ∧
      sizeField P % 2 = 0 ∧ 2 ≤ sizeField P) →
    (∀ i, i < Ps.length → st.address + ((Ps.take i).map sizeField).sum < APP_END) →
    ∃ st1, mainLoop K fuel (n + Ps.length) st (wire K s Ps ++ rest) = mainLoop K fuel n st1 rest ∧
      st1.isLeave = 0 ∧ st1.flashSize = st.flashSize ∧ st1.flashOperation = 1 ∧
      st1.flashCounter = st.address + (Ps.map sizeField).sum := by
  intro Ps
  induction Ps with
  | nil =>
    intro st n rest hl h0 hop hlast hcnt _ _
    exact ⟨st, rfl, hl, rfl, hop, by simpa using hcnt⟩
  | cons P Ps ih =>
    intro st n rest hl h0 hop hlast hcnt hPs hbelow
    have hA := APP_END_eq
    have hP := hPs P (List.mem_cons_self _ _)
    have ha : st.address < APP_END := by
      have := hbelow 0 (by simp)
      simpa using this
    have hzlt : sizeField P < 65536 := Nat.mod_lt _ (by decide)
    obtain ⟨st1, a1, a2, a3, a4⟩ := mainLoop_programAny K hK fuel (n + Ps.length) st s P
      (wire K s Ps ++ rest) hl hfuel hP ha
    obtain ⟨q1, q2, q3, q4⟩ := progress_eq a4
    obtain ⟨r1, r2, r3, r4, -⟩ := programFlashProgress_progress st (sizeField P)
    have hne : st.address ≠ 0 := by omega
    have hne2 : st.address ≠ st.flashAddressLast := by omega
    rw [r1] at q1
    rw [r2, if_pos h0, if_neg hne, if_pos hne2, hcnt,
      Nat.mod_eq_of_lt (by omega)] at q2
    rw [r3, if_pos h0] at q3
    rw [r4, if_neg (fun h => hne h.2), hop] at q4
    obtain ⟨st2, c1, c2, c3, c4, c5⟩ := ih st1 n rest a2 (by rw [q1]; exact h0) q4
      (by rw [q3, a3]; omega) (by rw [q2, a3])
      (fun P' hP' => hPs P' (List.mem_cons_of_mem _ hP'))
      (fun i hi => by
        have := hbelow (i + 1) (by simpa using hi)
        simp only [List.take_succ_cons, List.map_cons, List.sum_cons] at this
        rw [a3]; omega)
    refine ⟨st2, ?_, c2, by rw [c3, q1], c4, ?_⟩
    · have e1 : n + (P :: Ps).length = (n + Ps.length) + 1 := by simp; omega
      have e2 : wire K s (P :: Ps) ++ rest = frame K s P ++ (wire K s Ps ++ rest) := by
        simp only [wire, List.append_assoc]
      rw [e1, e2, a1, c1]
    · rw [c5, a3]
      simp only [List.map_cons, List.sum_cons]
      omega

/-- C18. Write progress: with `flashSize = N`, `N` not 0, and `address = 0`,
the host sends Program-Flash frames whose size fields are even, at least 2 and
sum to `N`, every frame starting below `APP_END` (the address advances by the
size of each frame).  After the last frame `flashCounter = N` and
`flashOperation = 1`. -/
theorem write_progress (K : CommandH) (hK : K.valid) (fuel s N : Nat) (st : State)
    (Ps : List (List Nat)) (hfuel : 32768 ≤ fuel) (hl : st.isLeave = 0)
    (haddr : st.address = 0) (hN : st.flashSize = N) (hN0 : N ≠ 0)
    (hPs : ∀ P ∈ Ps, 3 ≤ P.length ∧ P.length ≤ 285 ∧ P.getD 0 0 = K.CMD_PROGRAM_FLASH_ISP ∧
      sizeField P % 2 = 0 ∧ 2 ≤ sizeField P)
    (hsum : (Ps.map sizeField).sum = N)
    (hbelow : ∀ i, i < Ps.length → ((Ps.take i).map sizeField).sum < APP_END) :
    (mainLoop K fuel Ps.length st (wire K s Ps)).reached.flashCounter = N ∧
    (mainLoop K fuel Ps.length st (wire K s Ps)).reached.flashOperation = 1 := by
  cases Ps with
  | nil => simp at hsum; exact absurd hsum.symm hN0
  | cons P Ps =>
    have hP := hPs P (List.mem_cons_self _ _)
    have ha : st.address < APP_END := by rw [haddr, APP_END_eq]; decide
    obtain ⟨st1, a1, a2, a3, a4⟩ := mainLoop_programAny K hK fuel (0 + Ps.length) st s P
      (wire K s Ps ++ []) hl hfuel hP ha
    obtain ⟨q1, q2, q3, q4⟩ := progress_eq a4
    obtain ⟨r1, r2, r3, r4, -⟩ := programFlashProgress_progress st (sizeField P)
    have h0 : st.flashSize ≠ 0 := by rw [hN]; exact hN0
    rw [r1] at q1
    rw [r2, if_pos h0, if_pos haddr] at q2
    rw [r3, if_pos h0, haddr] at q3
    rw [r4, if_pos ⟨h0, haddr⟩] at q4
    rw [haddr, Nat.zero_add] at a3
    obtain ⟨st2, c1, c2, c3, c4, c5⟩ := mainLoop_programs_progress K hK fuel s hfuel Ps st1 0 []
      a2 (by rw [q1]; exact h0) q4 (by rw [q3, a3]; omega) (by rw [q2, a3])
      (fun P' hP' => hPs P' (List.mem_cons_of_mem _ hP'))
      (fun i hi => by
        have := hbelow (i + 1) (by simpa using hi)
        simp only [List.take_succ_cons, List.map_cons, List.sum_cons] at this
        rw [a3]; exact this)
    have e1 : (P :: Ps).length = (0 + Ps.length) + 1 := by simp
    have e2 : wire K s (P :: Ps) = frame K s P ++ (wire K s Ps ++ []) := by
      simp only [wire, List.append_nil]
    have hrun : mainLoop K fuel (P :: Ps).length st (wire K s (P :: Ps)) = Res.hang st2 := by
      rw [e1, e2, a1, c1]; rfl
    rw [hrun]
    simp only [Res.reached]
    refine ⟨?_, c4⟩
    rw [c5, a3, ← hsum]
    simp only [List.map_cons, List.sum_cons]

/-- Instance of C18: 6 bytes declared, sent as packets of 2 and 4 bytes. -/
theorem write_progress_witness :
    avr068.valid ∧ 32768 ≤ 32768 ∧
    ({ resetState with flashSize := 6 } : State).isLeave = 0 ∧
    ({ resetState with flashSize := 6 } : State).address = 0 ∧
    ({ resetState with flashSize := 6 } : State).flashSize = 6 ∧
    (mainLoop avr068 32768
        [programFlashMsg avr068 [1, 2], programFlashMsg avr068 [3, 4, 5, 6]].length
        { resetState with flashSize := 6 }
        (wire avr068 1 [programFlashMsg avr068 [1, 2], programFlashMsg avr068 [3, 4, 5, 6]])
      ).reached.flashCounter = 6 ∧
    (mainLoop avr068 32768
        [programFlashMsg avr068 [1, 2], programFlashMsg avr068 [3, 4, 5, 6]].length
        { resetState with flashSize := 6 }
        (wire avr068 1 [programFlashMsg avr068 [1, 2], programFlashMsg avr068 [3, 4, 5, 6]])
      ).reached.flashOperation = 1 :=
  ⟨by decide, by decide, rfl, rfl, rfl,
   write_progress avr068 (by decide) 32768 1 6 { resetState with flashSize := 6 }
     [programFlashMsg avr068 [1, 2], programFlashMsg avr068 [3, 4, 5, 6]]
     (by decide) rfl rfl rfl (by decide) (by decide) (by decide) (by decide)⟩

/-! ## Theorems: Set-upload-size -/

/-- With distinct case labels the Set-upload-size opcode selects its case. -/
theorem processCommand_setUploadSize (K : CommandH) (hK : K.valid) (fuel : Nat) (st : State)
    (hop : st.msgBuffer 0 = K.CMD_SET_UPLOAD_SIZE_PRUSA3D) :
    processCommand K fuel st = Res.ok (cmdSetUploadSize K st) := by
  unfold processCommand
  rw [hop]
  have n0 : K.CMD_SET_UPLOAD_SIZE_PRUSA3D ≠ K.CMD_SPI_MULTI :=
    label_ne K hK 12 0 (by decide) (by decide) (by decide)
  rw [if_neg n0]
  have n1 : K.CMD_SET_UPLOAD_SIZE_PRUSA3D ≠ K.CMD_SIGN_ON :=
    label_ne K hK 12 1 (by decide) (by decide) (by decide)
  rw [if_neg n1]
  have n2 : K.CMD_SET_UPLOAD_SIZE_PRUSA3D ≠ K.CMD_GET_PARAMETER :=
    label_ne K hK 12 2 (by decide) (by decide) (by decide)
  rw [if_neg n2]
  have n3 : K.CMD_SET_UPLOAD_SIZE_PRUSA3D ≠ K.CMD_LEAVE_PROGMODE_ISP :=
    label_ne K hK 12 3 (by decide) (by decide) (by decide)
  rw [if_neg n3]
  have n4 : K.CMD_SET_UPLOAD_SIZE_PRUSA3D ≠ K.CMD_SET_PARAMETER :=
    label_ne K hK 12 4 (by decide) (by decide) (by decide)
  rw [if_neg n4]
  have n5 : K.CMD_SET_UPLOAD_SIZE_PRUSA3D ≠ K.CMD_ENTER_PROGMODE_ISP :=
    label_ne K hK 12 5 (by decide) (by decide) (by decide)
  rw [if_neg n5]
  have n6 : K.CMD_SET_UPLOAD_SIZE_PRUSA3D ≠ K.CMD_READ_SIGNATURE_ISP :=
    label_ne K hK 12 6 (by decide) (by decide) (by decide)
  rw [if_neg n6]
  have n7 : K.CMD_SET_UPLOAD_SIZE_PRUSA3D ≠ K.CMD_READ_LOCK_ISP :=
    label_ne K hK 12 7 (by decide) (by decide) (by decide)
  rw [if_neg n7]
  have n8 : K.CMD_SET_UPLOAD_SIZE_PRUSA3D ≠ K.CMD_READ_FUSE_ISP :=
    label_ne K hK 12 8 (by decide) (by decide) (by decide)
  rw [if_neg n8]
  have n9 : K.CMD_SET_UPLOAD_SIZE_PRUSA3D ≠ K.CMD_PROGRAM_LOCK_ISP :=
    label_ne K hK 12 9 (by decide) (by decide) (by decide)
  rw [if_neg n9]
  have n10 : K.CMD_SET_UPLOAD_SIZE_PRUSA3D ≠ K.CMD_CHIP_ERASE_ISP :=
    label_ne K hK 12 10 (by decide) (by decide) (by decide)
  rw [if_neg n10]
  have n11 : K.CMD_SET_UPLOAD_SIZE_PRUSA3D ≠ K.CMD_LOAD_ADDRESS :=
    label_ne K hK 12 11 (by decide) (by decide) (by decide)
  rw [if_neg n11]
  rw [if_pos rfl]

/-- C20, as amended.  Set-upload-size does not reset the progress bookkeeping:
after the command `flashCounter` and `flashOperation` have the values they had
before. -/
theorem upload_size_keeps_progress (K : CommandH) (hK : K.valid) (fuel : Nat) (st : State)
    (hop : st.msgBuffer 0 = K.CMD_SET_UPLOAD_SIZE_PRUSA3D) :
    ∃ st1, processCommand K fuel st = Res.ok st1 ∧
      st1.flashCounter = st.flashCounter ∧ st1.flashOperation = st.flashOperation := by
  exact ⟨_, processCommand_setUploadSize K hK fuel st hop, rfl, rfl⟩

theorem uploadSizeRequest_op :
    uploadSizeRequest.msgBuffer 0 = avr068.CMD_SET_UPLOAD_SIZE_PRUSA3D := by decide

/-- Instance of C20: an upload in progress. -/
theorem upload_size_keeps_progress_witness :
    avr068.valid ∧ uploadSizeRequest.msgBuffer 0 = avr068.CMD_SET_UPLOAD_SIZE_PRUSA3D ∧
    ∃ st1, processCommand avr068 0 uploadSizeRequest = Res.ok st1 ∧
      st1.flashCounter = uploadSizeRequest.flashCounter ∧
      st1.flashOperation = uploadSizeRequest.flashOperation :=
  ⟨by decide, uploadSizeRequest_op,
   upload_size_keeps_progress avr068 (by decide) 0 uploadSizeRequest uploadSizeRequest_op⟩

/-- C20 fails as stated: Set-upload-size received with `flashCounter = 512`
and `flashOperation = 1` leaves both as they are (and sets `flashSize`). -/
theorem upload_size_no_reset :
    uploadSizeRequest.msgBuffer 0 = avr068.CMD_SET_UPLOAD_SIZE_PRUSA3D ∧
    ∃ st1, processCommand avr068 0 uploadSizeRequest = Res.ok st1 ∧
      st1.flashSize = 4096 ∧ st1.flashCounter = 512 ∧ st1.flashOperation = 1 :=
  ⟨uploadSizeRequest_op, _,
   processCommand_setUploadSize avr068 (by decide) 0 uploadSizeRequest uploadSizeRequest_op,
   by decide, by decide, by decide⟩

/-! ## Theorems: progress bookkeeping of Read-Flash -/

/-- What the read case leaves of a function of the state that the loops and
the stores into `msgBuffer` do not touch: its value behind the header and, for
Read-Flash, the bookkeeping. -/
theorem cmdRead_shape {α : Type} (f : State → α) (K : CommandH)
    (h3 : ∀ st p, f (readFlashStep st p) = f st)
    (h4 : ∀ st p, f (readEepromStep st p) = f st)
    (h5 : ∀ st p v, f (setBuf st p v) = f st)
    (fuel : Nat) (st : State) :
    f (cmdRead K fuel st).reached =
      f (if st.msgBuffer 0 = K.CMD_READ_FLASH_ISP then
          readFlashProgress
            (readHeader K st ((st.msgBuffer 1 <<< 8 ||| st.msgBuffer 2) % 65536))
            ((st.msgBuffer 1 <<< 8 ||| st.msgBuffer 2) % 65536)
         else readHeader K st ((st.msgBuffer 1 <<< 8 ||| st.msgBuffer 2) % 65536)) := by
  unfold cmdRead
  simp only []
  by_cases hop : st.msgBuffer 0 = K.CMD_READ_FLASH_ISP
  · have hop2 : (readHeader K st ((st.msgBuffer 1 <<< 8 ||| st.msgBuffer 2) % 65536)).msgBuffer 0
        = K.CMD_READ_FLASH_ISP := hop
    rw [if_pos hop2, if_pos hop]
    have hl := readFlashLoop_inv f h3 fuel
      (readFlashProgress (readHeader K st ((st.msgBuffer 1 <<< 8 ||| st.msgBuffer 2) % 65536))
        ((st.msgBuffer 1 <<< 8 ||| st.msgBuffer 2) % 65536)) 2
      ((st.msgBuffer 1 <<< 8 ||| st.msgBuffer 2) % 65536)
    cases hr : readFlashLoop fuel
      (readFlashProgress (readHeader K st ((st.msgBuffer 1 <<< 8 ||| st.msgBuffer 2) % 65536))
        ((st.msgBuffer 1 <<< 8 ||| st.msgBuffer 2) % 65536)) 2
      ((st.msgBuffer 1 <<< 8 ||| st.msgBuffer 2) % 65536) with
    | ok s1 =>
      obtain ⟨s1, q⟩ := s1
      rw [hr] at hl
      simp only [Res.reached, Res.reachedFst] at hl ⊢
      rw [h5, hl]
    | hang s1 =>
      rw [hr] at hl
      simp only [Res.reached, Res.reachedFst] at hl ⊢
      rw [hl]
    | jump s1 =>
      rw [hr] at hl
      simp only [Res.reached, Res.reachedFst] at hl ⊢
      rw [hl]
  · have hop2 : ¬ (readHeader K st ((st.msgBuffer 1 <<< 8 ||| st.msgBuffer 2) % 65536)).msgBuffer 0
        = K.CMD_READ_FLASH_ISP := hop
    rw [if_neg hop2, if_neg hop]
    have hl := readEepromLoop_inv f h4 fuel
      (readHeader K st ((st.msgBuffer 1 <<< 8 ||| st.msgBuffer 2) % 65536)) 2
      ((st.msgBuffer 1 <<< 8 ||| st.msgBuffer 2) % 65536)
    cases hr : readEepromLoop fuel
      (readHeader K st ((st.msgBuffer 1 <<< 8 ||| st.msgBuffer 2) % 65536)) 2
      ((st.msgBuffer 1 <<< 8 ||| st.msgBuffer 2) % 65536) with
    | ok s1 =>
      obtain ⟨s1, q⟩ := s1
      rw [hr] at hl
      simp only [Res.reached, Res.reachedFst] at hl ⊢
      rw [h5, hl]
    | hang s1 =>
      rw [hr] at hl
      simp only [Res.reached, Res.reachedFst] at hl ⊢
      rw [hl]
    | jump s1 =>
      rw [hr] at hl
      simp only [Res.reached, Res.reachedFst] at hl ⊢
      rw [hl]

theorem readFlashProgress_progress (st : State) (z : Nat) :
    (readFlashProgress st z).flashSize = st.flashSize ∧
    (readFlashProgress st z).flashCounter =
      (if st.flashSize ≠ 0 then
        (if st.address = 0 ∧ st.flashOperation = 1 then z else (st.flashCounter + z) % 2 ^ 32)
       else st.flashCounter) ∧
    (readFlashProgress st z).flashOperation =
      (if st.flashSize ≠ 0 ∧ st.address = 0 ∧ st.flashOperation = 1 then 2
       else st.flashOperation) ∧
    (readFlashProgress st z).isLeave = st.isLeave := by
  unfold readFlashProgress
  by_cases h0 : st.flashSize = 0
  · simp [h0]
  · by_cases h1 : st.address = 0 ∧ st.flashOperation = 1
    · simp [h0, h1]
    · simp only [ne_eq, h0, not_false_eq_true, if_true, if_neg h1, true_and]

/-- The progress variables in the state a Read-Flash command reaches, whether
its loop ends or not. -/
theorem cmdRead_progress (K : CommandH) (fuel : Nat) (st : State)
    (hop : st.msgBuffer 0 = K.CMD_READ_FLASH_ISP) :
    (cmdRead K fuel st).reached.flashSize = st.flashSize ∧
    (cmdRead K fuel st).reached.flashCounter =
      (if st.flashSize ≠ 0 then
        (if st.address = 0 ∧ st.flashOperation = 1 then
          (st.msgBuffer 1 <<< 8 ||| st.msgBuffer 2) % 65536
         else (st.flashCounter + (st.msgBuffer 1 <<< 8 ||| st.msgBuffer 2) % 65536) % 2 ^ 32)
       else st.flashCounter) ∧
    (cmdRead K fuel st).reached.flashOperation =
      (if st.flashSize ≠ 0 ∧ st.address = 0 ∧ st.flashOperation = 1 then 2
       else st.flashOperation) ∧
    (cmdRead K fuel st).reached.isLeave = st.isLeave := by
  have hp := cmdRead_shape progress K (fun _ _ => rfl) (fun _ _ => rfl) (fun _ _ _ => rfl)
    fuel st
  have hq := cmdRead_shape (fun s => s.isLeave) K (fun _ _ => rfl) (fun _ _ => rfl)
    (fun _ _ _ => rfl) fuel st
  rw [if_pos hop] at hp hq
  obtain ⟨p1, p2, -, p4⟩ := progress_eq hp
  obtain ⟨r1, r2, r3, r4⟩ := readFlashProgress_progress
    (readHeader K st ((st.msgBuffer 1 <<< 8 ||| st.msgBuffer 2) % 65536))
    ((st.msgBuffer 1 <<< 8 ||| st.msgBuffer 2) % 65536)
  refine ⟨?_, ?_, ?_, ?_⟩
  · rw [p1, r1]; rfl
  · rw [p2, r2]; rfl
  · rw [p4, r3]; rfl
  · rw [hq, r4]; rfl

theorem oddVerifyRequest_odd :
    oddFlashSize avr068 (accepted (receiving oddVerifyRequest) 1 (readFlashMsg avr068 1)
      (xorAll (frameBody avr068 1 (readFlashMsg avr068 1)))) := by
  refine ⟨?_, Or.inr ?_⟩
  · decide
  · decide

/-- C19 fails on the code: with 3 bytes declared, `flashOperation = 1` and
`address = 0`, a read pass in chunks of 1 and 2 bytes stops in the first
Read-Flash command, which never returns; `flashCounter` stays at 1, whatever
the bounds on the loops. -/
theorem verify_progress_stops (fuel n : Nat) :
    oddVerifyRequest.flashSize = 3 ∧ oddVerifyRequest.flashOperation = 1 ∧
    oddVerifyRequest.address = 0 ∧
    ∃ st1, mainLoop avr068 fuel (n + 1) oddVerifyRequest
        (wire avr068 1 [readFlashMsg avr068 1, readFlashMsg avr068 2]) = Res.hang st1 ∧
      st1.flashOperation = 2 ∧ st1.flashCounter = 1 := by
  have hK : avr068.valid := by decide
  obtain ⟨st1, h1⟩ := processCommand_odd avr068 hK _ oddVerifyRequest_odd fuel
  have hopA : (accepted (receiving oddVerifyRequest) 1 (readFlashMsg avr068 1)
      (xorAll (frameBody avr068 1 (readFlashMsg avr068 1)))).msgBuffer 0
      = avr068.CMD_READ_FLASH_ISP := by decide
  have hp := cmdRead_progress avr068 fuel _ hopA
  rw [← processCommand_readFlash avr068 hK fuel _ hopA, h1] at hp
  simp only [Res.reached] at hp
  obtain ⟨-, p2, p3, -⟩ := hp
  refine ⟨rfl, rfl, rfl, st1, ?_, ?_, ?_⟩
  · have hc := collectMessage_frame avr068 oddVerifyRequest 1 (readFlashMsg avr068 1)
      (frame avr068 1 (readFlashMsg avr068 2) ++ []) (by decide) (by decide)
    have hw : wire avr068 1 [readFlashMsg avr068 1, readFlashMsg avr068 2] =
        frame avr068 1 (readFlashMsg avr068 1) ++ (frame avr068 1 (readFlashMsg avr068 2) ++ []) :=
      rfl
    have hb : mainLoopBody avr068 fuel oddVerifyRequest
        (frame avr068 1 (readFlashMsg avr068 1) ++ (frame avr068 1 (readFlashMsg avr068 2) ++ []))
        = Res.hang st1 := by
      unfold mainLoopBody
      rw [hc]
      simp only [h1]
    rw [hw, mainLoop, if_neg (by decide), hb]
  · rw [p3]; decide
  · rw [p2]; decide

/-- Read-Flash with an even size returns. -/
theorem cmdRead_even (K : CommandH) (fuel : Nat) (st : State)
    (hop : st.msgBuffer 0 = K.CMD_READ_FLASH_ISP)
    (hz2 : (st.msgBuffer 1 <<< 8 ||| st.msgBuffer 2) % 65536 % 2 = 0)
    (hfuel : 32768 ≤ fuel) : ∃ st1, cmdRead K fuel st = Res.ok st1 := by
  have hlt : (st.msgBuffer 1 <<< 8 ||| st.msgBuffer 2) % 65536 < 65536 :=
    Nat.mod_lt _ (by decide)
  unfold cmdRead
  simp only []
  have hop2 : (readHeader K st ((st.msgBuffer 1 <<< 8 ||| st.msgBuffer 2) % 65536)).msgBuffer 0
      = K.CMD_READ_FLASH_ISP := hop
  rw [if_pos hop2]
  obtain ⟨r, hr⟩ := readFlashLoop_ok fuel
    (readFlashProgress (readHeader K st ((st.msgBuffer 1 <<< 8 ||| st.msgBuffer 2) % 65536))
      ((st.msgBuffer 1 <<< 8 ||| st.msgBuffer 2) % 65536)) 2 _ hz2 hlt (by omega)
  rw [hr]
  exact ⟨_, rfl⟩

/-- One Read-Flash frame with an even size, handled by the main loop. -/
theorem mainLoop_readAny (K : CommandH) (hK : K.valid) (fuel n : Nat) (st : State)
    (s : Nat) (P rest : List Nat) (hl : st.isLeave = 0) (hfuel : 32768 ≤ fuel)
    (hP : 3 ≤ P.length ∧ P.length ≤ 285 ∧ P.getD 0 0 = K.CMD_READ_FLASH_ISP ∧
      sizeField P % 2 = 0) :
    ∃ st1, mainLoop K fuel (n + 1) st (frame K s P ++ rest) = mainLoop K fuel n st1 rest ∧
      st1.isLeave = 0 ∧ st1.flashSize = st.flashSize ∧
      st1.flashCounter =
        (if st.flashSize ≠ 0 then
          (if st.address = 0 ∧ st.flashOperation = 1 then sizeField P
           else (st.flashCounter + sizeField P) % 2 ^ 32)
         else st.flashCounter) ∧
      st1.flashOperation =
        (if st.flashSize ≠ 0 ∧ st.address = 0 ∧ st.flashOperation = 1 then 2
         else st.flashOperation) := by
  obtain ⟨hP1, hP2, hP3, hP4⟩ := hP
  obtain ⟨a1, -, a3, a4, -, a6, a7, -, -⟩ :=
    session_eq ((accepted_session (receiving st) s P (xorAll (frameBody K s P))).trans
      (receiving_session st))
  have m0 : (accepted (receiving st) s P (xorAll (frameBody K s P))).msgBuffer 0
      = K.CMD_READ_FLASH_ISP := by
    show storeAt (receiving st).msgBuffer 0 P 0 = _
    rw [storeAt_zero _ _ _ (by omega), hP3]
  have mz : ((accepted (receiving st) s P (xorAll (frameBody K s P))).msgBuffer 1 <<< 8 |||
      (accepted (receiving st) s P (xorAll (frameBody K s P))).msgBuffer 2) % 65536
      = sizeField P := by
    show (storeAt (receiving st).msgBuffer 0 P 1 <<< 8 |||
      storeAt (receiving st).msgBuffer 0 P 2) % 65536 = _
    rw [storeAt_zero _ _ _ (by omega), storeAt_zero _ _ _ (by omega)]
    rfl
  obtain ⟨st2, c1⟩ := cmdRead_even K fuel
    (accepted (receiving st) s P (xorAll (frameBody K s P))) m0 (by rw [mz]; exact hP4) hfuel
  have hp := cmdRead_progress K fuel _ m0
  rw [c1, mz, a1, a3, a4, a6, a7] at hp
  simp only [Res.reached] at hp
  obtain ⟨p1, p2, p3, p4⟩ := hp
  obtain ⟨-, -, b3, b4, -, b6, b7, -, -⟩ := session_eq (sendAnswer_session K st2)
  refine ⟨sendAnswer K st2, ?_, ?_, ?_, ?_, ?_⟩
  · apply mainLoop_frame K fuel n st st2 s P rest hl (by omega) hP2
    rw [processCommand_readFlash K hK fuel _ m0]
    exact c1
  · rw [b7, p4]; exact hl
  · rw [b3, p1]
  · rw [b4, p2]
  · rw [b6, p3]

/-- A run of Read-Flash frames with even sizes while the operation is Verify:
every size is added to the counter. -/
theorem mainLoop_reads_progress (K : CommandH) (hK : K.valid) (fuel s : Nat)
    (hfuel : 32768 ≤ fuel) : ∀ (Ps : List (List Nat)) (st : State) (n : Nat) (rest : List Nat),
    st.isLeave = 0 → st.flashSize ≠ 0 → st.flashOperation = 2 →
    st.flashCounter + (Ps.map sizeField).sum < 2 ^ 32 →
    (∀ P ∈ Ps, 3 ≤ P.length ∧ P.length ≤ 285 ∧ P.getD 0 0 = K.CMD_READ_FLASH_ISP ∧
      sizeField P % 2 = 0) →
    ∃ st1, mainLoop K fuel (n + Ps.length) st (wire K s Ps ++ rest) = mainLoop K fuel n st1 rest ∧
      st1.isLeave = 0 ∧ st1.flashOperation = 2 ∧
      st1.flashCounter = st.flashCounter + (Ps.map sizeField).sum := by
  intro Ps
  induction Ps with
  | nil =>
    intro st n rest hl h0 hop _ _
    exact ⟨st, rfl, hl, hop, by simp⟩
  | cons P Ps ih =>
    intro st n rest hl h0 hop hsum hPs
    simp only [List.map_cons, List.sum_cons] at hsum
    obtain ⟨st1, a1, a2, a3, a4, a5⟩ := mainLoop_readAny K hK fuel (n + Ps.length) st s P
      (wire K s Ps ++ rest) hl hfuel (hPs P (List.mem_cons_self _ _))
    have hne : ¬ (st.address = 0 ∧ st.flashOperation = 1) := by
      intro h; rw [hop] at h; exact absurd h.2 (by decide)
    rw [if_pos h0, if_neg hne, Nat.mod_eq_of_lt (by omega)] at a4
    rw [if_neg (fun h => hne h.2), hop] at a5
    obtain ⟨st2, c1, c2, c3, c4⟩ := ih st1 n rest a2 (by rw [a3]; exact h0) a5
      (by rw [a4]; omega) (fun P' hP' => hPs P' (List.mem_cons_of_mem _ hP'))
    refine ⟨st2, ?_, c2, c3, ?_⟩
    · have e1 : n + (P :: Ps).length = (n + Ps.length) + 1 := by simp; omega
      have e2 : wire K s (P :: Ps) ++ rest = frame K s P ++ (wire K s Ps ++ rest) := by
        simp only [wire, List.append_assoc]
      rw [e1, e2, a1, c1]
    · rw [c4, a4]
      simp only [List.map_cons, List.sum_cons]
      omega

/-- Verify progress for chunks of even size: from `flashSize = N`, `N` not 0,
`flashOperation = 1` and `address = 0`, Read-Flash frames whose even sizes sum
to `N` leave `flashOperation = 2` and `flashCounter = N`. -/
theorem verify_progress_even (K : CommandH) (hK : K.valid) (fuel s N : Nat) (st : State)
    (Ps : List (List Nat)) (hfuel : 32768 ≤ fuel) (hl : st.isLeave = 0)
    (haddr : st.address = 0) (hop : st.flashOperation = 1)
    (hN : st.flashSize = N) (hN0 : N ≠ 0) (hN32 : N < 2 ^ 32)
    (hPs : ∀ P ∈ Ps, 3 ≤ P.length ∧ P.length ≤ 285 ∧ P.getD 0 0 = K.CMD_READ_FLASH_ISP ∧
      sizeField P % 2 = 0)
    (hsum : (Ps.map sizeField).sum = N) :
    (mainLoop K fuel Ps.length st (wire K s Ps)).reached.flashCounter = N ∧
    (mainLoop K fuel Ps.length st (wire K s Ps)).reached.flashOperation = 2 := by
  cases Ps with
  | nil => simp at hsum; exact absurd hsum.symm hN0
  | cons P Ps =>
    have h0 : st.flashSize ≠ 0 := by rw [hN]; exact hN0
    simp only [List.map_cons, List.sum_cons] at hsum
    obtain ⟨st1, a1, a2, a3, a4, a5⟩ := mainLoop_readAny K hK fuel (0 + Ps.length) st s P
      (wire K s Ps ++ []) hl hfuel (hPs P (List.mem_cons_self _ _))
    rw [if_pos h0, if_pos ⟨haddr, hop⟩] at a4
    rw [if_pos ⟨h0, haddr, hop⟩] at a5
    obtain ⟨st2, c1, c2, c3, c4⟩ := mainLoop_reads_progress K hK fuel s hfuel Ps st1 0 []
      a2 (by rw [a3]; exact h0) a5 (by rw [a4]; omega)
      (fun P' hP' => hPs P' (List.mem_cons_of_mem _ hP'))
    have e1 : (P :: Ps).length = (0 + Ps.length) + 1 := by simp
    have e2 : wire K s (P :: Ps) = frame K s P ++ (wire K s Ps ++ []) := by
      simp only [wire, List.append_nil]
    have hrun : mainLoop K fuel (P :: Ps).length st (wire K s (P :: Ps)) = Res.hang st2 := by
      rw [e1, e2, a1, c1]; rfl
    rw [hrun]
    simp only [Res.reached]
    exact ⟨by rw [c4, a4]; exact hsum, c3⟩

/-! ## Theorems: the short commands -/

/-- The Spi-multi opcode selects the first case. -/
theorem processCommand_spiMulti (K : CommandH) (fuel : Nat) (st : State)
    (hop : st.msgBuffer 0 = K.CMD_SPI_MULTI) :
    processCommand K fuel st = Res.ok (cmdSpiMulti K st) := by
  unfold processCommand
  rw [hop]
  rw [if_pos rfl]

/-- With distinct case labels the Sign-on opcode selects its case. -/
theorem processCommand_signOn (K : CommandH) (hK : K.valid) (fuel : Nat) (st : State)
    (hop : st.msgBuffer 0 = K.CMD_SIGN_ON) :
    processCommand K fuel st = Res.ok (cmdSignOn K st) := by
  unfold processCommand
  rw [hop]
  have n0 : K.CMD_SIGN_ON ≠ K.CMD_SPI_MULTI :=
    label_ne K hK 1 0 (by decide) (by decide) (by decide)
  rw [if_neg n0]
  rw [if_pos rfl]

/-- With distinct case labels the Leave-program-mode opcode selects its case. -/
theorem processCommand_leaveProgmode (K : CommandH) (hK : K.valid) (fuel : Nat) (st : State)
    (hop : st.msgBuffer 0 = K.CMD_LEAVE_PROGMODE_ISP) :
    processCommand K fuel st = Res.ok (cmdLeaveProgmode K st) := by
  unfold processCommand
  rw [hop]
  have n0 : K.CMD_LEAVE_PROGMODE_ISP ≠ K.CMD_SPI_MULTI :=
    label_ne K hK 3 0 (by decide) (by decide) (by decide)
  rw [if_neg n0]
  have n1 : K.CMD_LEAVE_PROGMODE_ISP ≠ K.CMD_SIGN_ON :=
    label_ne K hK 3 1 (by decide) (by decide) (by decide)
  rw [if_neg n1]
  have n2 : K.CMD_LEAVE_PROGMODE_ISP ≠ K.CMD_GET_PARAMETER :=
    label_ne K hK 3 2 (by decide) (by decide) (by decide)
  rw [if_neg n2]
  rw [if_pos rfl]

/-- With distinct case labels the Read-signature opcode selects its case. -/
theorem processCommand_readSignature (K : CommandH) (hK : K.valid) (fuel : Nat) (st : State)
    (hop : st.msgBuffer 0 = K.CMD_READ_SIGNATURE_ISP) :
    processCommand K fuel st = Res.ok (cmdReadSignature K st) := by
  unfold processCommand
  rw [hop]
  have n0 : K.CMD_READ_SIGNATURE_ISP ≠ K.CMD_SPI_MULTI :=
    label_ne K hK 6 0 (by decide) (by decide) (by decide)
  rw [if_neg n0]
  have n1 : K.CMD_READ_SIGNATURE_ISP ≠ K.CMD_SIGN_ON :=
    label_ne K hK 6 1 (by decide) (by decide) (by decide)
  rw [if_neg n1]
  have n2 : K.CMD_READ_SIGNATURE_ISP ≠ K.CMD_GET_PARAMETER :=
    label_ne K hK 6 2 (by decide) (by decide) (by decide)
  rw [if_neg n2]
  have n3 : K.CMD_READ_SIGNATURE_ISP ≠ K.CMD_LEAVE_PROGMODE_ISP :=
    label_ne K hK 6 3 (by decide) (by decide) (by decide)
  rw [if_neg n3]
  have n4 : K.CMD_READ_SIGNATURE_ISP ≠ K.CMD_SET_PARAMETER :=
    label_ne K hK 6 4 (by decide) (by decide) (by decide)
  rw [if_neg n4]
  have n5 : K.CMD_READ_SIGNATURE_ISP ≠ K.CMD_ENTER_PROGMODE_ISP :=
    label_ne K hK 6 5 (by decide) (by decide) (by decide)
  rw [if_neg n5]
  rw [if_pos rfl]

/-- With distinct case labels the Program-lock opcode selects its case. -/
theorem processCommand_programLock (K : CommandH) (hK : K.valid) (fuel : Nat) (st : State)
    (hop : st.msgBuffer 0 = K.CMD_PROGRAM_LOCK_ISP) :
    processCommand K fuel st = Res.ok (cmdProgramLock K st) := by
  unfold processCommand
  rw [hop]
  have n0 : K.CMD_PROGRAM_LOCK_ISP ≠ K.CMD_SPI_MULTI :=
    label_ne K hK 9 0 (by decide) (by decide) (by decide)
  rw [if_neg n0]
  have n1 : K.CMD_PROGRAM_LOCK_ISP ≠ K.CMD_SIGN_ON :=
    label_ne K hK 9 1 (by decide) (by decide) (by decide)
  rw [if_neg n1]
  have n2 : K.CMD_PROGRAM_LOCK_ISP ≠ K.CMD_GET_PARAMETER :=
    label_ne K hK 9 2 (by decide) (by decide) (by decide)
  rw [if_neg n2]
  have n3 : K.CMD_PROGRAM_LOCK_ISP ≠ K.CMD_LEAVE_PROGMODE_ISP :=
    label_ne K hK 9 3 (by decide) (by decide) (by decide)
  rw [if_neg n3]
  have n4 : K.CMD_PROGRAM_LOCK_ISP ≠ K.CMD_SET_PARAMETER :=
    label_ne K hK 9 4 (by decide) (by decide) (by decide)
  rw [if_neg n4]
  have n5 : K.CMD_PROGRAM_LOCK_ISP ≠ K.CMD_ENTER_PROGMODE_ISP :=
    label_ne K hK 9 5 (by decide) (by decide) (by decide)
  rw [if_neg n5]
  have n6 : K.CMD_PROGRAM_LOCK_ISP ≠ K.CMD_READ_SIGNATURE_ISP :=
    label_ne K hK 9 6 (by decide) (by decide) (by decide)
  rw [if_neg n6]
  have n7 : K.CMD_PROGRAM_LOCK_ISP ≠ K.CMD_READ_LOCK_ISP :=
    label_ne K hK 9 7 (by decide) (by decide) (by decide)
  rw [if_neg n7]
  have n8 : K.CMD_PROGRAM_LOCK_ISP ≠ K.CMD_READ_FUSE_ISP :=
    label_ne K hK 9 8 (by decide) (by decide) (by decide)
  rw [if_neg n8]
  rw [if_pos rfl]

/-- With distinct case labels the Chip-erase opcode selects its case. -/
theorem processCommand_chipErase (K : CommandH) (hK : K.valid) (fuel : Nat) (st : State)
    (hop : st.msgBuffer 0 = K.CMD_CHIP_ERASE_ISP) :
    processCommand K fuel st = Res.ok (cmdChipErase K st) := by
  unfold processCommand
  rw [hop]
  have n0 : K.CMD_CHIP_ERASE_ISP ≠ K.CMD_SPI_MULTI :=
    label_ne K hK 10 0 (by decide) (by decide) (by decide)
  rw [if_neg n0]
  have n1 : K.CMD_CHIP_ERASE_ISP ≠ K.CMD_SIGN_ON :=
    label_ne K hK 10 1 (by decide) (by decide) (by decide)
  rw [if_neg n1]
  have n2 : K.CMD_CHIP_ERASE_ISP ≠ K.CMD_GET_PARAMETER :=
    label_ne K hK 10 2 (by decide) (by decide) (by decide)
  rw [if_neg n2]
  have n3 : K.CMD_CHIP_ERASE_ISP ≠ K.CMD_LEAVE_PROGMODE_ISP :=
    label_ne K hK 10 3 (by decide) (by decide) (by decide)
  rw [if_neg n3]
  have n4 : K.CMD_CHIP_ERASE_ISP ≠ K.CMD_SET_PARAMETER :=
    label_ne K hK 10 4 (by decide) (by decide) (by decide)
  rw [if_neg n4]
  have n5 : K.CMD_CHIP_ERASE_ISP ≠ K.CMD_ENTER_PROGMODE_ISP :=
    label_ne K hK 10 5 (by decide) (by decide) (by decide)
  rw [if_neg n5]
  have n6 : K.CMD_CHIP_ERASE_ISP ≠ K.CMD_READ_SIGNATURE_ISP :=
    label_ne K hK 10 6 (by decide) (by decide) (by decide)
  rw [if_neg n6]
  have n7 : K.CMD_CHIP_ERASE_ISP ≠ K.CMD_READ_LOCK_ISP :=
    label_ne K hK 10 7 (by decide) (by decide) (by decide)
  rw [if_neg n7]
  have n8 : K.CMD_CHIP_ERASE_ISP ≠ K.CMD_READ_FUSE_ISP :=
    label_ne K hK 10 8 (by decide) (by decide) (by decide)
  rw [if_neg n8]
  have n9 : K.CMD_CHIP_ERASE_ISP ≠ K.CMD_PROGRAM_LOCK_ISP :=
    label_ne K hK 10 9 (by decide) (by decide) (by decide)
  rw [if_neg n9]
  rw [if_pos rfl]

/-- An opcode that is none of the case labels selects the default case. -/
theorem processCommand_default (K : CommandH) (fuel : Nat) (st : State)
    (hop : st.msgBuffer 0 ∉ K.caseLabels) :
    processCommand K fuel st = Res.ok (cmdDefault K st) := by
  unfold processCommand
  have n0 : st.msgBuffer 0 ≠ K.CMD_SPI_MULTI := fun h => hop (by rw [h]; simp [CommandH.caseLabels])
  rw [if_neg n0]
  have n1 : st.msgBuffer 0 ≠ K.CMD_SIGN_ON := fun h => hop (by rw [h]; simp [CommandH.caseLabels])
  rw [if_neg n1]
  have n2 : st.msgBuffer 0 ≠ K.CMD_GET_PARAMETER := fun h => hop (by rw [h]; simp [CommandH.caseLabels])
  rw [if_neg n2]
  have n3 : st.msgBuffer 0 ≠ K.CMD_LEAVE_PROGMODE_ISP := fun h => hop (by rw [h]; simp [CommandH.caseLabels])
  rw [if_neg n3]
  have n4 : st.msgBuffer 0 ≠ K.CMD_SET_PARAMETER := fun h => hop (by rw [h]; simp [CommandH.caseLabels])
  rw [if_neg n4]
  have n5 : st.msgBuffer 0 ≠ K.CMD_ENTER_PROGMODE_ISP := fun h => hop (by rw [h]; simp [CommandH.caseLabels])
  rw [if_neg n5]
  have n6 : st.msgBuffer 0 ≠ K.CMD_READ_SIGNATURE_ISP := fun h => hop (by rw [h]; simp [CommandH.caseLabels])
  rw [if_neg n6]
  have n7 : st.msgBuffer 0 ≠ K.CMD_READ_LOCK_ISP := fun h => hop (by rw [h]; simp [CommandH.caseLabels])
  rw [if_neg n7]
  have n8 : st.msgBuffer 0 ≠ K.CMD_READ_FUSE_ISP := fun h => hop (by rw [h]; simp [CommandH.caseLabels])
  rw [if_neg n8]
  have n9 : st.msgBuffer 0 ≠ K.CMD_PROGRAM_LOCK_ISP := fun h => hop (by rw [h]; simp [CommandH.caseLabels])
  rw [if_neg n9]
  have n10 : st.msgBuffer 0 ≠ K.CMD_CHIP_ERASE_ISP := fun h => hop (by rw [h]; simp [CommandH.caseLabels])
  rw [if_neg n10]
  have n11 : st.msgBuffer 0 ≠ K.CMD_LOAD_ADDRESS := fun h => hop (by rw [h]; simp [CommandH.caseLabels])
  rw [if_neg n11]
  have n12 : st.msgBuffer 0 ≠ K.CMD_SET_UPLOAD_SIZE_PRUSA3D := fun h => hop (by rw [h]; simp [CommandH.caseLabels])
  rw [if_neg n12]
  have n13 : st.msgBuffer 0 ≠ K.CMD_PROGRAM_FLASH_ISP := fun h => hop (by rw [h]; simp [CommandH.caseLabels])
  rw [if_neg n13]
  have n14 : st.msgBuffer 0 ≠ K.CMD_PROGRAM_EEPROM_ISP := fun h => hop (by rw [h]; simp [CommandH.caseLabels])
  rw [if_neg n14]
  have n15 : st.msgBuffer 0 ≠ K.CMD_READ_FLASH_ISP := fun h => hop (by rw [h]; simp [CommandH.caseLabels])
  rw [if_neg n15]
  have n16 : st.msgBuffer 0 ≠ K.CMD_READ_EEPROM_ISP := fun h => hop (by rw [h]; simp [CommandH.caseLabels])
  rw [if_neg n16]

/-- Four bytes joined by shifts and ORs, high byte first, are the number they
spell in base 256. -/
theorem bytes_join (b1 b2 b3 b4 : Nat) (h2 : b2 < 256) (h3 : b3 < 256) (h4 : b4 < 256) :
    (b1 <<< 24) ||| (b2 <<< 16) ||| (b3 <<< 8) ||| b4 =
      b1 * 2 ^ 24 + b2 * 2 ^ 16 + b3 * 2 ^ 8 + b4 := by
  have e1 : b1 <<< 24 = 2 ^ 24 * b1 := by rw [Nat.shiftLeft_eq, Nat.mul_comm]
  have e2 : b2 <<< 16 = 2 ^ 16 * b2 := by rw [Nat.shiftLeft_eq, Nat.mul_comm]
  have e3 : b3 <<< 8 = 2 ^ 8 * b3 := by rw [Nat.shiftLeft_eq, Nat.mul_comm]
  rw [Nat.lor_assoc, Nat.lor_assoc, e3, ← Nat.mul_add_lt_is_or (by omega : b4 < 2 ^ 8), e2,
    ← Nat.mul_add_lt_is_or (by omega : 2 ^ 8 * b3 + b4 < 2 ^ 16), e1,
    ← Nat.mul_add_lt_is_or (by omega : 2 ^ 16 * b2 + (2 ^ 8 * b3 + b4) < 2 ^ 24)]
  omega

/-- The complement of a byte, as a byte, is its difference from 255. -/
theorem xor_byte (b : Nat) (hb : b < 256) : b ^^^ 0xFF = 255 - b := by
  interval_cases b <;> rfl

/-- C21. Set-upload-size parsing: with the payload bytes `b1`, `b2`, `b3` at
`msgBuffer[1..3]` the command leaves `flashSize = b1 + 256*b2 + 65536*b3`, a
value below `2^24`, and the reply has length 2 and status `STATUS_CMD_OK`. -/
theorem upload_size_parsed (K : CommandH) (hK : K.valid) (fuel : Nat) (st : State)
    (hop : st.msgBuffer 0 = K.CMD_SET_UPLOAD_SIZE_PRUSA3D)
    (h1 : st.msgBuffer 1 < 256) (h2 : st.msgBuffer 2 < 256) (h3 : st.msgBuffer 3 < 256) :
    ∃ st1, processCommand K fuel st = Res.ok st1 ∧
      st1.flashSize = st.msgBuffer 1 + 256 * st.msgBuffer 2 + 65536 * st.msgBuffer 3 ∧
      st1.flashSize < 2 ^ 24 ∧
      st1.msgLength = 2 ∧ st1.msgBuffer 0 = K.CMD_SET_UPLOAD_SIZE_PRUSA3D ∧
      st1.msgBuffer 1 = K.STATUS_CMD_OK := by
  have e : (cmdSetUploadSize K st).flashSize =
      st.msgBuffer 1 + 256 * st.msgBuffer 2 + 65536 * st.msgBuffer 3 := rfl
  refine ⟨_, processCommand_setUploadSize K hK fuel st hop, e, ?_, rfl, hop, ?_⟩
  · rw [e]; omega
  · simp [cmdSetUploadSize, setBuf]

/-- Instance of C21: the size bytes `0x00, 0x10, 0x00` give 4096. -/
theorem upload_size_parsed_witness :
    ∃ st1, processCommand avr068 0 uploadSizeRequest = Res.ok st1 ∧
      st1.flashSize = uploadSizeRequest.msgBuffer 1 + 256 * uploadSizeRequest.msgBuffer 2
        + 65536 * uploadSizeRequest.msgBuffer 3 ∧
      st1.flashSize < 2 ^ 24 ∧
      st1.msgLength = 2 ∧ st1.msgBuffer 0 = avr068.CMD_SET_UPLOAD_SIZE_PRUSA3D ∧
      st1.msgBuffer 1 = avr068.STATUS_CMD_OK :=
  upload_size_parsed avr068 (by decide) 0 uploadSizeRequest (by decide) (by decide) (by decide)
    (by decide)

/-- C22. Load-address: with the payload bytes `b1 .. b4` at `msgBuffer[1..4]`
the command leaves `address = (2 * (b1*2^24 + b2*2^16 + b3*2^8 + b4)) mod 2^32`;
it changes nothing else but `msgLength`, which becomes 2, and `msgBuffer[1]`,
which becomes `STATUS_CMD_OK`. -/
theorem load_address_doubles (K : CommandH) (hK : K.valid) (fuel : Nat) (st : State)
    (hop : st.msgBuffer 0 = K.CMD_LOAD_ADDRESS)
    (h2 : st.msgBuffer 2 < 256) (h3 : st.msgBuffer 3 < 256) (h4 : st.msgBuffer 4 < 256) :
    processCommand K fuel st = Res.ok
      { st with
        address := (2 * (st.msgBuffer 1 * 2 ^ 24 + st.msgBuffer 2 * 2 ^ 16
                        + st.msgBuffer 3 * 2 ^ 8 + st.msgBuffer 4)) % 2 ^ 32
        msgLength := 2
        msgBuffer := Function.update st.msgBuffer 1 K.STATUS_CMD_OK } := by
  rw [processCommand_loadAddress K hK fuel st hop, ← bytes_join _ _ _ _ h2 h3 h4,
    Nat.mul_comm 2, ← Nat.shiftLeft_eq _ 1]
  rfl

/-- Instance of C22: the word address `0x80010203` loses its top bit and
gives the byte address `0x00020406`. -/
theorem load_address_doubles_witness :
    processCommand avr068 0 loadAddressRequest = Res.ok
      { loadAddressRequest with
        address := (2 * (loadAddressRequest.msgBuffer 1 * 2 ^ 24
                        + loadAddressRequest.msgBuffer 2 * 2 ^ 16
                        + loadAddressRequest.msgBuffer 3 * 2 ^ 8
                        + loadAddressRequest.msgBuffer 4)) % 2 ^ 32
        msgLength := 2
        msgBuffer := Function.update loadAddressRequest.msgBuffer 1 avr068.STATUS_CMD_OK } ∧
    (2 * (loadAddressRequest.msgBuffer 1 * 2 ^ 24 + loadAddressRequest.msgBuffer 2 * 2 ^ 16
          + loadAddressRequest.msgBuffer 3 * 2 ^ 8 + loadAddressRequest.msgBuffer 4)) % 2 ^ 32
      = 0x00020406 :=
  ⟨load_address_doubles avr068 (by decide) 0 loadAddressRequest (by decide) (by decide)
    (by decide) (by decide), by decide⟩

/-- C24. Chip erase is refused: the command sets `eraseAddress` to 0, performs
no hardware operation (the log of erases and writes and the flash are as
before), and the reply has length 2 and status `STATUS_CMD_FAILED`; nothing but
`eraseAddress`, `msgLength` and `msgBuffer[1]` changes. -/
theorem chip_erase_refused (K : CommandH) (hK : K.valid) (fuel : Nat) (st : State)
    (hop : st.msgBuffer 0 = K.CMD_CHIP_ERASE_ISP) :
    ∃ st1, processCommand K fuel st = Res.ok st1 ∧
      st1 = { st with eraseAddress := 0, msgLength := 2,
                      msgBuffer := Function.update st.msgBuffer 1 K.STATUS_CMD_FAILED } ∧
      st1.eraseAddress = 0 ∧ st1.spmLog = st.spmLog ∧ st1.flash = st.flash ∧
      st1.msgLength = 2 ∧ st1.msgBuffer 0 = K.CMD_CHIP_ERASE_ISP ∧
      st1.msgBuffer 1 = K.STATUS_CMD_FAILED := by
  refine ⟨_, processCommand_chipErase K hK fuel st hop, rfl, rfl, rfl, rfl, rfl, hop, ?_⟩
  simp [cmdChipErase, setBuf]

/-- Instance of C24: Chip-erase received with the erase frontier at `0x2000`. -/
theorem chip_erase_refused_witness :
    ∃ st1, processCommand avr068 0 chipEraseRequest = Res.ok st1 ∧
      st1 = { chipEraseRequest with
                eraseAddress := 0
                msgLength := 2
                msgBuffer := (Function.update chipEraseRequest.msgBuffer 1
                  avr068.STATUS_CMD_FAILED) } ∧
      st1.eraseAddress = 0 ∧ st1.spmLog = chipEraseRequest.spmLog ∧
      st1.flash = chipEraseRequest.flash ∧
      st1.msgLength = 2 ∧ st1.msgBuffer 0 = avr068.CMD_CHIP_ERASE_ISP ∧
      st1.msgBuffer 1 = avr068.STATUS_CMD_FAILED :=
  chip_erase_refused avr068 (by decide) 0 chipEraseRequest (by decide)

/-- C25. Unknown opcodes fail without effect: for an opcode that is none of
the case labels of the switch the reply has length 2 and status
`STATUS_CMD_FAILED`, and nothing but `msgLength` and `msgBuffer[1]` changes: the
address, the erase frontier, the upload size and progress fields, `isLeave`,
the flash and the EEPROM are as before. -/
theorem unknown_opcode_fails (K : CommandH) (fuel : Nat) (st : State)
    (hop : st.msgBuffer 0 ∉ K.caseLabels) :
    ∃ st1, processCommand K fuel st = Res.ok st1 ∧
      st1 = { st with msgLength := 2,
                      msgBuffer := Function.update st.msgBuffer 1 K.STATUS_CMD_FAILED } ∧
      st1.msgLength = 2 ∧ st1.msgBuffer 0 = st.msgBuffer 0 ∧
      st1.msgBuffer 1 = K.STATUS_CMD_FAILED ∧
      st1.address = st.address ∧ st1.eraseAddress = st.eraseAddress ∧
      progress st1 = progress st ∧ st1.isLeave = st.isLeave ∧
      st1.flash = st.flash ∧ st1.eeprom = st.eeprom ∧ st1.spmLog = st.spmLog := by
  refine ⟨_, processCommand_default K fuel st hop, rfl, rfl, rfl, ?_, rfl, rfl, rfl, rfl, rfl,
    rfl, rfl⟩
  simp [cmdDefault, setBuf]

/-- Instance of C25: the opcode `0x17` in a session in progress. -/
theorem unknown_opcode_fails_witness :
    unknownRequest.msgBuffer 0 = 0x17 ∧
    ∃ st1, processCommand avr068 0 unknownRequest = Res.ok st1 ∧
      st1 = { unknownRequest with
                msgLength := 2
                msgBuffer := (Function.update unknownRequest.msgBuffer 1
                  avr068.STATUS_CMD_FAILED) } ∧
      st1.msgLength = 2 ∧ st1.msgBuffer 0 = unknownRequest.msgBuffer 0 ∧
      st1.msgBuffer 1 = avr068.STATUS_CMD_FAILED ∧
      st1.address = unknownRequest.address ∧ st1.eraseAddress = unknownRequest.eraseAddress ∧
      progress st1 = progress unknownRequest ∧ st1.isLeave = unknownRequest.isLeave ∧
      st1.flash = unknownRequest.flash ∧ st1.eeprom = unknownRequest.eeprom ∧
      st1.spmLog = unknownRequest.spmLog :=
  ⟨by decide, unknown_opcode_fails avr068 0 unknownRequest (by decide)⟩

/-- A store into the buffer of a reply under construction. -/
theorem setBuf_reply (st : State) (n : Nat) (b : Nat → Nat) (i v : Nat) :
    setBuf { st with msgLength := n, msgBuffer := b } i v =
      { st with msgLength := n, msgBuffer := Function.update b i v } := rfl

/-- The state the Sign-on case leaves. -/
theorem cmdSignOn_eq (K : CommandH) (st : State) :
    cmdSignOn K st =
      { st with msgLength := 11,
                msgBuffer := (storeAt st.msgBuffer 1
                  [K.STATUS_CMD_OK, 8, 'A'.toNat, 'V'.toNat, 'R'.toNat, 'I'.toNat,
                   'S'.toNat, 'P'.toNat, '_'.toNat, '2'.toNat]) } := by
  have e0 : ({ st with msgLength := 11 } : State) =
      { st with msgLength := 11, msgBuffer := st.msgBuffer } := rfl
  simp only [cmdSignOn]
  rw [e0]
  simp only [setBuf_reply, storeAt]

/-- C26. Sign-on: whatever else the message and the session hold, the reply
has length 11 and is the opcode, `STATUS_CMD_OK`, the length byte 8 and the
characters `AVRISP_2`; nothing but `msgLength` and `msgBuffer[1..10]` changes. -/
theorem sign_on_reply (K : CommandH) (hK : K.valid) (fuel : Nat) (st : State)
    (hop : st.msgBuffer 0 = K.CMD_SIGN_ON) :
    ∃ st1, processCommand K fuel st = Res.ok st1 ∧
      st1 = { st with msgLength := 11,
                      msgBuffer := (storeAt st.msgBuffer 1
                        [K.STATUS_CMD_OK, 8, 'A'.toNat, 'V'.toNat, 'R'.toNat, 'I'.toNat,
                         'S'.toNat, 'P'.toNat, '_'.toNat, '2'.toNat]) } ∧
      st1.msgLength = 11 ∧
      bufferBytes st1.msgBuffer 0 st1.msgLength =
        [K.CMD_SIGN_ON, K.STATUS_CMD_OK, 8, 'A'.toNat, 'V'.toNat, 'R'.toNat, 'I'.toNat,
         'S'.toNat, 'P'.toNat, '_'.toNat, '2'.toNat] ∧
      session st1 = session st ∧ st1.eeprom = st.eeprom := by
  refine ⟨_, processCommand_signOn K hK fuel st hop, cmdSignOn_eq K st, ?_, ?_, ?_, ?_⟩
  · rw [cmdSignOn_eq]
  · rw [cmdSignOn_eq]
    simp [bufferBytes, storeAt, hop]
  · rw [cmdSignOn_eq]
    rfl
  · rw [cmdSignOn_eq]

/-- Instance of C26: Sign-on received in a session in progress. -/
theorem sign_on_reply_witness :
    ∃ st1, processCommand avr068 0 signOnRequest = Res.ok st1 ∧
      st1 = { signOnRequest with
                msgLength := 11
                msgBuffer := (storeAt signOnRequest.msgBuffer 1
                  [avr068.STATUS_CMD_OK, 8, 'A'.toNat, 'V'.toNat, 'R'.toNat, 'I'.toNat,
                   'S'.toNat, 'P'.toNat, '_'.toNat, '2'.toNat]) } ∧
      st1.msgLength = 11 ∧
      bufferBytes st1.msgBuffer 0 st1.msgLength =
        [avr068.CMD_SIGN_ON, avr068.STATUS_CMD_OK, 8, 'A'.toNat, 'V'.toNat, 'R'.toNat,
         'I'.toNat, 'S'.toNat, 'P'.toNat, '_'.toNat, '2'.toNat] ∧
      session st1 = session signOnRequest ∧ st1.eeprom = signOnRequest.eeprom :=
  sign_on_reply avr068 (by decide) 0 signOnRequest (by decide)

/-- A value masked with `0x3C` has no bit outside `0x3C`. -/
theorem masked_bits (x : Nat) :
    (x &&& 0x3C) &&& 0xC3 = 0 ∧ x &&& 0x3C ≤ 0x3C ∧
    ∀ i, (x &&& 0x3C).testBit i = true → (0x3C : Nat).testBit i = true := by
  refine ⟨?_, Nat.and_le_right, ?_⟩
  · rw [Nat.land_assoc]
    have h : (0x3C : Nat) &&& 0xC3 = 0 := by decide
    rw [h, Nat.and_zero]
  · intro i h
    rw [Nat.testBit_and, Bool.and_eq_true] at h
    exact h.2

/-- C28. Program-lock-bits stays within the mask `0x3C`: for the requested
byte `b = msgBuffer[4]` the one hardware operation of the command is the lock
bit programming with the value `(~b) & 0x3C` (the complement of a byte being
`255 - b`), a value with no bit set outside `0x3C`; the reply has length 3 and
both status bytes are `STATUS_CMD_OK`. -/
theorem program_lock_masked (K : CommandH) (hK : K.valid) (fuel : Nat) (st : State)
    (hop : st.msgBuffer 0 = K.CMD_PROGRAM_LOCK_ISP) (hb : st.msgBuffer 4 < 256) :
    ∃ st1, processCommand K fuel st = Res.ok st1 ∧
      st1.spmLog = st.spmLog ++ [SpmOp.lockBits ((255 - st.msgBuffer 4) &&& 0x3C)] ∧
      ((255 - st.msgBuffer 4) &&& 0x3C) &&& 0xC3 = 0 ∧
      (∀ i, ((255 - st.msgBuffer 4) &&& 0x3C).testBit i = true →
        (0x3C : Nat).testBit i = true) ∧
      st1.msgLength = 3 ∧ st1.msgBuffer 0 = K.CMD_PROGRAM_LOCK_ISP ∧
      st1.msgBuffer 1 = K.STATUS_CMD_OK ∧ st1.msgBuffer 2 = K.STATUS_CMD_OK := by
  have e : (cmdProgramLock K st).spmLog =
      st.spmLog ++ [SpmOp.lockBits ((st.msgBuffer 4 ^^^ 0xFF) &&& 0x3C)] := rfl
  rw [xor_byte _ hb] at e
  obtain ⟨m1, -, m3⟩ := masked_bits (255 - st.msgBuffer 4)
  refine ⟨_, processCommand_programLock K hK fuel st hop, e, m1, m3, rfl, ?_, ?_, ?_⟩
  · simp [cmdProgramLock, setBuf, boot_lock_bits_set, hop]
  · simp [cmdProgramLock, setBuf, boot_lock_bits_set]
  · simp [cmdProgramLock, setBuf, boot_lock_bits_set]

/-- Instance of C28: the lock byte `0xA5` gives the value `0x18`. -/
theorem program_lock_masked_witness :
    (255 - programLockRequest.msgBuffer 4) &&& 0x3C = 0x18 ∧
    ∃ st1, processCommand avr068 0 programLockRequest = Res.ok st1 ∧
      st1.spmLog = programLockRequest.spmLog ++
        [SpmOp.lockBits ((255 - programLockRequest.msgBuffer 4) &&& 0x3C)] ∧
      ((255 - programLockRequest.msgBuffer 4) &&& 0x3C) &&& 0xC3 = 0 ∧
      (∀ i, ((255 - programLockRequest.msgBuffer 4) &&& 0x3C).testBit i = true →
        (0x3C : Nat).testBit i = true) ∧
      st1.msgLength = 3 ∧ st1.msgBuffer 0 = avr068.CMD_PROGRAM_LOCK_ISP ∧
      st1.msgBuffer 1 = avr068.STATUS_CMD_OK ∧ st1.msgBuffer 2 = avr068.STATUS_CMD_OK :=
  ⟨by decide, program_lock_masked avr068 (by decide) 0 programLockRequest (by decide)
    (by decide)⟩

/-- C29. Signature byte selection: Read-signature with the index `i` at
`msgBuffer[4]` answers with the byte the specification names for `i`, in a
reply of length 4 between two `STATUS_CMD_OK` bytes; the Spi-multi signature
read (`msgBuffer[4] = 0x30`, index at `msgBuffer[6]`) gives the same byte for
the same index, at position 5 of a reply of length 7. -/
theorem signature_byte_selected (K : CommandH) (hK : K.valid) (fuel : Nat) (st : State) :
    (st.msgBuffer 0 = K.CMD_READ_SIGNATURE_ISP →
      ∃ st1, processCommand K fuel st = Res.ok st1 ∧ st1.msgLength = 4 ∧
        st1.msgBuffer 0 = K.CMD_READ_SIGNATURE_ISP ∧ st1.msgBuffer 1 = K.STATUS_CMD_OK ∧
        st1.msgBuffer 2 = specSignatureByte (st.msgBuffer 4) ∧
        st1.msgBuffer 3 = K.STATUS_CMD_OK) ∧
    (st.msgBuffer 0 = K.CMD_SPI_MULTI → st.msgBuffer 4 = 0x30 →
      ∃ st1, processCommand K fuel st = Res.ok st1 ∧ st1.msgLength = 7 ∧
        st1.msgBuffer 0 = K.CMD_SPI_MULTI ∧ st1.msgBuffer 1 = K.STATUS_CMD_OK ∧
        st1.msgBuffer 5 = specSignatureByte (st.msgBuffer 6) ∧
        st1.msgBuffer 6 = K.STATUS_CMD_OK) ∧
    (∀ i, specSignatureByte i = if i = 0 then 0x1E else if i = 1 then 0x98 else 0x01) := by
  refine ⟨fun hop => ?_, fun hop h4 => ?_, fun i => ?_⟩
  · refine ⟨_, processCommand_readSignature K hK fuel st hop, rfl, ?_, ?_, ?_, ?_⟩
    · simp [cmdReadSignature, setBuf, hop]
    · simp [cmdReadSignature, setBuf]
    · simp [cmdReadSignature, setBuf, specSignatureByte]
    · simp [cmdReadSignature, setBuf]
  · refine ⟨_, processCommand_spiMulti K fuel st hop, rfl, ?_, ?_, ?_, ?_⟩
    · simp [cmdSpiMulti, setBuf, hop]
    · simp [cmdSpiMulti, setBuf]
    · simp [cmdSpiMulti, setBuf, specSignatureByte, h4]
    · simp [cmdSpiMulti, setBuf]
  · unfold specSignatureByte
    split_ifs <;> decide

/-- Instance of C29: the index 1 gives `0x98` through both commands. -/
theorem signature_byte_selected_witness :
    (∃ st1, processCommand avr068 0 (readSignatureRequest 1) = Res.ok st1 ∧
      st1.msgLength = 4 ∧ st1.msgBuffer 2 = 0x98) ∧
    (∃ st1, processCommand avr068 0 (spiSignatureRequest 1) = Res.ok st1 ∧
      st1.msgLength = 7 ∧ st1.msgBuffer 5 = 0x98) := by
  obtain ⟨h1, h2, h3⟩ := signature_byte_selected avr068 (by decide) 0 (readSignatureRequest 1)
  obtain ⟨k1, k2, -⟩ := signature_byte_selected avr068 (by decide) 0 (spiSignatureRequest 1)
  obtain ⟨s1, a1, a2, -, -, a5, -⟩ := h1 (by decide)
  obtain ⟨s2, b1, b2, -, -, b5, -⟩ := k2 (by decide) (by decide)
  refine ⟨⟨s1, a1, a2, ?_⟩, ⟨s2, b1, b2, ?_⟩⟩
  · rw [a5, h3]; decide
  · rw [b5, h3]; decide

/-! ## Theorems: the end of the session -/

theorem isLeave_setBuf (st : State) (i v : Nat) : (setBuf st i v).isLeave = st.isLeave := rfl

/-- The cases of the switch without a loop, Leave-program-mode apart, leave
`isLeave` as it is. -/
theorem simple_isLeave (K : CommandH) (st : State) :
    ∀ f : CommandH → State → State,
      f ∈ [cmdSpiMulti, cmdSignOn, cmdGetParameter, cmdAcknowledge, cmdReadSignature,
           cmdReadLock, cmdReadFuse, cmdProgramLock, cmdChipErase, cmdLoadAddress,
           cmdSetUploadSize, cmdDefault] → (f K st).isLeave = st.isLeave := by
  intro f hf
  simp only [List.mem_cons, List.mem_singleton, List.not_mem_nil, or_false] at hf
  rcases hf with h | h | h | h | h | h | h | h | h | h | h | h <;>
    (subst h
     simp only [cmdSpiMulti, cmdSignOn, cmdGetParameter, cmdAcknowledge, cmdReadSignature,
       cmdReadLock, cmdReadFuse, cmdProgramLock, cmdChipErase, cmdLoadAddress,
       cmdSetUploadSize, cmdDefault, isLeave_setBuf]
     try rfl)

/-- What a command does to `isLeave`: Leave-program-mode sets it to 1, every
other command leaves it as it is. -/
theorem processCommand_isLeave (K : CommandH) (hK : K.valid) (fuel : Nat) (st : State) :
    (processCommand K fuel st).reached.isLeave =
      if st.msgBuffer 0 = K.CMD_LEAVE_PROGMODE_ISP then 1 else st.isLeave := by
  by_cases h : st.msgBuffer 0 = K.CMD_LEAVE_PROGMODE_ISP
  · rw [if_pos h, processCommand_leaveProgmode K hK fuel st h]
    rfl
  · rw [if_neg h]
    have hp : (cmdProgram K fuel st).reached.isLeave = st.isLeave :=
      cmdProgram_inv (fun s => s.isLeave) K
        (fun s z => (programFlashProgress_progress s z).2.2.2.2)
        (fun s => (programFlashErase_progress s).2)
        (fun _ _ => rfl) (fun _ _ _ => rfl) (fun _ _ _ => rfl) (fun _ => rfl) fuel st
    have hr : (cmdRead K fuel st).reached.isLeave = st.isLeave :=
      cmdRead_inv (fun s => s.isLeave) K (fun _ _ => rfl)
        (fun s z => (readFlashProgress_progress s z).2.2.2)
        (fun _ _ => rfl) (fun _ _ => rfl) (fun _ _ _ => rfl) fuel st
    unfold processCommand
    rw [if_neg h]
    by_cases c : st.msgBuffer 0 = K.CMD_SPI_MULTI
    · rw [if_pos c]; exact simple_isLeave K st cmdSpiMulti (by simp)
    rw [if_neg c]
    clear c
    by_cases c : st.msgBuffer 0 = K.CMD_SIGN_ON
    · rw [if_pos c]; exact simple_isLeave K st cmdSignOn (by simp)
    rw [if_neg c]
    clear c
    by_cases c : st.msgBuffer 0 = K.CMD_GET_PARAMETER
    · rw [if_pos c]; exact simple_isLeave K st cmdGetParameter (by simp)
    rw [if_neg c]
    clear c
    by_cases c : st.msgBuffer 0 = K.CMD_SET_PARAMETER
    · rw [if_pos c]; exact simple_isLeave K st cmdAcknowledge (by simp)
    rw [if_neg c]
    clear c
    by_cases c : st.msgBuffer 0 = K.CMD_ENTER_PROGMODE_ISP
    · rw [if_pos c]; exact simple_isLeave K st cmdAcknowledge (by simp)
    rw [if_neg c]
    clear c
    by_cases c : st.msgBuffer 0 = K.CMD_READ_SIGNATURE_ISP
    · rw [if_pos c]; exact simple_isLeave K st cmdReadSignature (by simp)
    rw [if_neg c]
    clear c
    by_cases c : st.msgBuffer 0 = K.CMD_READ_LOCK_ISP
    · rw [if_pos c]; exact simple_isLeave K st cmdReadLock (by simp)
    rw [if_neg c]
    clear c
    by_cases c : st.msgBuffer 0 = K.CMD_READ_FUSE_ISP
    · rw [if_pos c]; exact simple_isLeave K st cmdReadFuse (by simp)
    rw [if_neg c]
    clear c
    by_cases c : st.msgBuffer 0 = K.CMD_PROGRAM_LOCK_ISP
    · rw [if_pos c]; exact simple_isLeave K st cmdProgramLock (by simp)
    rw [if_neg c]
    clear c
    by_cases c : st.msgBuffer 0 = K.CMD_CHIP_ERASE_ISP
    · rw [if_pos c]; exact simple_isLeave K st cmdChipErase (by simp)
    rw [if_neg c]
    clear c
    by_cases c : st.msgBuffer 0 = K.CMD_LOAD_ADDRESS
    · rw [if_pos c]; exact simple_isLeave K st cmdLoadAddress (by simp)
    rw [if_neg c]
    clear c
    by_cases c : st.msgBuffer 0 = K.CMD_SET_UPLOAD_SIZE_PRUSA3D
    · rw [if_pos c]; exact simple_isLeave K st cmdSetUploadSize (by simp)
    rw [if_neg c]
    clear c
    by_cases c : st.msgBuffer 0 = K.CMD_PROGRAM_FLASH_ISP
    · rw [if_pos c]; exact hp
    rw [if_neg c]
    clear c
    by_cases c : st.msgBuffer 0 = K.CMD_PROGRAM_EEPROM_ISP
    · rw [if_pos c]; exact hp
    rw [if_neg c]
    clear c
    by_cases c : st.msgBuffer 0 = K.CMD_READ_FLASH_ISP
    · rw [if_pos c]; exact hr
    rw [if_neg c]
    clear c
    by_cases c : st.msgBuffer 0 = K.CMD_READ_EEPROM_ISP
    · rw [if_pos c]; exact hr
    rw [if_neg c]
    clear c
    exact simple_isLeave K st cmdDefault (by simp)

/-- The Read-Flash loop on `n` words from any address: the byte stored at
`msgBuffer[p + i]` is the flash byte at `(address + i) mod (FLASHEND + 1)`, and
`address` advances by `2n` modulo `2^32`. -/
theorem readFlashLoop_wrap (fuel : Nat) : ∀ (n : Nat) (st : State) (p : Nat),
    1 ≤ n → n ≤ fuel → n ≤ 32768 → (∀ x, st.flash x < 256) →
    ∃ st1, readFlashLoop fuel st p (2 * n) = Res.ok (st1, p + 2 * n) ∧
      st1.address = (st.address + 2 * n) % 2 ^ 32 ∧
      (∀ j, st1.msgBuffer j =
        if p ≤ j ∧ j < p + 2 * n then st.flash ((st.address + (j - p)) % (FLASHEND + 1))
        else st.msgBuffer j) := by
  induction fuel with
  | zero => intro n st p h1 h2; omega
  | succ fuel ih =>
    intro n st p h1 h2 h3 hbytes
    have hF : FLASHEND + 1 = 262144 := by decide
    rw [hF]
    have hb0 := hbytes (st.address % 262144)
    have hb1 := hbytes ((st.address + 1) % 262144)
    have hword : pgm_read_word_far st st.address =
        st.flash (st.address % 262144) + 256 * st.flash ((st.address + 1) % 262144) := by
      unfold pgm_read_word_far
      rw [hF]
    have hlo : pgm_read_word_far st st.address % 256 = st.flash (st.address % 262144) := by
      rw [hword]; omega
    have hhi : (pgm_read_word_far st st.address >>> 8) % 256
        = st.flash ((st.address + 1) % 262144) := by
      rw [hword, Nat.shiftRight_eq_div_pow]; omega
    have haddr : (readFlashStep st p).address = (st.address + 2) % 2 ^ 32 := rfl
    have hfl : (readFlashStep st p).flash = st.flash := rfl
    have hmb : ∀ j, (readFlashStep st p).msgBuffer j =
        if j = p + 1 then st.flash ((st.address + 1) % 262144)
        else if j = p then st.flash (st.address % 262144) else st.msgBuffer j := by
      intro j
      have h0 : (readFlashStep st p).msgBuffer j =
          Function.update (Function.update st.msgBuffer p
            (pgm_read_word_far st st.address % 256)) (p + 1)
            ((pgm_read_word_far st st.address >>> 8) % 256) j := rfl
      rw [h0, hlo, hhi]
      simp only [Function.update, eq_rec_constant, dite_eq_ite]
    simp only [readFlashLoop]
    have hsz : (2 * n + 65536 - 2) % 65536 = 2 * (n - 1) := by omega
    rw [hsz]
    by_cases hn : n = 1
    · subst hn
      refine ⟨readFlashStep st p, by simp, haddr, ?_⟩
      intro j
      rw [hmb]
      by_cases c1 : j = p + 1
      · rw [if_pos c1, if_pos (by omega)]
        subst c1
        rw [show p + 1 - p = 1 by omega]
      · rw [if_neg c1]
        by_cases c2 : j = p
        · rw [if_pos c2, if_pos (by omega)]
          subst c2
          rw [Nat.sub_self, Nat.add_zero]
        · rw [if_neg c2, if_neg (by omega)]
    · have hne : 2 * (n - 1) ≠ 0 := by omega
      rw [if_pos hne]
      obtain ⟨st1, e1, e2, e3⟩ := ih (n - 1) (readFlashStep st p) (p + 2) (by omega)
        (by omega) (by omega) (by intro x; rw [hfl]; exact hbytes x)
      rw [hF] at e3
      refine ⟨st1, by rw [e1, show p + 2 + 2 * (n - 1) = p + 2 * n by omega],
        by rw [e2, haddr]; omega, ?_⟩
      intro j
      rw [e3, haddr, hfl, hmb]
      by_cases c1 : j = p + 1
      · have : ¬ (p + 2 ≤ j ∧ j < p + 2 + 2 * (n - 1)) := by omega
        rw [if_neg this, if_pos c1, if_pos (by omega)]
        subst c1
        rw [show p + 1 - p = 1 by omega]
      · by_cases c2 : j = p
        · have : ¬ (p + 2 ≤ j ∧ j < p + 2 + 2 * (n - 1)) := by omega
          rw [if_neg this, if_neg c1, if_pos c2, if_pos (by omega)]
          subst c2
          rw [Nat.sub_self, Nat.add_zero]
        · by_cases c3 : p + 2 ≤ j ∧ j < p + 2 + 2 * (n - 1)
          · rw [if_pos c3, if_pos (by omega)]
            have hidx : ((st.address + 2) % 2 ^ 32 + (j - (p + 2))) % 262144
                = (st.address + (j - p)) % 262144 := by omega
            rw [hidx]
          · rw [if_neg c3, if_neg c1, if_neg c2, if_neg (by omega)]

/-- Read-Flash of `2m` bytes from any address: the reply is the opcode, a
status byte, the flash bytes at `(address + i) mod (FLASHEND + 1)` for
`i < 2m`, and a status byte; `address` advances by `2m` modulo `2^32`. -/
theorem cmdRead_wrap (K : CommandH) (fuel : Nat) (st : State) (m : Nat)
    (hop : st.msgBuffer 0 = K.CMD_READ_FLASH_ISP)
    (hsize : (st.msgBuffer 1 <<< 8 ||| st.msgBuffer 2) % 65536 = 2 * m)
    (hm1 : 1 ≤ m) (hm2 : 2 * m + 3 < 65536) (hbytes : ∀ x, st.flash x < 256)
    (hfuel : m ≤ fuel) :
    ∃ st1, cmdRead K fuel st = Res.ok st1 ∧
      st1.address = (st.address + 2 * m) % 2 ^ 32 ∧ st1.msgLength = 2 * m + 3 ∧
      st1.msgBuffer 0 = K.CMD_READ_FLASH_ISP ∧ st1.msgBuffer 1 = K.STATUS_CMD_OK ∧
      (∀ i, i < 2 * m →
        st1.msgBuffer (2 + i) = st.flash ((st.address + i) % (FLASHEND + 1))) ∧
      st1.msgBuffer (2 * m + 2) = K.STATUS_CMD_OK ∧
      st1.eraseAddress = st.eraseAddress ∧ st1.flash = st.flash ∧
      st1.isLeave = st.isLeave ∧ link st1 = link st := by
  obtain ⟨ra, rm, rr⟩ := readFlashProgress_core (readHeader K st (2 * m)) (2 * m)
  have ha : (readFlashProgress (readHeader K st (2 * m)) (2 * m)).address = st.address := ra
  have hfl : (readFlashProgress (readHeader K st (2 * m)) (2 * m)).flash = st.flash :=
    congrArg (fun t => t.2.2.1) rr
  have hmb : (readFlashProgress (readHeader K st (2 * m)) (2 * m)).msgBuffer =
      Function.update st.msgBuffer 1 K.STATUS_CMD_OK := rm
  obtain ⟨st3, l1, l2, l3⟩ := readFlashLoop_wrap fuel m
    (readFlashProgress (readHeader K st (2 * m)) (2 * m)) 2 hm1 hfuel (by omega)
    (by intro x; rw [hfl]; exact hbytes x)
  have l4 := readFlashLoop_inv besideRead (fun _ _ => rfl) fuel
    (readFlashProgress (readHeader K st (2 * m)) (2 * m)) 2 (2 * m)
  rw [l1] at l4
  simp only [Res.reachedFst] at l4
  rw [rr] at l4
  have k1 : st3.eraseAddress = st.eraseAddress := congrArg (fun t => t.1) l4
  have k3 : st3.flash = st.flash := congrArg (fun t => t.2.2.1) l4
  have k4 : st3.isLeave = st.isLeave := congrArg (fun t => t.2.2.2.1) l4
  have k5 : st3.msgLength = (2 * m + 3) % 65536 := congrArg (fun t => t.2.2.2.2.1) l4
  have k6 : link st3 = link st := congrArg (fun t => t.2.2.2.2.2) l4
  have hopH : (readHeader K st (2 * m)).msgBuffer 0 = K.CMD_READ_FLASH_ISP := by
    show Function.update st.msgBuffer 1 K.STATUS_CMD_OK 0 = _
    rw [Function.update_noteq (by decide), hop]
  refine ⟨setBuf st3 (2 + 2 * m) K.STATUS_CMD_OK, ?_, ?_, ?_, ?_, ?_, ?_, ?_, k1, k3, k4, k6⟩
  · unfold cmdRead
    simp only []
    rw [hsize, if_pos hopH, l1]
  · show st3.address = _
    rw [l2, ha]
  · show st3.msgLength = _
    rw [k5]
    exact Nat.mod_eq_of_lt hm2
  · show Function.update st3.msgBuffer (2 + 2 * m) K.STATUS_CMD_OK 0 = _
    rw [Function.update_noteq (by omega), l3, if_neg (by omega), hmb,
      Function.update_noteq (by decide), hop]
  · show Function.update st3.msgBuffer (2 + 2 * m) K.STATUS_CMD_OK 1 = _
    rw [Function.update_noteq (by omega), l3, if_neg (by omega), hmb, Function.update_same]
  · intro i hi
    show Function.update st3.msgBuffer (2 + 2 * m) K.STATUS_CMD_OK (2 + i) = _
    rw [Function.update_noteq (by omega), l3, if_pos (by omega), hfl, ha,
      show 2 + i - 2 = i by omega]
  · show Function.update st3.msgBuffer (2 + 2 * m) K.STATUS_CMD_OK (2 * m + 2) = _
    rw [show 2 * m + 2 = 2 + 2 * m by omega]
    exact Function.update_same _ _ _

/-- C23, as amended.  Read-Flash reply layout: for every `address = a` and
every even size `n` with `2 ≤ n ≤ 282` the reply has length `n + 3`, with the
opcode at `msgBuffer[0]`, `STATUS_CMD_OK` at `msgBuffer[1]` and at
`msgBuffer[n+2]`, and at `msgBuffer[2 + i]`, for `i < n`, the flash byte at
`(a + i) mod (FLASHEND + 1)`; afterwards `address = (a + n) mod 2^32`.  When
`a + n ≤ FLASHEND + 1` these are the flash bytes at `a, a+1, ..., a+n-1` and
`address = a + n`. -/
theorem read_flash_layout (K : CommandH) (hK : K.valid) (fuel : Nat) (st : State) (n : Nat)
    (hop : st.msgBuffer 0 = K.CMD_READ_FLASH_ISP)
    (hsize : (st.msgBuffer 1 <<< 8 ||| st.msgBuffer 2) % 65536 = n)
    (heven : n % 2 = 0) (hlo : 2 ≤ n) (hhi : n ≤ 282)
    (hbytes : ∀ x, st.flash x < 256) (hfuel : 141 ≤ fuel) :
    ∃ st1, processCommand K fuel st = Res.ok st1 ∧
      st1.msgLength = n + 3 ∧
      st1.msgBuffer 0 = K.CMD_READ_FLASH_ISP ∧ st1.msgBuffer 1 = K.STATUS_CMD_OK ∧
      (∀ i, i < n → st1.msgBuffer (2 + i) = st.flash ((st.address + i) % (FLASHEND + 1))) ∧
      st1.msgBuffer (n + 2) = K.STATUS_CMD_OK ∧
      st1.address = (st.address + n) % 2 ^ 32 ∧
      (st.address + n ≤ FLASHEND + 1 →
        (∀ i, i < n → st1.msgBuffer (2 + i) = st.flash (st.address + i)) ∧
        st1.address = st.address + n) := by
  have hn : n = 2 * (n / 2) := by omega
  obtain ⟨st1, e1, e2, e3, e4, e5, e6, e7, -⟩ := cmdRead_wrap K fuel st (n / 2) hop
    (by rw [hsize]; exact hn) (by omega) (by omega) hbytes (by omega)
  rw [← hn] at e2 e3 e6 e7
  have hF : FLASHEND + 1 = 262144 := by decide
  refine ⟨st1, by rw [processCommand_readFlash K hK fuel st hop, e1], e3, e4, e5, ?_, e7, e2, ?_⟩
  · intro i hi
    exact e6 i (by omega)
  · intro hend
    rw [hF] at hend
    constructor
    · intro i hi
      rw [e6 i (by omega), hF, Nat.mod_eq_of_lt (by omega)]
    · rw [e2]
      exact Nat.mod_eq_of_lt (by omega)

theorem readRequest_flash (x : Nat) : readRequest.flash x < 256 := by
  show x % 256 < 256
  omega

/-- Instance of C23: four bytes read at `0x1000` from a flash that holds the
low byte of each address. -/
theorem read_flash_layout_witness :
    ∃ st1, processCommand avr068 141 readRequest = Res.ok st1 ∧
      st1.msgLength = 4 + 3 ∧
      st1.msgBuffer 0 = avr068.CMD_READ_FLASH_ISP ∧ st1.msgBuffer 1 = avr068.STATUS_CMD_OK ∧
      (∀ i, i < 4 →
        st1.msgBuffer (2 + i) = readRequest.flash ((readRequest.address + i) % (FLASHEND + 1))) ∧
      st1.msgBuffer (4 + 2) = avr068.STATUS_CMD_OK ∧
      st1.address = (readRequest.address + 4) % 2 ^ 32 ∧
      (readRequest.address + 4 ≤ FLASHEND + 1 →
        (∀ i, i < 4 → st1.msgBuffer (2 + i) = readRequest.flash (readRequest.address + i)) ∧
        st1.address = readRequest.address + 4) :=
  read_flash_layout avr068 (by decide) 141 readRequest 4 (by decide) (by decide) (by decide)
    (by decide) (by decide) readRequest_flash (by decide)

theorem wrapReadRequest_flash (x : Nat) : wrapReadRequest.flash x < 256 := by
  show 0xFF < 256
  decide

/-- C23 fails as stated: Read-Flash of 2 bytes at `address = 0xFFFFFFFE`
returns with `address = 0`, while `a + n` is `2^32`. -/
theorem read_flash_wraps :
    ∃ st1, processCommand avr068 1 wrapReadRequest = Res.ok st1 ∧ st1.msgLength = 5 ∧
      st1.address = 0 ∧ wrapReadRequest.address + 2 = 4294967296 := by
  obtain ⟨st1, e1, e2, e3, -⟩ := cmdRead_wrap avr068 1 wrapReadRequest 1 (by decide)
    (by decide) (by decide) (by decide) wrapReadRequest_flash (by decide)
  refine ⟨st1, by rw [processCommand_readFlash avr068 (by decide) 1 wrapReadRequest
    (by decide), e1], e3, ?_, by decide⟩
  rw [e2]
  decide

/-! ## Theorems: the wait for the host -/

/-- A pass of the inner wait loop below the timeout counts only. -/
theorem waitStep_idle (st : State) (t : Nat) (ht : st.boot_timer = t)
    (hlt : t + 1 ≤ boot_timeout) : waitStep st = { st with boot_timer := t + 1 } := by
  have hb : boot_timeout = 20000 := rfl
  rw [hb] at hlt
  have hm : (t + 1) % 2 ^ 32 = t + 1 := Nat.mod_eq_of_lt (by omega)
  unfold waitStep
  rw [ht, hm, if_neg (by rw [hb]; omega)]

/-- The pass of the inner wait loop that exceeds the timeout sets
`boot_state` to 1. -/
theorem waitStep_expire (st : State) (ht : st.boot_timer = boot_timeout) :
    waitStep st = { st with boot_timer := boot_timeout + 1, boot_state := 1 } := by
  have hb : boot_timeout = 20000 := rfl
  have hm : (boot_timeout + 1) % 2 ^ 32 = boot_timeout + 1 := by rw [hb]; decide
  unfold waitStep
  rw [ht, hm, if_pos (by rw [hb]; decide)]

/-- While nothing arrives and the timeout is not exceeded, `m` polls leave the
inner wait loop running with `boot_timer` advanced by `m`. -/
theorem waitForData_idle (rx0 rx2 : Nat → Bool) : ∀ (m fuel : Nat) (st : State) (k t : Nat),
    st.boot_state = 0 → st.boot_timer = t → t + m ≤ boot_timeout →
    (∀ j, j < m → rx0 (k + j) = false ∧ rx2 (k + j) = false) →
    waitForData (fuel + m) rx0 rx2 st k =
      waitForData fuel rx0 rx2 { st with boot_timer := t + m } (k + m) := by
  intro m
  induction m with
  | zero =>
    intro fuel st k t _ ht _ _
    subst ht
    rfl
  | succ m ih =>
    intro fuel st k t hs ht hle hidle
    have h0 := hidle 0 (by omega)
    rw [Nat.add_zero] at h0
    rw [show fuel + (m + 1) = (fuel + m) + 1 by omega, waitForData,
      if_pos ⟨h0.1, h0.2, hs⟩, waitStep_idle st t ht (by omega),
      ih fuel { st with boot_timer := t + 1 } (k + 1) (t + 1) hs rfl (by omega)
        (by intro j hj; rw [show k + 1 + j = k + (j + 1) by omega]; exact hidle (j + 1) (by omega)),
      show t + 1 + m = t + (m + 1) by omega, show k + 1 + m = k + (m + 1) by omega]

/-- The inner wait loop goes on while nothing has arrived and `boot_state` is 0. -/
theorem waitForData_step (rx0 rx2 : Nat → Bool) (fuel : Nat) (st : State) (k : Nat)
    (h : rx0 k = false ∧ rx2 k = false ∧ st.boot_state = 0) :
    waitForData (fuel + 1) rx0 rx2 st k = waitForData fuel rx0 rx2 (waitStep st) (k + 1) := by
  rw [waitForData, if_pos h]

/-- The inner wait loop ends at the poll that finds a byte or `boot_state`
set. -/
theorem waitForData_stop (rx0 rx2 : Nat → Bool) (fuel : Nat) (st : State) (k : Nat)
    (h : ¬ (rx0 k = false ∧ rx2 k = false ∧ st.boot_state = 0)) :
    waitForData (fuel + 1) rx0 rx2 st k = Res.ok (st, k) := by
  rw [waitForData, if_neg h]

/-- One pass of the loop `while (boot_state==0)` whose inner loop ends. -/
theorem waitLoop_pass (rx0 rx2 : Nat → Bool) (fuel : Nat) (st st1 : State) (k k1 : Nat)
    (hs : st.boot_state = 0) (h : waitForData fuel rx0 rx2 st k = Res.ok (st1, k1)) :
    waitLoop (fuel + 1) rx0 rx2 st k =
      waitLoop fuel rx0 rx2 (waitSelect (rx2 k1) st1) (k1 + 1) := by
  rw [waitLoop, if_pos hs, h]

/-- The loop `while (boot_state==0)` ends once `boot_state` is not 0. -/
theorem waitLoop_done (rx0 rx2 : Nat → Bool) (fuel : Nat) (st : State) (k : Nat)
    (hs : st.boot_state ≠ 0) : waitLoop (fuel + 1) rx0 rx2 st k = Res.ok st := by
  rw [waitLoop, if_neg hs]

/-- The state behind lines 935-955, field by field. -/
theorem waitSelect_eq (b : Bool) (st : State) :
    waitSelect b st =
      { st with selectedSerial := if b = true then 2 else st.selectedSerial,
                boot_state := (st.boot_state + 1) % 65536 } := by
  cases b <;> rfl

/-- The wait loop when nothing arrives during the first `boot_timeout + 1`
polls. -/
theorem waitLoop_timeout (rx0 rx2 : Nat → Bool) (fuel : Nat) (st : State)
    (hs : st.boot_state = 0) (ht : st.boot_timer = 0)
    (hidle : ∀ k, k ≤ boot_timeout → rx0 k = false ∧ rx2 k = false) :
    waitLoop (fuel + boot_timeout + 3) rx0 rx2 st 0 =
      Res.ok { st with
        selectedSerial := if rx2 (boot_timeout + 1) = true then 2 else st.selectedSerial
        boot_timer := boot_timeout + 1
        boot_state := 2 } := by
  have h1 := waitForData_idle rx0 rx2 boot_timeout (fuel + 2) st 0 0 hs ht (by omega)
    (by intro j hj; rw [Nat.zero_add]; exact hidle j (by omega))
  rw [Nat.zero_add] at h1
  have hlast := hidle boot_timeout (Nat.le_refl _)
  have h2 := waitForData_step rx0 rx2 (fuel + 1) { st with boot_timer := boot_timeout }
    boot_timeout ⟨hlast.1, hlast.2, hs⟩
  rw [waitStep_expire { st with boot_timer := boot_timeout } rfl] at h2
  have h3 := waitForData_stop rx0 rx2 fuel
    ({ st with boot_timer := boot_timeout + 1, boot_state := 1 } : State) (boot_timeout + 1)
    (fun h => absurd (show (1 : Nat) = 0 from h.2.2) (by decide))
  have h4 : waitForData (fuel + 2 + boot_timeout) rx0 rx2 st 0 =
      Res.ok (({ st with boot_timer := boot_timeout + 1, boot_state := 1 } : State),
        boot_timeout + 1) := by
    rw [h1, h2]
    exact h3
  have hne : (waitSelect (rx2 (boot_timeout + 1))
      ({ st with boot_timer := boot_timeout + 1, boot_state := 1 } : State)).boot_state ≠ 0 := by
    rw [waitSelect_eq]
    show (1 + 1) % 65536 ≠ 0
    decide
  rw [show fuel + boot_timeout + 3 = (fuel + 2 + boot_timeout) + 1 by omega,
    waitLoop_pass rx0 rx2 _ st _ 0 _ hs h4,
    show fuel + 2 + boot_timeout = (fuel + 1 + boot_timeout) + 1 by omega,
    waitLoop_done _ _ _ _ _ hne, waitSelect_eq]
  rfl

/-- The wait loop when the first byte is there at the poll number `k0`, one
of the first `boot_timeout + 1` polls. -/
theorem waitLoop_data (rx0 rx2 : Nat → Bool) (fuel : Nat) (st : State) (k0 : Nat)
    (hs : st.boot_state = 0) (ht : st.boot_timer = 0) (hk : k0 ≤ boot_timeout)
    (hidle : ∀ k, k < k0 → rx0 k = false ∧ rx2 k = false)
    (hdata : rx0 k0 = true ∨ rx2 k0 = true) :
    waitLoop (fuel + boot_timeout + 3) rx0 rx2 st 0 =
      Res.ok { st with
        selectedSerial := if rx2 k0 = true then 2 else st.selectedSerial
        boot_timer := k0
        boot_state := 1 } := by
  have h1 := waitForData_idle rx0 rx2 k0 (fuel + 1 + (boot_timeout - k0) + 1) st 0 0 hs ht
    (by omega) (by intro j hj; rw [Nat.zero_add]; exact hidle j hj)
  rw [Nat.zero_add] at h1
  have h2 := waitForData_stop rx0 rx2 (fuel + 1 + (boot_timeout - k0))
    ({ st with boot_timer := k0 } : State) k0
    (by
      intro h
      rcases hdata with h0 | h2
      · rw [h.1] at h0; exact absurd h0 (by decide)
      · rw [h.2.1] at h2; exact absurd h2 (by decide))
  have h4 : waitForData (fuel + 1 + (boot_timeout - k0) + 1 + k0) rx0 rx2 st 0 =
      Res.ok (({ st with boot_timer := k0 } : State), k0) := by
    rw [h1]
    exact h2
  have hs1 : (0 + 1) % 65536 = 1 := by decide
  have hne : (waitSelect (rx2 k0) ({ st with boot_timer := k0 } : State)).boot_state ≠ 0 := by
    rw [waitSelect_eq]
    show (st.boot_state + 1) % 65536 ≠ 0
    rw [hs]
    decide
  rw [show fuel + boot_timeout + 3 = (fuel + 1 + (boot_timeout - k0) + 1 + k0) + 1 by omega,
    waitLoop_pass rx0 rx2 _ st _ 0 _ hs h4,
    show fuel + 1 + (boot_timeout - k0) + 1 + k0 = (fuel + 1 + (boot_timeout - k0) + k0) + 1
      by omega,
    waitLoop_done _ _ _ _ _ hne, waitSelect_eq]
  show Res.ok ({ st with selectedSerial := if rx2 k0 = true then 2 else st.selectedSerial,
                         boot_timer := k0,
                         boot_state := (st.boot_state + 1) % 65536 } : State) = _
  rw [hs, hs1]

/-- C30. Boot timeout: from the initial `boot_state = 0` and `boot_timer = 0`,
if no byte is there on either port during the first `boot_timeout + 1 = 20001`
polls of the wait loop, the loop ends with `boot_state = 2` and the code goes
from `start` to `exit` without entering the command loop: nothing but
`selectedSerial`, `boot_timer` and `boot_state` has changed, so no frame was
decoded and no byte sent.  If the first byte is there at one of these polls,
the loop ends with `boot_state = 1` and the command loop is entered. -/
theorem boot_timeout_gate (K : CommandH) (fuel n : Nat) (rx0 rx2 : Nat → Bool) (st : State)
    (input : List Nat) (hs : st.boot_state = 0) (ht : st.boot_timer = 0)
    (hfuel : boot_timeout + 3 ≤ fuel) :
    boot_timeout + 1 = 20001 ∧
    ((∀ k, k ≤ boot_timeout → rx0 k = false ∧ rx2 k = false) →
      ∃ st1, waitLoop fuel rx0 rx2 { st with selectedSerial := 0 } 0 = Res.ok st1 ∧
        st1.boot_state = 2 ∧
        mainFromStart K fuel n rx0 rx2 st input = Res.ok st1 ∧
        st1 = { st with
                selectedSerial := if rx2 (boot_timeout + 1) = true then 2 else 0
                boot_timer := boot_timeout + 1
                boot_state := 2 } ∧
        st1.tx = st.tx ∧ st1.msgParseState = st.msgParseState ∧
        st1.msgBuffer = st.msgBuffer ∧ session st1 = session st) ∧
    (∀ k0, k0 ≤ boot_timeout → (∀ k, k < k0 → rx0 k = false ∧ rx2 k = false) →
      (rx0 k0 = true ∨ rx2 k0 = true) →
      ∃ st1, waitLoop fuel rx0 rx2 { st with selectedSerial := 0 } 0 = Res.ok st1 ∧
        st1.boot_state = 1 ∧
        mainFromStart K fuel n rx0 rx2 st input = mainLoop K fuel n st1 input ∧
        st1 = { st with
                selectedSerial := if rx2 k0 = true then 2 else 0
                boot_timer := k0
                boot_state := 1 }) := by
  obtain ⟨f, rfl⟩ : ∃ f, fuel = f + boot_timeout + 3 := ⟨fuel - (boot_timeout + 3), by omega⟩
  refine ⟨rfl, ?_, ?_⟩
  · intro hidle
    have hw := waitLoop_timeout rx0 rx2 f { st with selectedSerial := 0 } hs ht hidle
    refine ⟨_, hw, rfl, ?_, rfl, rfl, rfl, rfl, rfl⟩
    unfold mainFromStart
    simp only []
    rw [hw]
    exact if_neg (show ¬ ((2 : Nat) = 1) by decide)
  · intro k0 hk hidle hdata
    have hw := waitLoop_data rx0 rx2 f { st with selectedSerial := 0 } k0 hs ht hk hidle hdata
    refine ⟨_, hw, rfl, ?_, rfl⟩
    unfold mainFromStart
    simp only []
    rw [hw]
    exact if_pos rfl

/-- Instance of C30: with both lines silent a machine fresh from reset reaches
`exit` with `boot_state = 2` and nothing sent; with a byte on UART0 at the poll
number 5 it enters the command loop with `boot_state = 1`. -/
theorem boot_timeout_gate_witness :
    (∃ st1, mainFromStart avr068 20003 1 silent silent resetState [] = Res.ok st1 ∧
      st1.boot_state = 2 ∧ st1.tx = []) ∧
    (∃ st1, mainFromStart avr068 20003 1 (arrivesAt 5) silent resetState []
        = mainLoop avr068 20003 1 st1 [] ∧
      st1.boot_state = 1 ∧ st1.boot_timer = 5) := by
  obtain ⟨-, h1, -⟩ := boot_timeout_gate avr068 20003 1 silent silent resetState [] rfl rfl
    (by decide)
  obtain ⟨-, -, h2⟩ := boot_timeout_gate avr068 20003 1 (arrivesAt 5) silent resetState [] rfl
    rfl (by decide)
  obtain ⟨st1, -, a2, a3, -, a5, -⟩ := h1 (fun _ _ => ⟨rfl, rfl⟩)
  obtain ⟨st2, -, b2, b3, b4⟩ := h2 5 (by decide)
    (fun k hk => ⟨by simp only [arrivesAt, decide_eq_false_iff_not]; omega, rfl⟩)
    (Or.inl (by decide))
  refine ⟨⟨st1, a3, a2, a5⟩, ⟨st2, b3, b2, ?_⟩⟩
  rw [b4]

/-! ## Theorems: writing and reading the EEPROM -/

/-- With distinct case labels the Program-EEPROM opcode selects its case. -/
theorem processCommand_programEeprom (K : CommandH) (hK : K.valid) (fuel : Nat) (st : State)
    (hop : st.msgBuffer 0 = K.CMD_PROGRAM_EEPROM_ISP) :
    processCommand K fuel st = cmdProgram K fuel st := by
  unfold processCommand
  rw [hop]
  have n0 : K.CMD_PROGRAM_EEPROM_ISP ≠ K.CMD_SPI_MULTI :=
    label_ne K hK 14 0 (by decide) (by decide) (by decide)
  rw [if_neg n0]
  have n1 : K.CMD_PROGRAM_EEPROM_ISP ≠ K.CMD_SIGN_ON :=
    label_ne K hK 14 1 (by decide) (by decide) (by decide)
  rw [if_neg n1]
  have n2 : K.CMD_PROGRAM_EEPROM_ISP ≠ K.CMD_GET_PARAMETER :=
    label_ne K hK 14 2 (by decide) (by decide) (by decide)
  rw [if_neg n2]
  have n3 : K.CMD_PROGRAM_EEPROM_ISP ≠ K.CMD_LEAVE_PROGMODE_ISP :=
    label_ne K hK 14 3 (by decide) (by decide) (by decide)
  rw [if_neg n3]
  have n4 : K.CMD_PROGRAM_EEPROM_ISP ≠ K.CMD_SET_PARAMETER :=
    label_ne K hK 14 4 (by decide) (by decide) (by decide)
  rw [if_neg n4]
  have n5 : K.CMD_PROGRAM_EEPROM_ISP ≠ K.CMD_ENTER_PROGMODE_ISP :=
    label_ne K hK 14 5 (by decide) (by decide) (by decide)
  rw [if_neg n5]
  have n6 : K.CMD_PROGRAM_EEPROM_ISP ≠ K.CMD_READ_SIGNATURE_ISP :=
    label_ne K hK 14 6 (by decide) (by decide) (by decide)
  rw [if_neg n6]
  have n7 : K.CMD_PROGRAM_EEPROM_ISP ≠ K.CMD_READ_LOCK_ISP :=
    label_ne K hK 14 7 (by decide) (by decide) (by decide)
  rw [if_neg n7]
  have n8 : K.CMD_PROGRAM_EEPROM_ISP ≠ K.CMD_READ_FUSE_ISP :=
    label_ne K hK 14 8 (by decide) (by decide) (by decide)
  rw [if_neg n8]
  have n9 : K.CMD_PROGRAM_EEPROM_ISP ≠ K.CMD_PROGRAM_LOCK_ISP :=
    label_ne K hK 14 9 (by decide) (by decide) (by decide)
  rw [if_neg n9]
  have n10 : K.CMD_PROGRAM_EEPROM_ISP ≠ K.CMD_CHIP_ERASE_ISP :=
    label_ne K hK 14 10 (by decide) (by decide) (by decide)
  rw [if_neg n10]
  have n11 : K.CMD_PROGRAM_EEPROM_ISP ≠ K.CMD_LOAD_ADDRESS :=
    label_ne K hK 14 11 (by decide) (by decide) (by decide)
  rw [if_neg n11]
  have n12 : K.CMD_PROGRAM_EEPROM_ISP ≠ K.CMD_SET_UPLOAD_SIZE_PRUSA3D :=
    label_ne K hK 14 12 (by decide) (by decide) (by decide)
  rw [if_neg n12]
  have n13 : K.CMD_PROGRAM_EEPROM_ISP ≠ K.CMD_PROGRAM_FLASH_ISP :=
    label_ne K hK 14 13 (by decide) (by decide) (by decide)
  rw [if_neg n13]
  rw [if_pos rfl]

/-- With distinct case labels the Read-EEPROM opcode selects its case. -/
theorem processCommand_readEeprom (K : CommandH) (hK : K.valid) (fuel : Nat) (st : State)
    (hop : st.msgBuffer 0 = K.CMD_READ_EEPROM_ISP) :
    processCommand K fuel st = cmdRead K fuel st := by
  unfold processCommand
  rw [hop]
  have n0 : K.CMD_READ_EEPROM_ISP ≠ K.CMD_SPI_MULTI :=
    label_ne K hK 16 0 (by decide) (by decide) (by decide)
  rw [if_neg n0]
  have n1 : K.CMD_READ_EEPROM_ISP ≠ K.CMD_SIGN_ON :=
    label_ne K hK 16 1 (by decide) (by decide) (by decide)
  rw [if_neg n1]
  have n2 : K.CMD_READ_EEPROM_ISP ≠ K.CMD_GET_PARAMETER :=
    label_ne K hK 16 2 (by decide) (by decide) (by decide)
  rw [if_neg n2]
  have n3 : K.CMD_READ_EEPROM_ISP ≠ K.CMD_LEAVE_PROGMODE_ISP :=
    label_ne K hK 16 3 (by decide) (by decide) (by decide)
  rw [if_neg n3]
  have n4 : K.CMD_READ_EEPROM_ISP ≠ K.CMD_SET_PARAMETER :=
    label_ne K hK 16 4 (by decide) (by decide) (by decide)
  rw [if_neg n4]
  have n5 : K.CMD_READ_EEPROM_ISP ≠ K.CMD_ENTER_PROGMODE_ISP :=
    label_ne K hK 16 5 (by decide) (by decide) (by decide)
  rw [if_neg n5]
  have n6 : K.CMD_READ_EEPROM_ISP ≠ K.CMD_READ_SIGNATURE_ISP :=
    label_ne K hK 16 6 (by decide) (by decide) (by decide)
  rw [if_neg n6]
  have n7 : K.CMD_READ_EEPROM_ISP ≠ K.CMD_READ_LOCK_ISP :=
    label_ne K hK 16 7 (by decide) (by decide) (by decide)
  rw [if_neg n7]
  have n8 : K.CMD_READ_EEPROM_ISP ≠ K.CMD_READ_FUSE_ISP :=
    label_ne K hK 16 8 (by decide) (by decide) (by decide)
  rw [if_neg n8]
  have n9 : K.CMD_READ_EEPROM_ISP ≠ K.CMD_PROGRAM_LOCK_ISP :=
    label_ne K hK 16 9 (by decide) (by decide) (by decide)
  rw [if_neg n9]
  have n10 : K.CMD_READ_EEPROM_ISP ≠ K.CMD_CHIP_ERASE_ISP :=
    label_ne K hK 16 10 (by decide) (by decide) (by decide)
  rw [if_neg n10]
  have n11 : K.CMD_READ_EEPROM_ISP ≠ K.CMD_LOAD_ADDRESS :=
    label_ne K hK 16 11 (by decide) (by decide) (by decide)
  rw [if_neg n11]
  have n12 : K.CMD_READ_EEPROM_ISP ≠ K.CMD_SET_UPLOAD_SIZE_PRUSA3D :=
    label_ne K hK 16 12 (by decide) (by decide) (by decide)
  rw [if_neg n12]
  have n13 : K.CMD_READ_EEPROM_ISP ≠ K.CMD_PROGRAM_FLASH_ISP :=
    label_ne K hK 16 13 (by decide) (by decide) (by decide)
  rw [if_neg n13]
  have n14 : K.CMD_READ_EEPROM_ISP ≠ K.CMD_PROGRAM_EEPROM_ISP :=
    label_ne K hK 16 14 (by decide) (by decide) (by decide)
  rw [if_neg n14]
  have n15 : K.CMD_READ_EEPROM_ISP ≠ K.CMD_READ_FLASH_ISP :=
    label_ne K hK 16 15 (by decide) (by decide) (by decide)
  rw [if_neg n15]
  rw [if_pos rfl]

/-- The Program-EEPROM loop on `n` bytes that stay inside the EEPROM: the
bytes `msgBuffer[p .. p + n)` go to the cells `ii, ii + 1, ...`, and `address`
advances by `2n` modulo `2^32`. -/
theorem programEepromLoop_write (fuel : Nat) : ∀ (n : Nat) (st : State) (p ii : Nat),
    n < fuel → ii + n ≤ E2END + 1 → st.address < 2 ^ 32 →
    ∃ st1, programEepromLoop fuel st p ii n = Res.ok st1 ∧
      st1.address = (st.address + 2 * n) % 2 ^ 32 ∧
      (∀ x, st1.eeprom x =
        if ii ≤ x ∧ x < ii + n then st.msgBuffer (p + (x - ii)) else st.eeprom x) ∧
      st1.msgBuffer = st.msgBuffer := by
  induction fuel with
  | zero => intro n st p ii h; omega
  | succ fuel ih =>
    intro n st p ii hn hend ha
    have hE : E2END + 1 = 4096 := by decide
    rw [hE] at hend
    rw [programEepromLoop]
    by_cases h0 : n = 0
    · subst h0
      rw [if_neg (by decide)]
      refine ⟨st, rfl, ?_, ?_, rfl⟩
      · rw [Nat.mul_zero, Nat.add_zero, Nat.mod_eq_of_lt ha]
      · intro x
        rw [if_neg (by omega)]
    · rw [if_pos h0]
      have haddr : (programEepromStep st p ii).address = (st.address + 2) % 2 ^ 32 := rfl
      have hmb : (programEepromStep st p ii).msgBuffer = st.msgBuffer := rfl
      have hee : ∀ x, (programEepromStep st p ii).eeprom x =
          if x = ii then st.msgBuffer p else st.eeprom x := by
        intro x
        have e0 : (programEepromStep st p ii).eeprom x =
            Function.update st.eeprom (ii % (E2END + 1)) (st.msgBuffer p) x := rfl
        rw [e0, hE, Nat.mod_eq_of_lt (by omega)]
        simp only [Function.update, eq_rec_constant, dite_eq_ite]
      obtain ⟨st1, e1, e2, e3, e4⟩ := ih (n - 1) (programEepromStep st p ii) (p + 1)
        ((ii + 1) % 65536) (by omega)
        (by rw [hE, Nat.mod_eq_of_lt (by omega)]; omega)
        (by rw [haddr]; exact Nat.mod_lt _ (by decide))
      rw [Nat.mod_eq_of_lt (by omega : ii + 1 < 65536)] at e3
      refine ⟨st1, e1, by rw [e2, haddr]; omega, ?_, by rw [e4, hmb]⟩
      intro x
      rw [e3, hmb, hee]
      by_cases c1 : x = ii
      · rw [if_neg (by omega), if_pos c1, if_pos (by omega)]
        subst c1
        rw [Nat.sub_self, Nat.add_zero]
      · by_cases c2 : ii + 1 ≤ x ∧ x < ii + 1 + (n - 1)
        · rw [if_pos c2, if_pos (by omega),
            show p + 1 + (x - (ii + 1)) = p + (x - ii) by omega]
        · rw [if_neg c2, if_neg c1, if_neg (by omega)]

/-- The Read-EEPROM loop on `n` bytes that stay inside the EEPROM: the cells
from `address` on are stored at `msgBuffer[p .. p + n)`. -/
theorem readEepromLoop_read (fuel : Nat) : ∀ (n : Nat) (st : State) (p : Nat),
    1 ≤ n → n ≤ fuel → st.address + n ≤ E2END + 1 →
    ∃ st1, readEepromLoop fuel st p n = Res.ok (st1, p + n) ∧
      st1.address = st.address + n ∧ st1.eeprom = st.eeprom ∧
      (∀ j, st1.msgBuffer j =
        if p ≤ j ∧ j < p + n then st.eeprom (st.address + (j - p)) else st.msgBuffer j) := by
  induction fuel with
  | zero => intro n st p h1 h2; omega
  | succ fuel ih =>
    intro n st p h1 h2 hend
    have hE : E2END + 1 = 4096 := by decide
    rw [hE] at hend
    have haddr : (readEepromStep st p).address = st.address + 1 := by
      have e0 : (readEepromStep st p).address = (st.address + 1) % 2 ^ 32 := rfl
      rw [e0]
      exact Nat.mod_eq_of_lt (by omega)
    have hee : (readEepromStep st p).eeprom = st.eeprom := rfl
    have hmb : ∀ j, (readEepromStep st p).msgBuffer j =
        if j = p then st.eeprom st.address else st.msgBuffer j := by
      intro j
      have e0 : (readEepromStep st p).msgBuffer j =
          Function.update st.msgBuffer p (st.eeprom (st.address % (E2END + 1))) j := rfl
      rw [e0, hE, Nat.mod_eq_of_lt (by omega)]
      simp only [Function.update, eq_rec_constant, dite_eq_ite]
    simp only [readEepromLoop]
    have hsz : (n + 65536 - 1) % 65536 = n - 1 := by omega
    rw [hsz]
    by_cases hn : n = 1
    · subst hn
      refine ⟨readEepromStep st p, by simp, haddr, hee, ?_⟩
      intro j
      rw [hmb]
      by_cases c1 : j = p
      · rw [if_pos c1, if_pos (by omega)]
        subst c1
        rw [Nat.sub_self, Nat.add_zero]
      · rw [if_neg c1, if_neg (by omega)]
    · have hne : n - 1 ≠ 0 := by omega
      rw [if_pos hne]
      obtain ⟨st1, e1, e2, e3, e4⟩ := ih (n - 1) (readEepromStep st p) (p + 1) (by omega)
        (by omega) (by rw [haddr, hE]; omega)
      refine ⟨st1, by rw [e1, show p + 1 + (n - 1) = p + n by omega],
        by rw [e2, haddr]; omega, by rw [e3, hee], ?_⟩
      intro j
      rw [e4, haddr, hee, hmb]
      by_cases c1 : j = p
      · rw [if_neg (by omega), if_pos c1, if_pos (by omega)]
        subst c1
        rw [Nat.sub_self, Nat.add_zero]
      · by_cases c2 : p + 1 ≤ j ∧ j < p + 1 + (n - 1)
        · rw [if_pos c2, if_pos (by omega),
            show st.address + 1 + (j - (p + 1)) = st.address + (j - p) by omega]
        · rw [if_neg c2, if_neg c1, if_neg (by omega)]

/-- Program-EEPROM of `n` bytes that stay inside the EEPROM: the data bytes
`msgBuffer[10 .. 10 + n)` go to the cells from `(address >> 1) mod 2^16` on,
`address` advances by `2n` modulo `2^32`, and the answer is the opcode and
`STATUS_CMD_OK`. -/
theorem cmdProgram_eeprom (K : CommandH) (fuel : Nat) (st : State) (n : Nat)
    (hne : st.msgBuffer 0 ≠ K.CMD_PROGRAM_FLASH_ISP)
    (hsize : (st.msgBuffer 1 <<< 8 ||| st.msgBuffer 2) % 65536 = n) (hfuel : n < fuel)
    (hend : (st.address >>> 1) % 65536 + n ≤ E2END + 1) (ha : st.address < 2 ^ 32) :
    ∃ st1, cmdProgram K fuel st = Res.ok st1 ∧
      st1.address = (st.address + 2 * n) % 2 ^ 32 ∧
      (∀ x, st1.eeprom x =
        if (st.address >>> 1) % 65536 ≤ x ∧ x < (st.address >>> 1) % 65536 + n then
          st.msgBuffer (10 + (x - (st.address >>> 1) % 65536))
        else st.eeprom x) ∧
      st1.msgLength = 2 ∧ st1.msgBuffer 0 = st.msgBuffer 0 ∧
      st1.msgBuffer 1 = K.STATUS_CMD_OK := by
  obtain ⟨st1, e1, e2, e3, e4⟩ := programEepromLoop_write fuel n st 10
    ((st.address >>> 1) % 65536) hfuel hend ha
  refine ⟨answerOk K st1, ?_, e2, e3, rfl, ?_, ?_⟩
  · unfold cmdProgram
    simp only []
    rw [if_neg hne, hsize, e1]
  · show Function.update st1.msgBuffer 1 K.STATUS_CMD_OK 0 = _
    rw [Function.update_noteq (by decide), e4]
  · show Function.update st1.msgBuffer 1 K.STATUS_CMD_OK 1 = _
    rw [Function.update_same]

/-- Read-EEPROM of `n` bytes that stay inside the EEPROM: the reply is the
opcode, a status byte, the cells from `address` on, and a status byte. -/
theorem cmdRead_eeprom (K : CommandH) (fuel : Nat) (st : State) (n : Nat)
    (hne : st.msgBuffer 0 ≠ K.CMD_READ_FLASH_ISP)
    (hsize : (st.msgBuffer 1 <<< 8 ||| st.msgBuffer 2) % 65536 = n)
    (hn1 : 1 ≤ n) (hn2 : n + 3 < 65536) (hfuel : n ≤ fuel)
    (hend : st.address + n ≤ E2END + 1) :
    ∃ st1, cmdRead K fuel st = Res.ok st1 ∧
      st1.address = st.address + n ∧ st1.eeprom = st.eeprom ∧ st1.msgLength = n + 3 ∧
      st1.msgBuffer 0 = st.msgBuffer 0 ∧ st1.msgBuffer 1 = K.STATUS_CMD_OK ∧
      (∀ i, i < n → st1.msgBuffer (2 + i) = st.eeprom (st.address + i)) ∧
      st1.msgBuffer (n + 2) = K.STATUS_CMD_OK := by
  have hneH : (readHeader K st n).msgBuffer 0 ≠ K.CMD_READ_FLASH_ISP := by
    show Function.update st.msgBuffer 1 K.STATUS_CMD_OK 0 ≠ _
    rw [Function.update_noteq (by decide)]
    exact hne
  obtain ⟨st3, l1, l2, l3, l4⟩ := readEepromLoop_read fuel n (readHeader K st n) 2 hn1 hfuel hend
  have l5 := readEepromLoop_inv (fun s => s.msgLength) (fun _ _ => rfl) fuel
    (readHeader K st n) 2 n
  rw [l1] at l5
  have k5 : st3.msgLength = (n + 3) % 65536 := l5
  have hmb : (readHeader K st n).msgBuffer = Function.update st.msgBuffer 1 K.STATUS_CMD_OK :=
    rfl
  refine ⟨setBuf st3 (2 + n) K.STATUS_CMD_OK, ?_, l2, l3, ?_, ?_, ?_, ?_, ?_⟩
  · unfold cmdRead
    simp only []
    rw [hsize, if_neg hneH, l1]
  · show st3.msgLength = _
    rw [k5]
    exact Nat.mod_eq_of_lt hn2
  · show Function.update st3.msgBuffer (2 + n) K.STATUS_CMD_OK 0 = _
    rw [Function.update_noteq (by omega), l4, if_neg (by omega), hmb,
      Function.update_noteq (by decide)]
  · show Function.update st3.msgBuffer (2 + n) K.STATUS_CMD_OK 1 = _
    rw [Function.update_noteq (by omega), l4, if_neg (by omega), hmb, Function.update_same]
  · intro i hi
    show Function.update st3.msgBuffer (2 + n) K.STATUS_CMD_OK (2 + i) = _
    rw [Function.update_noteq (by omega), l4, if_pos (by omega),
      show 2 + i - 2 = i by omega]
    rfl
  · show Function.update st3.msgBuffer (2 + n) K.STATUS_CMD_OK (n + 2) = _
    rw [show n + 2 = 2 + n by omega]
    exact Function.update_same _ _ _

theorem sendchar_eeprom (st : State) (c : Nat) : (sendchar st c).eeprom = st.eeprom := by
  unfold sendchar; split_ifs <;> rfl

theorem receiving_eeprom (st : State) : (receiving st).eeprom = st.eeprom := by
  unfold receiving fetchByte
  split_ifs <;> rfl

/-- One pass of the main loop on a well-formed frame whose command is not
Leave-program-mode and returns: the answer sent is the frame of the reply the
command left, and sending leaves `address` and the EEPROM as the command left
them. -/
theorem mainLoop_command (K : CommandH) (hK : K.valid) (fuel n : Nat) (st st2 : State)
    (s : Nat) (P rest : List Nat) (hl : st.isLeave = 0)
    (hser : st.selectedSerial = 0 ∨ st.selectedSerial = 2)
    (h1 : 1 ≤ P.length) (h2 : P.length ≤ 285)
    (hne : P.getD 0 0 ≠ K.CMD_LEAVE_PROGMODE_ISP)
    (hp : processCommand K fuel
      (accepted (receiving st) s P (xorAll (frameBody K s P))) = Res.ok st2)
    (hL : st2.msgLength < 65536) :
    mainLoop K fuel (n + 1) st (frame K s P ++ rest)
      = mainLoop K fuel n (sendAnswer K st2) rest ∧
    (sendAnswer K st2).tx = st.tx ++ frame K s (bufferBytes st2.msgBuffer 0 st2.msgLength) ∧
    (sendAnswer K st2).isLeave = 0 ∧
    (sendAnswer K st2).selectedSerial = st.selectedSerial ∧
    (sendAnswer K st2).address = st2.address ∧ (sendAnswer K st2).eeprom = st2.eeprom := by
  obtain ⟨-, -, -, -, r5, r6, -, r8⟩ := receiving_fields st
  have hlink := processCommand_link K fuel
    (accepted (receiving st) s P (xorAll (frameBody K s P)))
  rw [hp] at hlink
  obtain ⟨q1, q2, q3⟩ := link_eq hlink
  have q1' : st2.seqNum = s := q1
  have q2' : st2.selectedSerial = st.selectedSerial := q2.trans r6
  have q3' : st2.tx = st.tx := q3.trans r8
  have hser2 : st2.selectedSerial = 0 ∨ st2.selectedSerial = 2 := by rw [q2']; exact hser
  have m0 : (accepted (receiving st) s P (xorAll (frameBody K s P))).msgBuffer 0
      = P.getD 0 0 := by
    show storeAt (receiving st).msgBuffer 0 P 0 = _
    rw [storeAt_zero _ _ _ (by omega)]
  have hil := processCommand_isLeave K hK fuel
    (accepted (receiving st) s P (xorAll (frameBody K s P)))
  rw [hp, m0, if_neg hne] at hil
  have hil2 : st2.isLeave = 0 := by
    have : st2.isLeave = (receiving st).isLeave := hil
    rw [this, r5, hl]
  obtain ⟨b1, -, -, -, b5, b6⟩ := besideSend_eq (sendAnswer_besideSend K st2 hser2)
  refine ⟨mainLoop_frame K fuel n st st2 s P rest hl h1 h2 hp, ?_, by rw [b5, hil2],
    by rw [b6, q2'], b1, ?_⟩
  · rw [sendAnswer_tx K st2 hser2 hL, replyBody_eq_frameBody K st2 hL, q1', q3']
    rfl
  · exact sendAnswer_inv (fun s => s.eeprom) K sendchar_eeprom (fun _ _ _ => rfl)
      (fun _ _ => rfl) (fun _ _ => rfl) st2

/-- The size field of a message built from `n / 256` and `n % 256`. -/
theorem size_join (n : Nat) (h : n < 65536) : ((n / 256) <<< 8 ||| n % 256) % 65536 = n := by
  have e : (n / 256) <<< 8 = 2 ^ 8 * (n / 256) := by rw [Nat.shiftLeft_eq, Nat.mul_comm]
  rw [e, ← Nat.mul_add_lt_is_or (by omega : n % 256 < 2 ^ 8)]
  omega

/-- The Load-address frame for a word address below `2^31`, handled by the
main loop: `address` becomes twice the word address. -/
theorem mainLoop_loadAddress (K : CommandH) (hK : K.valid) (fuel n : Nat) (st : State)
    (s w : Nat) (rest : List Nat) (hl : st.isLeave = 0)
    (hser : st.selectedSerial = 0 ∨ st.selectedSerial = 2) (hw : w < 2 ^ 31) :
    ∃ st1, mainLoop K fuel (n + 1) st (frame K s (loadAddressMsg K w) ++ rest)
        = mainLoop K fuel n st1 rest ∧
      st1.isLeave = 0 ∧ st1.selectedSerial = st.selectedSerial ∧ st1.address = 2 * w ∧
      st1.eeprom = st.eeprom ∧
      st1.tx = st.tx ++ frame K s [K.CMD_LOAD_ADDRESS, K.STATUS_CMD_OK] := by
  have hlen : (loadAddressMsg K w).length = 5 := rfl
  have hm : ∀ j, j < 5 → storeAt (receiving st).msgBuffer 0 (loadAddressMsg K w) j =
      (loadAddressMsg K w).getD j 0 := fun j hj => storeAt_zero _ _ _ (by rw [hlen]; exact hj)
  have m0 : storeAt (receiving st).msgBuffer 0 (loadAddressMsg K w) 0 = K.CMD_LOAD_ADDRESS :=
    hm 0 (by omega)
  have m1 : storeAt (receiving st).msgBuffer 0 (loadAddressMsg K w) 1 = w / 16777216 % 256 :=
    hm 1 (by omega)
  have m2 : storeAt (receiving st).msgBuffer 0 (loadAddressMsg K w) 2 = w / 65536 % 256 :=
    hm 2 (by omega)
  have m3 : storeAt (receiving st).msgBuffer 0 (loadAddressMsg K w) 3 = w / 256 % 256 :=
    hm 3 (by omega)
  have m4 : storeAt (receiving st).msgBuffer 0 (loadAddressMsg K w) 4 = w % 256 :=
    hm 4 (by omega)
  have hp := processCommand_loadAddress K hK fuel
    (accepted (receiving st) s (loadAddressMsg K w)
      (xorAll (frameBody K s (loadAddressMsg K w)))) m0
  have hne : (loadAddressMsg K w).getD 0 0 ≠ K.CMD_LEAVE_PROGMODE_ISP :=
    label_ne K hK 11 3 (by decide) (by decide) (by decide)
  obtain ⟨c1, c2, c3, c4, c5, c6⟩ := mainLoop_command K hK fuel n st _ s (loadAddressMsg K w)
    rest hl hser (by rw [hlen]; omega) (by rw [hlen]; omega) hne hp
    (by show (2 : Nat) < 65536; decide)
  refine ⟨_, c1, c3, c4, ?_, ?_, ?_⟩
  · rw [c5]
    show ((storeAt (receiving st).msgBuffer 0 (loadAddressMsg K w) 1 <<< 24 |||
      storeAt (receiving st).msgBuffer 0 (loadAddressMsg K w) 2 <<< 16 |||
      storeAt (receiving st).msgBuffer 0 (loadAddressMsg K w) 3 <<< 8 |||
      storeAt (receiving st).msgBuffer 0 (loadAddressMsg K w) 4) <<< 1) % 2 ^ 32 = 2 * w
    rw [m1, m2, m3, m4, bytes_join _ _ _ _ (Nat.mod_lt _ (by decide))
      (Nat.mod_lt _ (by decide)) (Nat.mod_lt _ (by decide)), Nat.shiftLeft_eq]
    omega
  · rw [c6]
    exact receiving_eeprom st
  · rw [c2]
    have hb : bufferBytes (cmdLoadAddress K (accepted (receiving st) s (loadAddressMsg K w)
        (xorAll (frameBody K s (loadAddressMsg K w))))).msgBuffer 0 2 =
        [K.CMD_LOAD_ADDRESS, K.STATUS_CMD_OK] := by
      simp only [bufferBytes, Nat.zero_add]
      have z0 : (cmdLoadAddress K (accepted (receiving st) s (loadAddressMsg K w)
          (xorAll (frameBody K s (loadAddressMsg K w))))).msgBuffer 0 = K.CMD_LOAD_ADDRESS := by
        show Function.update (storeAt (receiving st).msgBuffer 0 (loadAddressMsg K w)) 1
          K.STATUS_CMD_OK 0 = _
        rw [Function.update_noteq (by decide), m0]
      have z1 : (cmdLoadAddress K (accepted (receiving st) s (loadAddressMsg K w)
          (xorAll (frameBody K s (loadAddressMsg K w))))).msgBuffer 1 = K.STATUS_CMD_OK := by
        show Function.update (storeAt (receiving st).msgBuffer 0 (loadAddressMsg K w)) 1
          K.STATUS_CMD_OK 1 = _
        rw [Function.update_same]
      rw [z0, z1]
    have hl2 : (cmdLoadAddress K (accepted (receiving st) s (loadAddressMsg K w)
        (xorAll (frameBody K s (loadAddressMsg K w))))).msgLength = 2 := rfl
    rw [hl2, hb]

/-- The Program-EEPROM frame for a block `D` that stays inside the EEPROM,
handled by the main loop: `D` goes to the cells from `(address >> 1) mod 2^16`
on. -/
theorem mainLoop_programEeprom (K : CommandH) (hK : K.valid) (fuel n : Nat) (st : State)
    (s : Nat) (D rest : List Nat) (hl : st.isLeave = 0)
    (hser : st.selectedSerial = 0 ∨ st.selectedSerial = 2)
    (hD : D.length ≤ 275) (hfuel : D.length < fuel) (ha : st.address < 2 ^ 32)
    (hend : (st.address >>> 1) % 65536 + D.length ≤ E2END + 1) :
    ∃ st1, mainLoop K fuel (n + 1) st (frame K s (programEepromMsg K D) ++ rest)
        = mainLoop K fuel n st1 rest ∧
      st1.isLeave = 0 ∧ st1.selectedSerial = st.selectedSerial ∧
      st1.eeprom = eepromWith st.eeprom ((st.address >>> 1) % 65536) D ∧
      st1.tx = st.tx ++ frame K s [K.CMD_PROGRAM_EEPROM_ISP, K.STATUS_CMD_OK] := by
  have hlen : (programEepromMsg K D).length = D.length + 10 := by simp [programEepromMsg]
  have hm : ∀ j, j < D.length + 10 →
      storeAt (receiving st).msgBuffer 0 (programEepromMsg K D) j =
      (programEepromMsg K D).getD j 0 := fun j hj => storeAt_zero _ _ _ (by rw [hlen]; exact hj)
  have m0 : storeAt (receiving st).msgBuffer 0 (programEepromMsg K D) 0
      = K.CMD_PROGRAM_EEPROM_ISP := hm 0 (by omega)
  have m1 : storeAt (receiving st).msgBuffer 0 (programEepromMsg K D) 1 = D.length / 256 :=
    hm 1 (by omega)
  have m2 : storeAt (receiving st).msgBuffer 0 (programEepromMsg K D) 2 = D.length % 256 :=
    hm 2 (by omega)
  have md : ∀ i, i < D.length →
      storeAt (receiving st).msgBuffer 0 (programEepromMsg K D) (10 + i) = D.getD i 0 := by
    intro i hi
    rw [hm (10 + i) (by omega)]
    unfold programEepromMsg
    rw [List.getD_append_right _ _ _ _ (by simp)]
    simp
  have hnf : K.CMD_PROGRAM_EEPROM_ISP ≠ K.CMD_PROGRAM_FLASH_ISP :=
    label_ne K hK 14 13 (by decide) (by decide) (by decide)
  have hnl : (programEepromMsg K D).getD 0 0 ≠ K.CMD_LEAVE_PROGMODE_ISP :=
    label_ne K hK 14 3 (by decide) (by decide) (by decide)
  obtain ⟨r1, -, -, -, -, -, -, -⟩ := receiving_fields st
  have xa : (accepted (receiving st) s (programEepromMsg K D)
      (xorAll (frameBody K s (programEepromMsg K D)))).address = st.address := r1
  obtain ⟨st2, e1, -, e3, e4, e5, e6⟩ := cmdProgram_eeprom K fuel
    (accepted (receiving st) s (programEepromMsg K D)
      (xorAll (frameBody K s (programEepromMsg K D)))) D.length
    (by
      show storeAt (receiving st).msgBuffer 0 (programEepromMsg K D) 0 ≠ _
      rw [m0]; exact hnf)
    (by
      show (storeAt (receiving st).msgBuffer 0 (programEepromMsg K D) 1 <<< 8 |||
        storeAt (receiving st).msgBuffer 0 (programEepromMsg K D) 2) % 65536 = _
      rw [m1, m2]
      exact size_join _ (by omega))
    hfuel (by rw [xa]; exact hend) (by rw [xa]; exact ha)
  rw [xa] at e3
  have hp : processCommand K fuel (accepted (receiving st) s (programEepromMsg K D)
      (xorAll (frameBody K s (programEepromMsg K D)))) = Res.ok st2 := by
    rw [processCommand_programEeprom K hK fuel _ m0, e1]
  obtain ⟨c1, c2, c3, c4, -, c6⟩ := mainLoop_command K hK fuel n st st2 s (programEepromMsg K D)
    rest hl hser (by rw [hlen]; omega) (by rw [hlen]; omega) hnl hp (by rw [e4]; decide)
  refine ⟨_, c1, c3, c4, ?_, ?_⟩
  · rw [c6]
    funext x
    rw [e3]
    unfold eepromWith
    by_cases hx : (st.address >>> 1) % 65536 ≤ x ∧ x < (st.address >>> 1) % 65536 + D.length
    · rw [if_pos hx, if_pos hx]
      exact md _ (by omega)
    · rw [if_neg hx, if_neg hx]
      exact congrFun (receiving_eeprom st) x
  · rw [c2, e4]
    simp only [bufferBytes, Nat.zero_add]
    rw [e5, e6]
    show _ ++ frame K s [storeAt (receiving st).msgBuffer 0 (programEepromMsg K D) 0, _] = _
    rw [m0]

/-- The bytes of a reply that carries the data `R` between two status
bytes. -/
theorem bufferBytes_reply (buf : Nat → Nat) (op ok : Nat) (R : List Nat)
    (h0 : buf 0 = op) (h1 : buf 1 = ok) (hd : ∀ i, i < R.length → buf (2 + i) = R.getD i 0)
    (hlast : buf (R.length + 2) = ok) :
    bufferBytes buf 0 (R.length + 3) = [op, ok] ++ R ++ [ok] := by
  rw [show R.length + 3 = 2 + (R.length + 1) by omega, bufferBytes_append, bufferBytes_append,
    bufferBytes_eq buf R.length (0 + 2) R rfl (by simpa using hd)]
  simp only [bufferBytes, Nat.zero_add, h0, h1]
  rw [show 2 + R.length = R.length + 2 by omega, hlast]
  simp

theorem getD_map_range (f : Nat → Nat) (m i : Nat) (hi : i < m) :
    ((List.range m).map f).getD i 0 = f i := by
  simp [List.getD_eq_getElem?_getD, List.getElem?_range hi]

/-- The Read-EEPROM frame for `m` bytes that stay inside the EEPROM, handled
by the main loop: the reply carries the cells from `address` on. -/
theorem mainLoop_readEeprom (K : CommandH) (hK : K.valid) (fuel n : Nat) (st : State)
    (s m : Nat) (rest : List Nat) (hl : st.isLeave = 0)
    (hser : st.selectedSerial = 0 ∨ st.selectedSerial = 2)
    (hm1 : 1 ≤ m) (hm2 : m ≤ 282) (hfuel : m ≤ fuel) (hend : st.address + m ≤ E2END + 1) :
    ∃ st1, mainLoop K fuel (n + 1) st (frame K s (readEepromMsg K m) ++ rest)
        = mainLoop K fuel n st1 rest ∧
      st1.isLeave = 0 ∧ st1.selectedSerial = st.selectedSerial ∧ st1.eeprom = st.eeprom ∧
      st1.tx = st.tx ++ frame K s
        ([K.CMD_READ_EEPROM_ISP, K.STATUS_CMD_OK] ++
          (List.range m).map (fun i => st.eeprom (st.address + i)) ++ [K.STATUS_CMD_OK]) := by
  have hlen : (readEepromMsg K m).length = 4 := rfl
  have hm : ∀ j, j < 4 → storeAt (receiving st).msgBuffer 0 (readEepromMsg K m) j =
      (readEepromMsg K m).getD j 0 := fun j hj => storeAt_zero _ _ _ (by rw [hlen]; exact hj)
  have m0 : storeAt (receiving st).msgBuffer 0 (readEepromMsg K m) 0 = K.CMD_READ_EEPROM_ISP :=
    hm 0 (by omega)
  have m1 : storeAt (receiving st).msgBuffer 0 (readEepromMsg K m) 1 = m / 256 := hm 1 (by omega)
  have m2 : storeAt (receiving st).msgBuffer 0 (readEepromMsg K m) 2 = m % 256 := hm 2 (by omega)
  have hnf : K.CMD_READ_EEPROM_ISP ≠ K.CMD_READ_FLASH_ISP :=
    label_ne K hK 16 15 (by decide) (by decide) (by decide)
  have hnl : (readEepromMsg K m).getD 0 0 ≠ K.CMD_LEAVE_PROGMODE_ISP :=
    label_ne K hK 16 3 (by decide) (by decide) (by decide)
  obtain ⟨r1, -, -, -, -, -, -, -⟩ := receiving_fields st
  have xa : (accepted (receiving st) s (readEepromMsg K m)
      (xorAll (frameBody K s (readEepromMsg K m)))).address = st.address := r1
  have xe : (accepted (receiving st) s (readEepromMsg K m)
      (xorAll (frameBody K s (readEepromMsg K m)))).eeprom = st.eeprom := receiving_eeprom st
  obtain ⟨st2, e1, -, e3, e4, e5, e6, e7, e8⟩ := cmdRead_eeprom K fuel
    (accepted (receiving st) s (readEepromMsg K m)
      (xorAll (frameBody K s (readEepromMsg K m)))) m
    (by
      show storeAt (receiving st).msgBuffer 0 (readEepromMsg K m) 0 ≠ _
      rw [m0]; exact hnf)
    (by
      show (storeAt (receiving st).msgBuffer 0 (readEepromMsg K m) 1 <<< 8 |||
        storeAt (receiving st).msgBuffer 0 (readEepromMsg K m) 2) % 65536 = _
      rw [m1, m2]
      exact size_join _ (by omega))
    hm1 (by omega) hfuel (by rw [xa]; exact hend)
  rw [xa, xe] at e7
  have e5' : st2.msgBuffer 0 = K.CMD_READ_EEPROM_ISP := e5.trans m0
  have hp : processCommand K fuel (accepted (receiving st) s (readEepromMsg K m)
      (xorAll (frameBody K s (readEepromMsg K m)))) = Res.ok st2 := by
    rw [processCommand_readEeprom K hK fuel _ m0, e1]
  obtain ⟨c1, c2, c3, c4, -, c6⟩ := mainLoop_command K hK fuel n st st2 s (readEepromMsg K m)
    rest hl hser (by rw [hlen]; omega) (by rw [hlen]; omega) hnl hp (by rw [e4]; omega)
  have hR : ((List.range m).map (fun i => st.eeprom (st.address + i))).length = m := by simp
  have hb := bufferBytes_reply st2.msgBuffer K.CMD_READ_EEPROM_ISP K.STATUS_CMD_OK
    ((List.range m).map (fun i => st.eeprom (st.address + i))) e5' e6
    (by
      intro i hi
      rw [hR] at hi
      rw [e7 i hi, getD_map_range _ _ _ hi])
    (by rw [hR]; exact e8)
  rw [hR] at hb
  refine ⟨_, c1, c3, c4, by rw [c6, e3, xe], ?_⟩
  rw [c2, e4, hb]

/-- The command sequence Load-address(`A`), Program-EEPROM(`D`),
Load-address(`A`), Read-EEPROM(`|D|`) on the wire, for addresses inside the
EEPROM: the write puts `D` in the cells `A, A+1, ...`, the read returns the
cells `2A, 2A+1, ...`, so the `i`-th data byte of the reply is `D[A+i]` while
`A + i < |D|` and the old content of the cell `2A + i` after that. -/
theorem eeprom_sequence (K : CommandH) (hK : K.valid) (fuel n s : Nat) (st : State)
    (A : Nat) (D : List Nat) (hl : st.isLeave = 0)
    (hser : st.selectedSerial = 0 ∨ st.selectedSerial = 2)
    (hD1 : 1 ≤ D.length) (hD2 : D.length ≤ 275) (hfuel : D.length < fuel)
    (hA : 2 * A + D.length ≤ E2END + 1) :
    ∃ st1, mainLoop K fuel (n + 4) st
        (wire K s [loadAddressMsg K A, programEepromMsg K D, loadAddressMsg K A,
          readEepromMsg K D.length])
        = mainLoop K fuel n st1 [] ∧
      st1.eeprom = eepromWith st.eeprom A D ∧
      st1.tx = st.tx ++ wire K s
        [[K.CMD_LOAD_ADDRESS, K.STATUS_CMD_OK], [K.CMD_PROGRAM_EEPROM_ISP, K.STATUS_CMD_OK],
         [K.CMD_LOAD_ADDRESS, K.STATUS_CMD_OK],
         [K.CMD_READ_EEPROM_ISP, K.STATUS_CMD_OK] ++
           (List.range D.length).map (fun i =>
             if A + i < D.length then D.getD (A + i) 0 else st.eeprom (2 * A + i)) ++
           [K.STATUS_CMD_OK]] := by
  have hE : E2END + 1 = 4096 := by decide
  rw [hE] at hA
  obtain ⟨s1, a1, a2, a3, a4, a5, a6⟩ := mainLoop_loadAddress K hK fuel (n + 3) st s A
    (wire K s [programEepromMsg K D, loadAddressMsg K A, readEepromMsg K D.length]) hl hser
    (by omega)
  have hhalf : (s1.address >>> 1) % 65536 = A := by
    rw [a4, Nat.shiftRight_eq_div_pow]; omega
  obtain ⟨s2, b1, b2, b3, b4, b5⟩ := mainLoop_programEeprom K hK fuel (n + 2) s1 s D
    (wire K s [loadAddressMsg K A, readEepromMsg K D.length]) a2 (by rw [a3]; exact hser)
    hD2 hfuel (by rw [a4]; omega) (by rw [hhalf, hE]; omega)
  rw [hhalf, a5] at b4
  obtain ⟨s3, c1, c2, c3, c4, c5, c6⟩ := mainLoop_loadAddress K hK fuel (n + 1) s2 s A
    (wire K s [readEepromMsg K D.length]) b2 (by rw [b3, a3]; exact hser) (by omega)
  obtain ⟨s4, d1, -, -, d4, d5⟩ := mainLoop_readEeprom K hK fuel n s3 s D.length [] c2
    (by rw [c3, b3, a3]; exact hser) hD1 (by omega) (by omega) (by rw [c4, hE]; omega)
  have w1 : wire K s [loadAddressMsg K A, programEepromMsg K D, loadAddressMsg K A,
      readEepromMsg K D.length] = frame K s (loadAddressMsg K A) ++
      wire K s [programEepromMsg K D, loadAddressMsg K A, readEepromMsg K D.length] := rfl
  have w2 : wire K s [programEepromMsg K D, loadAddressMsg K A, readEepromMsg K D.length] =
      frame K s (programEepromMsg K D) ++
      wire K s [loadAddressMsg K A, readEepromMsg K D.length] := rfl
  have w3 : wire K s [loadAddressMsg K A, readEepromMsg K D.length] =
      frame K s (loadAddressMsg K A) ++ wire K s [readEepromMsg K D.length] := rfl
  have w4 : wire K s [readEepromMsg K D.length] = frame K s (readEepromMsg K D.length) ++ [] := by
    show frame K s (readEepromMsg K D.length) ++ [] = _
    rfl
  refine ⟨s4, ?_, by rw [d4, c5, b4], ?_⟩
  · rw [show n + 4 = (n + 3) + 1 by omega, w1, a1, show n + 3 = (n + 2) + 1 by omega, w2, b1,
      show n + 2 = (n + 1) + 1 by omega, w3, c1, w4, d1]
  · rw [d5, c6, b5, a6, c4, c5, b4]
    have hR : (List.range D.length).map
        (fun i => eepromWith st.eeprom A D (2 * A + i)) =
        (List.range D.length).map (fun i =>
          if A + i < D.length then D.getD (A + i) 0 else st.eeprom (2 * A + i)) := by
      apply List.map_congr_left
      intro i _
      unfold eepromWith
      by_cases h : A + i < D.length
      · rw [if_pos (by omega), if_pos h, show 2 * A + i - A = A + i by omega]
      · rw [if_neg (by omega), if_neg h]
    rw [hR]
    simp only [wire, List.append_assoc, List.append_nil]

/-- C31 fails on the code: a machine fresh from reset (EEPROM erased) that
receives Load-address(1), Program-EEPROM(`[0xAB]`), Load-address(1),
Read-EEPROM(1) answers the read with the data byte `0xFF`, not `0xAB`: the
write went to the cell 1 (`address >> 1`), the read took the cell 2
(`address`). -/
theorem eeprom_roundtrip_fails :
    (mainLoop avr068 2 5 resetState
      (wire avr068 1 [loadAddressMsg avr068 1, programEepromMsg avr068 [0xAB],
        loadAddressMsg avr068 1, readEepromMsg avr068 1])).reached.tx =
      wire avr068 1
        [[avr068.CMD_LOAD_ADDRESS, avr068.STATUS_CMD_OK],
         [avr068.CMD_PROGRAM_EEPROM_ISP, avr068.STATUS_CMD_OK],
         [avr068.CMD_LOAD_ADDRESS, avr068.STATUS_CMD_OK],
         [avr068.CMD_READ_EEPROM_ISP, avr068.STATUS_CMD_OK, 0xFF, avr068.STATUS_CMD_OK]] ∧
    (mainLoop avr068 2 5 resetState
      (wire avr068 1 [loadAddressMsg avr068 1, programEepromMsg avr068 [0xAB],
        loadAddressMsg avr068 1, readEepromMsg avr068 1])).reached.eeprom 1 = 0xAB ∧
    (mainLoop avr068 2 5 resetState
      (wire avr068 1 [loadAddressMsg avr068 1, programEepromMsg avr068 [0xAB],
        loadAddressMsg avr068 1, readEepromMsg avr068 1])).reached.eeprom 2 = 0xFF := by
  obtain ⟨st1, e1, e2, e3⟩ := eeprom_sequence avr068 (by decide) 2 1 1 resetState 1 [0xAB] rfl
    (Or.inl rfl) (by decide) (by decide) (by decide) (by decide)
  have e1' : mainLoop avr068 2 5 resetState
      (wire avr068 1 [loadAddressMsg avr068 1, programEepromMsg avr068 [0xAB],
        loadAddressMsg avr068 1, readEepromMsg avr068 1]) = mainLoop avr068 2 1 st1 [] := e1
  rw [e1']
  refine ⟨?_, ?_, ?_⟩
  · rw [mainLoop_nil, e3]
    rfl
  · rw [mainLoop_nil_inv (fun s => s.eeprom) (fun _ _ => rfl), e2]
    rfl
  · rw [mainLoop_nil_inv (fun s => s.eeprom) (fun _ _ => rfl), e2]
    rfl

/-! ## Theorems: a second run of the self-update -/

theorem selfUpdateErase_copyControl (st : State) (pa : Nat) :
    copyControl (selfUpdateErase st pa) = copyControl st := by
  unfold selfUpdateErase
  split_ifs <;> rfl

theorem commit_copyControl (st : State) (a : Nat) :
    copyControl (boot_rww_enable (boot_page_write st a)) = copyControl st := rfl

theorem selfUpdateWrite_copyControl (st : State) (pa : Nat) :
    copyControl (selfUpdateWrite st pa) = copyControl st := by
  rw [selfUpdateWrite_eq]
  exact commit_copyControl st _

theorem copyControl_eq {a b : State} (h : copyControl a = copyControl b) :
    a.boot_copy_size = b.boot_copy_size ∧ a.boot_app_flags = b.boot_app_flags ∧
    a.address = b.address := by
  simp only [copyControl, Prod.mk.injEq] at h
  exact h

/-- With `BOOT_APP_FLG_COPY` set, bytes left to copy and `address` in the last
page of the 32-bit range, the self-update loop never ends: `pageAddress`, a
multiple of the page size below `2^32`, is never above `address`, so the inner
loop copies nothing and `boot_copy_size` stays as it is. -/
theorem selfUpdateLoop_stuck (fuel : Nat) : ∀ (st : State) (pa : Nat),
    st.boot_copy_size ≠ 0 → st.boot_app_flags &&& BOOT_APP_FLG_COPY ≠ 0 →
    2 ^ 32 - SPM_PAGESIZE ≤ st.address → pa % SPM_PAGESIZE = 0 →
    ∃ st1, selfUpdateLoop fuel st pa = Res.hang st1 ∧
      st1.boot_copy_size = st.boot_copy_size := by
  induction fuel with
  | zero => intro st pa _ _ _ _; exact ⟨st, rfl, rfl⟩
  | succ fuel ih =>
    intro st pa hsz hcopy haddr hpa
    have hP : SPM_PAGESIZE = 256 := rfl
    rw [hP] at haddr hpa
    obtain ⟨x1, x2, x3⟩ := copyControl_eq (selfUpdateErase_copyControl st pa)
    have hle : (pa + 256) % 2 ^ 32 ≤ (selfUpdateErase st pa).address := by
      rw [x3]; omega
    rw [selfUpdateLoop, if_pos hsz]
    simp only []
    rw [if_pos (by rw [x2]; exact hcopy), hP]
    cases fuel with
    | zero => exact ⟨_, rfl, x1⟩
    | succ fuel =>
      rw [selfUpdateCopy, if_neg (by intro h; omega)]
      obtain ⟨y1, y2, y3⟩ := copyControl_eq
        (selfUpdateWrite_copyControl (selfUpdateErase st pa) ((pa + 256) % 2 ^ 32))
      obtain ⟨st1, e1, e2⟩ := ih (selfUpdateWrite (selfUpdateErase st pa) ((pa + 256) % 2 ^ 32))
        ((pa + 256) % 2 ^ 32) (by rw [y1, x1]; exact hsz) (by rw [y2, x2]; exact hcopy)
        (by rw [y3, x3, hP]; exact haddr) (by rw [hP]; omega)
      exact ⟨st1, e1, by rw [e2, y1, x1]⟩

/-- The self-update loop ends only with `boot_copy_size = 0`. -/
theorem selfUpdateLoop_done (fuel : Nat) : ∀ (st st1 : State) (pa : Nat),
    selfUpdateLoop fuel st pa = Res.ok st1 → st1.boot_copy_size = 0 := by
  induction fuel with
  | zero => intro st st1 pa h; cases h
  | succ fuel ih =>
    intro st st1 pa h
    rw [selfUpdateLoop] at h
    by_cases hsz : st.boot_copy_size = 0
    · rw [if_neg (by rw [hsz]; decide)] at h
      cases h
      exact hsz
    · rw [if_pos hsz] at h
      simp only [] at h
      by_cases hc : (selfUpdateErase st pa).boot_app_flags &&& BOOT_APP_FLG_COPY ≠ 0
      · rw [if_pos hc] at h
        cases hr : selfUpdateCopy fuel (selfUpdateErase st pa)
            ((pa + SPM_PAGESIZE) % 2 ^ 32) with
        | ok s1 =>
          rw [hr] at h
          exact ih _ _ _ h
        | hang s1 =>
          rw [hr] at h
          cases h
        | jump s1 =>
          rw [hr] at h
          cases h
      · rw [if_neg hc] at h
        exact ih _ _ _ h

theorem selfUpdateCopyStep_descriptorHead (st : State) :
    descriptorHead (selfUpdateCopyStep st) = descriptorHead st := by
  unfold selfUpdateCopyStep
  dsimp only
  split_ifs <;> rfl

theorem selfUpdateErase_descriptorHead (st : State) (pa : Nat) :
    descriptorHead (selfUpdateErase st pa) = descriptorHead st := by
  unfold selfUpdateErase
  split_ifs <;> rfl

theorem commit_descriptorHead (st : State) (a : Nat) :
    descriptorHead (boot_rww_enable (boot_page_write st a)) = descriptorHead st := rfl

theorem selfUpdateWrite_descriptorHead (st : State) (pa : Nat) :
    descriptorHead (selfUpdateWrite st pa) = descriptorHead st := by
  rw [selfUpdateWrite_eq]
  exact commit_descriptorHead st _

theorem selfUpdateSkip_descriptorHead (st : State) :
    descriptorHead (selfUpdateSkip st) = descriptorHead st := by
  unfold selfUpdateSkip
  dsimp only
  split_ifs <;> rfl

/-- A second run of the watchdog block, on the state a first run that
returned has left, goes on at the same label and performs no hardware
operation: the flash, the page buffer and the log are as the first run left
them. -/
theorem selfUpdate_replay (fuel fuel2 mcuStatusReg : Nat) (st st1 : State) (nxt : Next)
    (h : selfUpdate fuel mcuStatusReg st = Res.ok (st1, nxt)) (hf2 : 1 ≤ fuel2) :
    ∃ st2, selfUpdate fuel2 mcuStatusReg st1 = Res.ok (st2, nxt) ∧
      flashState st2 = flashState st1 ∧
      (st.boot_app_magic = 0x55aa55aa → mcuStatusReg &&& (1 <<< WDRF) ≠ 0 →
        st.boot_app_flags &&& BOOT_APP_FLG_RUN = 0 → st1.boot_copy_size = 0) := by
  unfold selfUpdate at h
  by_cases hw : mcuStatusReg &&& (1 <<< WDRF) ≠ 0
  · rw [if_pos hw] at h
    by_cases hm : st.boot_app_magic = 0x55aa55aa
    · rw [if_pos hm] at h
      by_cases hr : st.boot_app_flags &&& BOOT_APP_FLG_RUN ≠ 0
      · rw [if_pos hr] at h
        simp only [Res.ok.injEq, Prod.mk.injEq] at h
        obtain ⟨rfl, rfl⟩ := h
        refine ⟨st, ?_, rfl, fun _ _ h0 => absurd h0 hr⟩
        unfold selfUpdate
        rw [if_pos hw, if_pos hm, if_pos hr]
      · rw [if_neg hr] at h
        simp only [] at h
        cases hl : selfUpdateLoop fuel { st with address := st.boot_dst_addr }
            st.boot_dst_addr with
        | hang s1 =>
          rw [hl] at h
          cases h
        | jump s1 =>
          rw [hl] at h
          cases h
        | ok s1 =>
          rw [hl] at h
          simp only [Res.ok.injEq, Prod.mk.injEq] at h
          obtain ⟨rfl, rfl⟩ := h
          have hz := selfUpdateLoop_done fuel _ _ _ hl
          have hd := selfUpdateLoop_inv descriptorHead selfUpdateCopyStep_descriptorHead
            selfUpdateErase_descriptorHead selfUpdateWrite_descriptorHead
            selfUpdateSkip_descriptorHead fuel { st with address := st.boot_dst_addr }
            st.boot_dst_addr
          rw [hl] at hd
          have hd2 : descriptorHead s1 = descriptorHead st := hd
          simp only [descriptorHead, Prod.mk.injEq] at hd2
          obtain ⟨f, rfl⟩ : ∃ f, fuel2 = f + 1 := ⟨fuel2 - 1, by omega⟩
          refine ⟨{ s1 with address := s1.boot_dst_addr }, ?_, rfl, fun _ _ _ => hz⟩
          unfold selfUpdate
          rw [if_pos hw, if_pos (by rw [hd2.1]; exact hm), if_neg (by rw [hd2.2]; exact hr)]
          simp only []
          rw [selfUpdateLoop, if_neg (fun hne => hne hz)]
    · rw [if_neg hm] at h
      simp only [Res.ok.injEq, Prod.mk.injEq] at h
      obtain ⟨rfl, rfl⟩ := h
      refine ⟨st, ?_, rfl, fun h0 => absurd h0 hm⟩
      unfold selfUpdate
      rw [if_pos hw, if_neg hm]
  · rw [if_neg hw] at h
    simp only [Res.ok.injEq, Prod.mk.injEq] at h
    obtain ⟨rfl, rfl⟩ := h
    refine ⟨st, ?_, rfl, fun _ h0 => absurd h0 hw⟩
    unfold selfUpdate
    rw [if_neg hw]

/-- C32 fails on the code: after a watchdog reset with the descriptor
`wrapCopyRequest` (valid magic, erase and copy of 2 bytes to `0xFFFFFF00`) the
first run of the self-update never ends, whatever the bound on the loop
iterations, and `boot_copy_size` stays 2: there is no descriptor left behind
with `boot_copy_size = 0` for a second run to find. -/
theorem replay_first_run_hangs (fuel : Nat) :
    wrapCopyRequest.boot_app_magic = 0x55aa55aa ∧
    wrapCopyRequest.boot_app_flags &&& BOOT_APP_FLG_RUN = 0 ∧
    ∃ st1, selfUpdate fuel (1 <<< WDRF) wrapCopyRequest = Res.hang st1 ∧
      st1.boot_copy_size = 2 := by
  refine ⟨rfl, by decide, ?_⟩
  obtain ⟨st1, e1, e2⟩ := selfUpdateLoop_stuck fuel
    { wrapCopyRequest with address := wrapCopyRequest.boot_dst_addr }
    wrapCopyRequest.boot_dst_addr (by decide) (by decide) (by decide) (by decide)
  refine ⟨st1, ?_, e2⟩
  unfold selfUpdate
  rw [if_pos (by decide),
    if_pos (show wrapCopyRequest.boot_app_magic = 0x55aa55aa from rfl),
    if_neg (show ¬ (wrapCopyRequest.boot_app_flags &&& BOOT_APP_FLG_RUN ≠ 0) by decide)]
  simp only []
  rw [e1]

/-! ## Theorems: the two exits of the main loop -/

end Stk500
